import Mathlib

/-!
# smarties: ReplayMemory/MemoryProcessing.cpp

Shallow embedding of `MemoryProcessing` (constructor, moment estimator, ReF-ER
penalisation, episode selection and removal, importance-weight histogram) and
the properties proved about it.

Conventions of the embedding.
* Floating point values (`Real`, `nnReal`, `long double`) are elements of a
  linearly ordered field `K`; arithmetic is exact.  `std::sqrt`, `std::exp`,
  `std::log` and the constants `std::numeric_limits<nnReal>::epsilon()` and
  `std::numeric_limits<Fval>::max()` are parameters.
* One rounding is explicit: the sum stored in `CmaxRet`, which
  `selectEpisodeToDelete` compares with 1 to decide the call of `die`, is
  rounded by the parameter `fl` in the definitions named `...Fl`; the
  definitions without the suffix are the case of exact sums.
* Division is the division of the field, which is total.  Where the code
  divides by zero its result is an infinity or not a number, which no element
  of `K` stands for: the statements about the moments computed from
  `sum / count` and about `CmaxRet` computed from `nTransitions / maxObsNum`
  assume a divisor that is not zero.
* `std::vector` is `List`; reads are `List.getD _ _ 0` where the source reads
  an index that the sizes fixed by the source keep in range.
* A failed `assert`, the call of `die` and an out-of-range episode index make
  a function return `none`.
* The OpenMP reductions are sequential folds in index order.
* The asynchronous reducers are outside the file: the vector that `get`
  returns is an argument of the function that reads it.
-/

namespace smarties

/-! ## Data model -/

/-- Modelled from the spec: the class `Episode` (its header is not part of the
sources).  It carries the attributes the processor reads: `ID`, the per-step
`states`, `rewards` and `offPolicImpW`, the cumulative `sumKLDivergence` and
`totR`, the counter returned by `nFarPolicySteps()`, the marker `just_sampled`
(`-1` is "none") and the number of transitions returned by `ndata()`. -/
structure Episode (K : Type) where
  ID : Int
  states : List (List K)
  rewards : List K
  offPolicImpW : List K
  sumKLDivergence : K
  totR : K
  nFarPolicySteps : Nat
  just_sampled : Int
  ndata : Nat

/-- The configuration values read by `MemoryProcessing` (`settings`, `MDP`,
`distrib`). -/
structure Settings (K : Type) where
  clipImpWeight : K
  penalTol : K
  epsAnneal : K
  batchSize : Nat
  maxTotObsNum : Nat
  maxTotObsNum_local : Nat
  dimStateObserved : Nat
  bTrain : Bool

/-- The removal algorithms `FORGET`. -/
inductive FORGET where
  | OLDEST
  | FARPOLFRAC
  | MAXKLDIV
  | BATCHRL
  deriving DecidableEq, Repr

/-- State of `MemoryProcessing` together with the part of the `MemoryBuffer`
it reads and writes (`episodes`, `lastSampledEpisodes`,
`avgCumulativeReward`). -/
structure MemoryProcessing (K : Type) where
  episodes : List (Episode K)
  lastSampledEpisodes : List Nat
  avgCumulativeReward : K
  mean_reward : K
  std_reward : K
  invstd_reward : K
  mean_state : List K
  std_state : List K
  invstd_state : List K
  nSeenEpisodes : Int
  nSeenTransitions : Int
  beta : K
  alpha : K
  CmaxRet : K
  CinvRet : K
  nFarPolicySteps : Nat
  avgKLdivergence : K
  oldestStoresTimeStamp : Int
  indexOfEpisodeToDelete : Int
  nPrunedEps : Nat
  nGradSteps : Nat

section Model

variable {K : Type} [LinearOrderedField K]

/-- Modelled from the spec: `MemoryBuffer::readNSeq`, the count of episodes. -/
def readNSeq (st : MemoryProcessing K) : Nat := st.episodes.length

/-- Modelled from the spec: `MemoryBuffer::readNData` (and the counter
`nTransitions`), the count of transitions stored in the buffer. -/
def readNData (st : MemoryProcessing K) : Nat := (st.episodes.map Episode.ndata).sum

/-! ## ReF-ER penalisation (`updateReFERpenalization`) -/

/-- The lambda `fixPointIter` of `updateReFERpenalization`. -/
def fixPointIter (learnRefer val : K) (goTo0 : Bool) : K :=
  if goTo0 then (1 - min learnRefer val) * val
  else (1 - min learnRefer val) * val + min learnRefer (1 - val)

/-- The learning rate `learnRefer = 0.1 * batchSize / nDataSize` with
`nDataSize = max(maxTotObsNum, nFarGlobal[1])`. -/
def learnRefer (cfg : Settings K) (nFarGlobal1 : K) : K :=
  (1 / 10) * (cfg.batchSize : K) / max (cfg.maxTotObsNum : K) nFarGlobal1

/-- `MemoryProcessing::updateReFERpenalization`.  `nFarGlobal` is the pair
returned by `ReFER_reduce.get()`; the pair `(nFarPolicySteps, dataSetSize)`
passed to `ReFER_reduce.update` leaves the state untouched. -/
def updateReFERpenalization (cfg : Settings K) (nFarGlobal : K × K)
    (st : MemoryProcessing K) : Option (MemoryProcessing K) :=
  let dataSetSize : K := (readNData st : K)
  if nFarGlobal.2 + 1 > dataSetSize then
    let fracOffPol : K := nFarGlobal.1 / nFarGlobal.2
    let eta : K := learnRefer cfg nFarGlobal.2
    let beta := fixPointIter eta st.beta (decide (fracOffPol > cfg.penalTol))
    let alpha := fixPointIter eta st.alpha (decide (|cfg.penalTol - fracOffPol| < 1 / 1000))
    some { st with beta := beta, alpha := alpha }
  else none

/-- Repeated calls of `updateReFERpenalization`: at step `n` the reducer
returns the pair `(nFar n, nData)`. -/
def iterateReFER (cfg : Settings K) (nFar : Nat → K) (nData : K) :
    Nat → MemoryProcessing K → Option (MemoryProcessing K)
  | 0, st => some st
  | n + 1, st =>
    (iterateReFER cfg nFar nData n st).bind (updateReFERpenalization cfg (nFar n, nData))

/-! ## Moment estimator (`updateRewardsStats`) -/

/-- The accumulators of the fold over the episodes: `count`, `newRSum`,
`newRSqSum`, `newSSum`, `newSSqSum`. -/
structure StatsAcc (K : Type) where
  count : K
  newRSum : K
  newRSqSum : K
  newSSum : List K
  newSSqSum : List K

/-- Body of the loop over `j`: one transition of the episode `EP`.  The
per-coordinate loop `for k < dimS && WS > 0` adds to the `dimS` entries of the
state accumulators. -/
def accumTransition (dimS : Nat) (WS mean_reward : K) (mean_state : List K)
    (EP : Episode K) (acc : StatsAcc K) (j : Nat) : StatsAcc K :=
  let drk : K := EP.rewards.getD (j + 1) 0 - mean_reward
  let dsk : Nat → K := fun k => (EP.states.getD j []).getD k 0 - mean_state.getD k 0
  { acc with
    newRSum := acc.newRSum + drk
    newRSqSum := acc.newRSqSum + drk * drk
    newSSum :=
      if 0 < WS then (List.range dimS).map (fun k => acc.newSSum.getD k 0 + dsk k)
      else acc.newSSum
    newSSqSum :=
      if 0 < WS then (List.range dimS).map (fun k => acc.newSSqSum.getD k 0 + dsk k * dsk k)
      else acc.newSSqSum }

/-- Body of the loop over `i`: one episode. -/
def accumEpisode (dimS : Nat) (WS mean_reward : K) (mean_state : List K)
    (acc : StatsAcc K) (EP : Episode K) : StatsAcc K :=
  (List.range EP.ndata).foldl (accumTransition dimS WS mean_reward mean_state EP)
    { acc with count := acc.count + (EP.ndata : K) }

/-- The fold of `updateRewardsStats` over all episodes, from zero
accumulators. -/
def accumStats (dimS : Nat) (WS mean_reward : K) (mean_state : List K)
    (episodes : List (Episode K)) : StatsAcc K :=
  episodes.foldl (accumEpisode dimS WS mean_reward mean_state)
    { count := 0, newRSum := 0, newRSqSum := 0,
      newSSum := List.replicate dimS 0, newSSqSum := List.replicate dimS 0 }

/-- The vector `newSRstats` submitted to `StateRewRdx`:
`newSSum ++ newSSqSum ++ [count, newRSum, newRSqSum]`. -/
def packStats (acc : StatsAcc K) : List K :=
  acc.newSSum ++ acc.newSSqSum ++ [acc.count, acc.newRSum, acc.newRSqSum]

/-- The lambda `updateStats`: the new `(mean, stdev, invstdev)`. -/
def updateStats (sqrt : K → K) (EPS : K) (mean stdev : K)
    (learnRate Evar Evar2 : K) : K × K × K :=
  let mean1 := mean + learnRate * Evar
  let variance := Evar2 - Evar * Evar * (2 * learnRate - learnRate * learnRate)
  let variance := max variance EPS
  let stdev1 := stdev + learnRate * (sqrt variance - stdev)
  (mean1, stdev1, 1 / stdev1)

/-- The loop `for k < dimS` over the state coordinates applied to one of the
three vectors: entry `k < dimS` becomes `f k`, later entries are kept. -/
def updateCoords (dimS : Nat) (f : Nat → K) (v : List K) : List K :=
  (List.range dimS).map f ++ v.drop dimS

/-- The submission block (lines 54-94): the vector passed to
`StateRewRdx.update`, or `none` when neither weight is positive. -/
def submitStats (cfg : Settings K) (WR WS : K) (st : MemoryProcessing K) :
    Option (List K) :=
  if 0 < WR ∨ 0 < WS then
    some (packStats (accumStats cfg.dimStateObserved WS st.mean_reward st.mean_state st.episodes))
  else none

/-- The block `if(WR>0)` (lines 117-121) reading the reduced vector
`newSRstats`.  The quotients by `count` are those of the field: they are the
code's quotients when `count` is not zero; for `count = 0` the code's quotients
are not numbers. -/
def applyRewardStats (sqrt : K → K) (EPS : K) (dimS : Nat) (WR : K) (newSRstats : List K)
    (st : MemoryProcessing K) : MemoryProcessing K :=
  let count := newSRstats.getD (2 * dimS) 0
  if 0 < WR then
    let r := updateStats sqrt EPS st.mean_reward st.std_reward WR
      (newSRstats.getD (2 * dimS + 1) 0 / count) (newSRstats.getD (2 * dimS + 2) 0 / count)
    { st with mean_reward := r.1, std_reward := r.2.1, invstd_reward := r.2.2 }
  else st

/-- The call of `updateStats` for the state coordinate `k` (lines 128-129).
The quotients by `count` are those of the field, as in `applyRewardStats`. -/
def stateCoordStats (sqrt : K → K) (EPS : K) (dimS : Nat) (WS : K) (newSRstats : List K)
    (st : MemoryProcessing K) (k : Nat) : K × K × K :=
  let count := newSRstats.getD (2 * dimS) 0
  let SSum1 := (newSRstats.drop 0).take dimS
  let SSum2 := (newSRstats.drop dimS).take dimS
  updateStats sqrt EPS (st.mean_state.getD k 0) (st.std_state.getD k 0) WS
    (SSum1.getD k 0 / count) (SSum2.getD k 0 / count)

/-- The block `if(WS>0)` (lines 123-130) reading the reduced vector
`newSRstats`. -/
def applyStateStats (sqrt : K → K) (EPS : K) (dimS : Nat) (WS : K) (newSRstats : List K)
    (st : MemoryProcessing K) : MemoryProcessing K :=
  if 0 < WS then
    { st with
      mean_state :=
        updateCoords dimS (fun k => (stateCoordStats sqrt EPS dimS WS newSRstats st k).1)
          st.mean_state
      std_state :=
        updateCoords dimS (fun k => (stateCoordStats sqrt EPS dimS WS newSRstats st k).2.1)
          st.std_state
      invstd_state :=
        updateCoords dimS (fun k => (stateCoordStats sqrt EPS dimS WS newSRstats st k).2.2)
          st.invstd_state }
  else st

/-- `MemoryProcessing::updateRewardsStats`.  `nDataGlobal` is the result of
`globalStep_reduce.get(bInit)`; `rdxGet bInit submitted` is the result of
`StateRewRdx.get(bInit)` when `submitted` was passed to `StateRewRdx.update` in
this call (`none`: no call of `update`).  The second component of the result is
the vector submitted to `StateRewRdx`. -/
def updateRewardsStats (sqrt : K → K) (EPS : K) (cfg : Settings K) (WR WS : K)
    (bInit : Bool) (nDataGlobal : Int × Int) (rdxGet : Bool → Option (List K) → List K)
    (st : MemoryProcessing K) : Option (MemoryProcessing K × Option (List K)) :=
  let st := { st with nSeenEpisodes := nDataGlobal.1, nSeenTransitions := nDataGlobal.2 }
  if !cfg.bTrain then some (st, none)
  else
    let dimS := cfg.dimStateObserved
    let submitted := submitStats cfg WR WS st
    let newSRstats := rdxGet bInit submitted
    if newSRstats.length ≠ 2 * dimS + 3 then none
    else
      some (applyStateStats sqrt EPS dimS WS newSRstats
        (applyRewardStats sqrt EPS dimS WR newSRstats st), submitted)

/-- The vector `initGuessStateRewStats` built by the constructor
`MemoryProcessing::MemoryProcessing` (lines 23-27) and installed in
`StateRewRdx`: `2 * dimS + 3` zeros, the entries `i + dimS` for `i < dimS`
assigned 0, the entries `2 * dimS` and `2 * dimS + 2` assigned 1. -/
def initGuessStateRewStats (dimS : Nat) : List K :=
  let v : List K := List.replicate (dimS * 2 + 3) 0
  let v := (List.range dimS).foldl (fun v i => v.set (i + dimS) 0) v
  let v := v.set (dimS * 2) 1
  v.set (dimS * 2 + 2) 1

/-! ## Episode selection (`selectEpisodeToDelete`) -/

/-- Modelled from the spec: the selector `OldestDatasetEp` of
`ExperienceRemovalAlgorithms.h` (not part of the sources): key `id`, direction
minimum, tie-break index ascending.  `ind = -1` is the selector that has seen
no episode. -/
structure OldestDatasetEp where
  timestamp : Int
  ind : Int
  deriving DecidableEq, Repr

/-- Modelled from the spec: `OldestDatasetEp::compare(EP, i)`, which keeps the
episode of smaller `ID` and, on equal `ID`, the one met first. -/
def OldestDatasetEp.compare (s : OldestDatasetEp) (EP : Episode K) (i : Nat) :
    OldestDatasetEp :=
  if s.ind < 0 ∨ EP.ID < s.timestamp then { timestamp := EP.ID, ind := (i : Int) } else s

/-- The fold `locFirstIn.compare(EP, i)` over the episodes, `i` being the index
of the head of the list. -/
def foldFirstIn : List (Episode K) → Nat → OldestDatasetEp → OldestDatasetEp
  | [], _, s => s
  | EP :: rest, i, s => foldFirstIn rest (i + 1) (s.compare EP i)

/-- Modelled from the spec: what `selectEpisodeToDelete` reads of a selector
whose code is not part of the sources (`MostFarPolicyEp`, `HighestAvgDklEp`,
`MostOffPolicyEp`): its field `ind` and the value `result` of its call
operator.  Both are unconstrained. -/
structure SelectorOutput where
  ind : Int
  result : Int
  deriving DecidableEq, Repr

/-- Modelled from the spec: `Episode::updateCumulative(Cmax, Cinv)`, which
recomputes `sumKLDivergence`, `totR` and the far-policy step count from the
stored per-step quantities; `recompute` gives the three new values. -/
def updateCumulative (recompute : K → K → Episode K → K × K × Nat) (Cmax Cinv : K)
    (EP : Episode K) : Episode K :=
  let r := recompute Cmax Cinv EP
  { EP with sumKLDivergence := r.1, totR := r.2.1, nFarPolicySteps := r.2.2 }

/-- The value given to `CmaxRet` (lines 179-189) with exact sums.  `annealRate`
is `Utilities::annealRate`, not part of the sources.  The quotient
`nTransitions / maxObsNum` is that of the field: it is the code's quotient when
`maxTotObsNum_local` is not zero.  `clipScheduleFl` is the same value with the
rounding of the sum explicit. -/
def clipSchedule (cfg : Settings K) (annealRate : K → Nat → K → K) (ALGO : FORGET)
    (st : MemoryProcessing K) : K :=
  if ALGO = FORGET.BATCHRL then
    let maxObsNum : K := (cfg.maxTotObsNum_local : K)
    let factorUp : K := max 1 ((readNData st : K) / maxObsNum)
    1 + annealRate cfg.clipImpWeight (st.nGradSteps + 1) cfg.epsAnneal * factorUp
  else 1 + cfg.clipImpWeight

/-- The episodes after the loop over `i`: every 100th call each episode runs
`updateCumulative`. -/
def recomputedEpisodes (recompute : K → K → Episode K → K × K × Nat) (Cmax Cinv : K)
    (st : MemoryProcessing K) : List (Episode K) :=
  if (st.nGradSteps + 1) % 100 = 0 then st.episodes.map (updateCumulative recompute Cmax Cinv)
  else st.episodes

/-- The race guard (lines 249-254) applied to the candidate `cand`. -/
def raceGuard (episodes : List (Episode K)) (totFirstIn : OldestDatasetEp) (cand : Int) :
    Option Int :=
  if 0 ≤ cand then
    match episodes[cand.toNat]?, episodes[totFirstIn.ind.toNat]? with
    | some EP2delete, some first =>
      if first.ID + (episodes.length : Int) < EP2delete.ID then some totFirstIn.ind
      else some cand
    | _, _ => none
  else some cand

/-- The selector `totFirstIn` after the fold over the buffer. -/
def firstIn (episodes : List (Episode K)) : OldestDatasetEp :=
  foldFirstIn episodes 0 { timestamp := 0, ind := -1 }

/-- The state after lines 177-230: `CmaxRet`, `CinvRet`, the recomputed
episodes and the aggregates of the fold.  The store `nFarPolicySteps = 0` of
line 226 is followed by the store of line 228. -/
def selectBookkeeping (cfg : Settings K) (annealRate : K → Nat → K → K)
    (recompute : K → K → Episode K → K × K × Nat) (ALGO : FORGET)
    (st : MemoryProcessing K) : MemoryProcessing K :=
  let CmaxRet := clipSchedule cfg annealRate ALGO st
  let CinvRet := 1 / CmaxRet
  let st := { st with CmaxRet := CmaxRet, CinvRet := CinvRet }
  let setSize := readNSeq st
  let episodes := recomputedEpisodes recompute CmaxRet CinvRet st
  let _avgR : K := (episodes.map Episode.totR).sum
  let _totDKL : K := (episodes.map Episode.sumKLDivergence).sum
  let _nOffPol : Nat := (episodes.map Episode.nFarPolicySteps).sum
  let totFirstIn := firstIn episodes
  let st := { st with episodes := episodes }
  let st := if CmaxRet ≤ 1 then { st with nFarPolicySteps := 0 } else st
  { st with
    avgKLdivergence := _totDKL / (readNData st : K)
    nFarPolicySteps := _nOffPol
    avgCumulativeReward := _avgR / (setSize : K)
    oldestStoresTimeStamp := totFirstIn.timestamp }

/-- The `switch (ALGO)` of lines 238-247: the selector result for the chosen
algorithm. -/
def selectedCandidate (totFirstIn : OldestDatasetEp)
    (totMostFar totHighDkl totMostOff : SelectorOutput) (ALGO : FORGET) : Int :=
  match ALGO with
  | FORGET.OLDEST => totFirstIn.ind
  | FORGET.FARPOLFRAC => totMostFar.result
  | FORGET.MAXKLDIV => totHighDkl.result
  | FORGET.BATCHRL => totMostOff.result

/-- `MemoryProcessing::selectEpisodeToDelete`. -/
def selectEpisodeToDelete (cfg : Settings K) (annealRate : K → Nat → K → K)
    (recompute : K → K → Episode K → K × K × Nat)
    (totMostFar totHighDkl totMostOff : SelectorOutput) (ALGO : FORGET)
    (st : MemoryProcessing K) : Option (MemoryProcessing K) :=
  let C := cfg.clipImpWeight
  let CmaxRet := clipSchedule cfg annealRate ALGO st
  if CmaxRet ≤ 1 ∧ 0 < C then none
  else if ¬ (1 ≤ CmaxRet) then none
  else
    let st := selectBookkeeping cfg annealRate recompute ALGO st
    let setSize := readNSeq st
    let totFirstIn := firstIn st.episodes
    if ¬ (0 ≤ totMostFar.ind ∧ totMostFar.ind < (setSize : Int)) then none
    else if ¬ (0 ≤ totHighDkl.ind ∧ totHighDkl.ind < (setSize : Int)) then none
    else if ¬ (0 ≤ totFirstIn.ind ∧ totFirstIn.ind < (setSize : Int)) then none
    else
      match raceGuard st.episodes totFirstIn
        (selectedCandidate totFirstIn totMostFar totHighDkl totMostOff ALGO) with
      | none => none
      | some ind => some { st with indexOfEpisodeToDelete := ind }

/-- The preconditions of a completed `selectEpisodeToDelete`: no fatal error
of the clip schedule, `CmaxRet >= 1`, the asserted selector indices inside the
buffer, and the result of the selector of the chosen algorithm below the number
of episodes (it is read as an index when it is not negative). -/
def SelectCompletes (cfg : Settings K) (annealRate : K → Nat → K → K)
    (totMostFar totHighDkl totMostOff : SelectorOutput) (ALGO : FORGET)
    (st : MemoryProcessing K) : Prop :=
  ¬ (clipSchedule cfg annealRate ALGO st ≤ 1 ∧ 0 < cfg.clipImpWeight) ∧
  1 ≤ clipSchedule cfg annealRate ALGO st ∧
  (0 ≤ totMostFar.ind ∧ totMostFar.ind < (st.episodes.length : Int)) ∧
  (0 ≤ totHighDkl.ind ∧ totHighDkl.ind < (st.episodes.length : Int)) ∧
  (ALGO = FORGET.FARPOLFRAC → totMostFar.result < (st.episodes.length : Int)) ∧
  (ALGO = FORGET.MAXKLDIV → totHighDkl.result < (st.episodes.length : Int)) ∧
  (ALGO = FORGET.BATCHRL → totMostOff.result < (st.episodes.length : Int))

/-! ### The clip schedule with the rounding of the sum explicit

`CmaxRet` is stored as a `Real`, and lines 192-193 compare the stored value with
1.  In the next four definitions the sum `1 + x` of lines 185 and 188 is rounded
by `fl`, the map from the exact sum to the `Real` that is stored; the product
and the quotients stay exact.  With `fl` the identity they are `clipSchedule`,
`selectBookkeeping`, `selectEpisodeToDelete` and `SelectCompletes`. -/

/-- The value given to `CmaxRet` (lines 179-189), the sum rounded by `fl`.
`annealRate` is `Utilities::annealRate`, not part of the sources.  The
quotient `nTransitions / maxObsNum` is the field's: for
`maxTotObsNum_local = 0` the code's quotient is not a number of the field. -/
def clipScheduleFl (fl : K → K) (cfg : Settings K) (annealRate : K → Nat → K → K)
    (ALGO : FORGET) (st : MemoryProcessing K) : K :=
  if ALGO = FORGET.BATCHRL then
    let maxObsNum : K := (cfg.maxTotObsNum_local : K)
    let factorUp : K := max 1 ((readNData st : K) / maxObsNum)
    fl (1 + annealRate cfg.clipImpWeight (st.nGradSteps + 1) cfg.epsAnneal * factorUp)
  else fl (1 + cfg.clipImpWeight)

/-- The state after lines 177-230 with `CmaxRet` the rounded sum. -/
def selectBookkeepingFl (fl : K → K) (cfg : Settings K) (annealRate : K → Nat → K → K)
    (recompute : K → K → Episode K → K × K × Nat) (ALGO : FORGET)
    (st : MemoryProcessing K) : MemoryProcessing K :=
  let CmaxRet := clipScheduleFl fl cfg annealRate ALGO st
  let CinvRet := 1 / CmaxRet
  let st := { st with CmaxRet := CmaxRet, CinvRet := CinvRet }
  let setSize := readNSeq st
  let episodes := recomputedEpisodes recompute CmaxRet CinvRet st
  let _avgR : K := (episodes.map Episode.totR).sum
  let _totDKL : K := (episodes.map Episode.sumKLDivergence).sum
  let _nOffPol : Nat := (episodes.map Episode.nFarPolicySteps).sum
  let totFirstIn := firstIn episodes
  let st := { st with episodes := episodes }
  let st := if CmaxRet ≤ 1 then { st with nFarPolicySteps := 0 } else st
  { st with
    avgKLdivergence := _totDKL / (readNData st : K)
    nFarPolicySteps := _nOffPol
    avgCumulativeReward := _avgR / (setSize : K)
    oldestStoresTimeStamp := totFirstIn.timestamp }

/-- `MemoryProcessing::selectEpisodeToDelete` with `CmaxRet` the rounded sum:
`die` is called when the rounded sum is at most 1 while `C > 0`. -/
def selectEpisodeToDeleteFl (fl : K → K) (cfg : Settings K) (annealRate : K → Nat → K → K)
    (recompute : K → K → Episode K → K × K × Nat)
    (totMostFar totHighDkl totMostOff : SelectorOutput) (ALGO : FORGET)
    (st : MemoryProcessing K) : Option (MemoryProcessing K) :=
  let C := cfg.clipImpWeight
  let CmaxRet := clipScheduleFl fl cfg annealRate ALGO st
  if CmaxRet ≤ 1 ∧ 0 < C then none
  else if ¬ (1 ≤ CmaxRet) then none
  else
    let st := selectBookkeepingFl fl cfg annealRate recompute ALGO st
    let setSize := readNSeq st
    let totFirstIn := firstIn st.episodes
    if ¬ (0 ≤ totMostFar.ind ∧ totMostFar.ind < (setSize : Int)) then none
    else if ¬ (0 ≤ totHighDkl.ind ∧ totHighDkl.ind < (setSize : Int)) then none
    else if ¬ (0 ≤ totFirstIn.ind ∧ totFirstIn.ind < (setSize : Int)) then none
    else
      match raceGuard st.episodes totFirstIn
        (selectedCandidate totFirstIn totMostFar totHighDkl totMostOff ALGO) with
      | none => none
      | some ind => some { st with indexOfEpisodeToDelete := ind }

/-- The loop over `lastSampledEpisodes()` (lines 268-272). -/
def clearJustSampled : List Nat → List (Episode K) → Option (List (Episode K))
  | [], episodes => some episodes
  | i :: rest, episodes =>
    match episodes[i]? with
    | none => none
    | some S =>
      if 0 ≤ S.just_sampled then
        clearJustSampled rest (episodes.set i { S with just_sampled := -1 })
      else none

/-- Modelled from the spec: `MemoryBuffer::removeEpisode(i)`, the indexed
removal of one episode; the later episodes move down by one index and keep
their `ID`. -/
def removeEpisode (episodes : List (Episode K)) (i : Nat) : List (Episode K) :=
  episodes.eraseIdx i

/-- The removal block (lines 280-290).  The unsigned difference
`readNData() - ndata()` is the natural-number difference: the candidate is an
episode of the buffer, so its transitions are counted in `readNData()`. -/
def deleteStaleEp (cfg : Settings K) (st : MemoryProcessing K) :
    Option (MemoryProcessing K) :=
  if 0 ≤ st.indexOfEpisodeToDelete then
    match st.episodes[st.indexOfEpisodeToDelete.toNat]? with
    | none => none
    | some EP =>
      let maxTotObs : Nat := cfg.maxTotObsNum_local
      let st :=
        if readNData st - EP.ndata > maxTotObs then
          { st with
            episodes := removeEpisode st.episodes st.indexOfEpisodeToDelete.toNat
            nPrunedEps := st.nPrunedEps + 1 }
        else st
      some { st with indexOfEpisodeToDelete := -1 }
  else some st

/-- `MemoryProcessing::prepareNextBatchAndDeleteStaleEp`: the clearing loop,
the assertion that no episode is flagged any more, the removal block.  The call
`sampler->prepare` does not touch this state. -/
def prepareNextBatchAndDeleteStaleEp (cfg : Settings K) (st : MemoryProcessing K) :
    Option (MemoryProcessing K) :=
  match clearJustSampled st.lastSampledEpisodes st.episodes with
  | none => none
  | some episodes =>
    if ¬ episodes.all (fun EP => decide (EP.just_sampled < 0)) then none
    else deleteStaleEp cfg { st with episodes := episodes }

/-! ## Importance-weight histogram (`histogramImportanceWeights`) -/

/-- The constant `nBins`. -/
def nBins : Nat := 81

/-- The array `bounds[nBins + 1]` (lines 332-337) as a function of the index:
`bounds[0] = 0`, `bounds[i] = exp(beg + (end - beg) * (i - 1) / (nBins - 2))`
for `1 <= i < nBins`, `bounds[nBins] = max - 100`.  `exp`, `log` are
`std::exp`, `std::log` and `FvalMax` is `std::numeric_limits<Fval>::max()`;
only the indices up to `nBins` are read. -/
def histBounds (exp log : K → K) (FvalMax : K) (i : Nat) : K :=
  let beg : K := log (1 / 1000)
  let fin : K := log 50
  if i = 0 then 0
  else if i < nBins then exp (beg + (fin - beg) * ((i : K) - 1) / ((nBins : K) - 2))
  else FvalMax - 100

/-- Body of the loop over `j` (lines 344-346): the weight `rho` increments
every bin `b < nBins` with `bounds[b] <= rho < bounds[b + 1]`. -/
def countWeight (bounds : Nat → K) (counts : List Nat) (rho : K) : List Nat :=
  (List.range nBins).map
    (fun b => counts.getD b 0 + if bounds b ≤ rho ∧ rho < bounds (b + 1) then 1 else 0)

/-- Body of the loop over `i`: the weights `offPolicImpW[j]`, `j < ndata()`, of
one episode. -/
def countEpisode (bounds : Nat → K) (counts : List Nat) (EP : Episode K) : List Nat :=
  (List.range EP.ndata).foldl
    (fun c j => countWeight bounds c (EP.offPolicImpW.getD j 0)) counts

/-- The array `counts` after the fold over the buffer. -/
def histogramCounts (bounds : Nat → K) (episodes : List (Episode K)) : List Nat :=
  episodes.foldl (countEpisode bounds) (List.replicate nBins 0)

/-- The lambda `harmonicMean`. -/
def harmonicMean (a b : K) : K := 2 * a * (b / (a + b))

/-- `MemoryProcessing::histogramImportanceWeights`: the two rows it prints,
the harmonic means of the bounds of each bin and the fraction of the data set
in each bin. -/
def histogramImportanceWeights (exp log : K → K) (FvalMax : K) (st : MemoryProcessing K) :
    List K × List K :=
  let bounds := histBounds exp log FvalMax
  let counts := histogramCounts bounds st.episodes
  let dataSize : K := (readNData st : K)
  ((List.range nBins).map (fun b => harmonicMean (bounds b) (bounds (b + 1))),
    (List.range nBins).map (fun b => (counts.getD b 0 : K) / dataSize))

/-! ## Closed forms used in the statements -/

/-- The buffer after the clearing loop in closed form: the episodes whose index
is listed in `sampled` have `just_sampled = -1`, the others are untouched. -/
def clearedEpisodes (sampled : List Nat) (episodes : List (Episode K)) : List (Episode K) :=
  episodes.mapIdx (fun i EP => if i ∈ sampled then { EP with just_sampled := -1 } else EP)

/-- The flags agree with `lastSampledEpisodes()`: every listed index is listed
once and names an episode whose `just_sampled` is set, and no other episode has
it set. -/
def SampledConsistent (sampled : List Nat) (episodes : List (Episode K)) : Prop :=
  sampled.Nodup ∧
  (∀ i ∈ sampled, ∃ EP, episodes[i]? = some EP ∧ 0 ≤ EP.just_sampled) ∧
  (∀ i EP, episodes[i]? = some EP → i ∉ sampled → EP.just_sampled < 0)

/-- The spec's removal condition: a deletion candidate exists and
`total_transitions - candidate.ndata > N_max_local`. -/
def removalGuard (cfg : Settings K) (st : MemoryProcessing K) : Prop :=
  ∃ EP, 0 ≤ st.indexOfEpisodeToDelete ∧
    st.episodes[st.indexOfEpisodeToDelete.toNat]? = some EP ∧
    readNData st - EP.ndata > cfg.maxTotObsNum_local

/-! ## Sample statistics (the spec's words for the exact update) -/

/-- The rewards read by the fold of `updateRewardsStats`: `rewards[j+1]` for
every transition `j < ndata()` of every episode. -/
def rewardSamples (episodes : List (Episode K)) : List K :=
  episodes.flatMap (fun EP => (List.range EP.ndata).map (fun j => EP.rewards.getD (j + 1) 0))

/-- The values of the state coordinate `k` read by the fold: `states[j][k]`
for every transition `j < ndata()` of every episode. -/
def stateSamples (k : Nat) (episodes : List (Episode K)) : List K :=
  episodes.flatMap (fun EP => (List.range EP.ndata).map (fun j => (EP.states.getD j []).getD k 0))

/-- The arithmetic mean of a list of samples. -/
def sampleMean (l : List K) : K := l.sum / (l.length : K)

/-- The population variance of a list of samples: the mean squared deviation
from their arithmetic mean. -/
def populationVariance (l : List K) : K :=
  (l.map (fun x => (x - sampleMean l) ^ 2)).sum / (l.length : K)

/-- The mean squared deviation of the samples `l` about the value `c`. -/
def meanSqDev (l : List K) (c : K) : K :=
  (l.map (fun x => (x - c) ^ 2)).sum / (l.length : K)

/-- The importance weights read by the fold of `histogramImportanceWeights`:
`offPolicImpW[j]` for every transition `j < ndata()` of every episode. -/
def weightSamples (episodes : List (Episode K)) : List K :=
  episodes.flatMap (fun EP => (List.range EP.ndata).map (fun j => EP.offPolicImpW.getD j 0))

/-- The number of the weights `rhos` that lie in the bin
`[bounds[b], bounds[b + 1])`. -/
def weightsInBin (bounds : Nat → K) (b : Nat) (rhos : List K) : Nat :=
  rhos.countP (fun rho => decide (bounds b ≤ rho ∧ rho < bounds (b + 1)))

/-- The spec's `fp_to_zero(x) = (1 - min(eta, x)) * x`. -/
def fp_to_zero (eta x : K) : K := (1 - min eta x) * x

/-- The spec's `fp_to_one(x) = fp_to_zero(x) + min(eta, 1 - x)`. -/
def fp_to_one (eta x : K) : K := fp_to_zero eta x + min eta (1 - x)

end Model

/-! ## Fixtures for the concrete scenarios -/

/-- An episode with the given `ID` and `ndata`, no stored steps and no flag. -/
def mkEpisode {K : Type} [LinearOrderedField K] (id : Int) (n : Nat) : Episode K :=
  { ID := id, states := [], rewards := [], offPolicImpW := [], sumKLDivergence := 0,
    totR := 0, nFarPolicySteps := 0, just_sampled := -1, ndata := n }

/-- A processor state over the given buffer with candidate `idx`: neutral
moments, `beta = 1`, `alpha = 0`, nothing sampled. -/
def mkState {K : Type} [LinearOrderedField K] (episodes : List (Episode K)) (idx : Int) :
    MemoryProcessing K :=
  { episodes := episodes, lastSampledEpisodes := [], avgCumulativeReward := 0,
    mean_reward := 0, std_reward := 1, invstd_reward := 1,
    mean_state := [], std_state := [], invstd_state := [],
    nSeenEpisodes := 0, nSeenTransitions := 0, beta := 1, alpha := 0,
    CmaxRet := 1, CinvRet := 1, nFarPolicySteps := 0, avgKLdivergence := 0,
    oldestStoresTimeStamp := 0, indexOfEpisodeToDelete := idx, nPrunedEps := 0,
    nGradSteps := 0 }

/-- Settings with tolerance `D = 0.1`, batch size `B`, global cap `N` and
local cap `Nloc`; no state coordinate, training on. -/
def mkSettings {K : Type} [LinearOrderedField K] (B N Nloc : Nat) : Settings K :=
  { clipImpWeight := 4, penalTol := 1 / 10, epsAnneal := 0, batchSize := B,
    maxTotObsNum := N, maxTotObsNum_local := Nloc, dimStateObserved := 0, bTrain := true }

/-- An episode of two transitions: rewards 1 and 3 (stored at indices 1, 2)
and one observed state coordinate with values 2 and 4. -/
def twoStepEpisode {K : Type} [LinearOrderedField K] : Episode K :=
  { (mkEpisode 1 2 : Episode K) with rewards := [0, 1, 3], states := [[2], [4], [6]] }

/-- A buffer of three episodes of 3 transitions (IDs 1, 2, 3) in which the
episode at index 1 was sampled, with candidate 0. -/
def sampledState {K : Type} [LinearOrderedField K] : MemoryProcessing K :=
  { (mkState [mkEpisode 1 3, { (mkEpisode 2 3 : Episode K) with just_sampled := 0 },
      mkEpisode 3 3] 0 : MemoryProcessing K) with lastSampledEpisodes := [1] }

/-- A recomputation that returns the stored cumulative values. -/
def keepCumulative {K : Type} [LinearOrderedField K] : K → K → Episode K → K × K × Nat :=
  fun _ _ EP => (EP.sumKLDivergence, EP.totR, EP.nFarPolicySteps)

/-- An anneal schedule that returns the clip bound itself. -/
def constAnneal {K : Type} [LinearOrderedField K] : K → Nat → K → K :=
  fun C _ _ => C

/-- A buffer of three episodes of one transition with IDs 5, 1, 10, no
candidate. -/
def raceState {K : Type} [LinearOrderedField K] : MemoryProcessing K :=
  mkState [mkEpisode 5 1, mkEpisode 1 1, mkEpisode 10 1] (-1)

/-- A buffer of ten episodes of one transition with IDs 1..10, nothing
sampled, no candidate. -/
def tenState {K : Type} [LinearOrderedField K] : MemoryProcessing K :=
  mkState [mkEpisode 1 1, mkEpisode 2 1, mkEpisode 3 1, mkEpisode 4 1, mkEpisode 5 1,
    mkEpisode 6 1, mkEpisode 7 1, mkEpisode 8 1, mkEpisode 9 1, mkEpisode 10 1] (-1)

/-- One round under `OLDEST`: selection, then removal. -/
def oldestRound {K : Type} [LinearOrderedField K] (cfg : Settings K)
    (st : MemoryProcessing K) : Option (MemoryProcessing K) :=
  (selectEpisodeToDelete cfg constAnneal keepCumulative ⟨0, 0⟩ ⟨0, 0⟩ ⟨0, 0⟩ FORGET.OLDEST
    st).bind (prepareNextBatchAndDeleteStaleEp cfg)

/-- A buffer of one episode that counts 3 far-policy steps, no candidate. -/
def farState {K : Type} [LinearOrderedField K] : MemoryProcessing K :=
  mkState [{ (mkEpisode 1 5 : Episode K) with nFarPolicySteps := 3 }] (-1)

/-- Settings of `mkSettings 1 10 5` with the clip bound `C = 0`. -/
def noClipSettings {K : Type} [LinearOrderedField K] : Settings K :=
  { (mkSettings 1 10 5 : Settings K) with clipImpWeight := 0 }

/-- Settings of `mkSettings 1 10 10` with one observed state coordinate. -/
def oneCoordSettings {K : Type} [LinearOrderedField K] : Settings K :=
  { (mkSettings 1 10 10 : Settings K) with dimStateObserved := 1 }

/-- The state after construction for one state coordinate: empty buffer,
means 0 and standard deviations 1. -/
def neutralState {K : Type} [LinearOrderedField K] : MemoryProcessing K :=
  { (mkState [] (-1) : MemoryProcessing K) with
    mean_state := [0], std_state := [1], invstd_state := [1] }

/-- A buffer of one episode of three transitions with importance weights
`0.5`, `1` and `60`. -/
def weightState {K : Type} [LinearOrderedField K] : MemoryProcessing K :=
  mkState [{ (mkEpisode 1 3 : Episode K) with offPolicImpW := [1 / 2, 1, 60] }] (-1)

section BufferLemmas

variable {K : Type}

theorem clearedEpisodes_getElem? (sampled : List Nat) (episodes : List (Episode K)) (j : Nat) :
    (clearedEpisodes sampled episodes)[j]? =
      (episodes[j]?).map
        (fun EP => if j ∈ sampled then { EP with just_sampled := -1 } else EP) := by
  simp [clearedEpisodes]

theorem clearedEpisodes_length (sampled : List Nat) (episodes : List (Episode K)) :
    (clearedEpisodes sampled episodes).length = episodes.length := by
  simp [clearedEpisodes]

theorem clearedEpisodes_nil (episodes : List (Episode K)) :
    clearedEpisodes [] episodes = episodes := by
  apply List.ext_getElem?
  intro j
  rw [clearedEpisodes_getElem?]
  cases episodes[j]? <;> simp

theorem clearedEpisodes_map_ndata (sampled : List Nat) (episodes : List (Episode K)) :
    (clearedEpisodes sampled episodes).map Episode.ndata = episodes.map Episode.ndata := by
  apply List.ext_getElem?
  intro j
  rw [List.getElem?_map, List.getElem?_map, clearedEpisodes_getElem?]
  cases episodes[j]? with
  | none => rfl
  | some EP => simp only [Option.map_some']; split <;> rfl

theorem clearedEpisodes_map_ID (sampled : List Nat) (episodes : List (Episode K)) :
    (clearedEpisodes sampled episodes).map Episode.ID = episodes.map Episode.ID := by
  apply List.ext_getElem?
  intro j
  rw [List.getElem?_map, List.getElem?_map, clearedEpisodes_getElem?]
  cases episodes[j]? with
  | none => rfl
  | some EP => simp only [Option.map_some']; split <;> rfl

theorem clearJustSampled_eq (sampled : List Nat) (episodes : List (Episode K))
    (h : SampledConsistent sampled episodes) :
    clearJustSampled sampled episodes = some (clearedEpisodes sampled episodes) := by
  induction sampled generalizing episodes with
  | nil => simp [clearJustSampled, clearedEpisodes_nil]
  | cons i rest ih =>
    obtain ⟨hnd, hin, hout⟩ := h
    obtain ⟨S, hS, hflag⟩ := hin i (List.mem_cons_self _ _)
    have hi : i < episodes.length := by
      by_contra hc
      rw [List.getElem?_eq_none (by omega)] at hS
      exact Option.noConfusion hS
    have hirest : i ∉ rest := (List.nodup_cons.mp hnd).1
    have hcons : SampledConsistent rest (episodes.set i { S with just_sampled := -1 }) := by
      refine ⟨(List.nodup_cons.mp hnd).2, ?_, ?_⟩
      · intro j hj
        have hji : i ≠ j := fun e => hirest (e ▸ hj)
        rw [List.getElem?_set_ne hji]
        exact hin j (List.mem_cons_of_mem _ hj)
      · intro j EP hEP hj
        by_cases hji : i = j
        · subst hji
          rw [List.getElem?_set_self hi] at hEP
          have : EP = { S with just_sampled := -1 } := (Option.some.inj hEP).symm
          rw [this]
          show (-1 : Int) < 0
          decide
        · rw [List.getElem?_set_ne hji] at hEP
          exact hout j EP hEP (by
            intro hmem
            rcases List.mem_cons.mp hmem with e | e
            · exact hji e.symm
            · exact hj e)
    simp only [clearJustSampled, hS, hflag, if_true]
    rw [ih _ hcons]
    congr 1
    apply List.ext_getElem?
    intro j
    rw [clearedEpisodes_getElem?, clearedEpisodes_getElem?]
    by_cases hji : i = j
    · subst hji
      rw [List.getElem?_set_self hi, hS]
      simp [hirest]
    · rw [List.getElem?_set_ne hji]
      have : (j ∈ i :: rest) ↔ j ∈ rest := by
        constructor
        · intro hmem
          rcases List.mem_cons.mp hmem with e | e
          · exact absurd e.symm hji
          · exact e
        · exact List.mem_cons_of_mem _
      simp only [this]

theorem clearedEpisodes_flags (sampled : List Nat) (episodes : List (Episode K))
    (h : SampledConsistent sampled episodes) :
    ∀ EP ∈ clearedEpisodes sampled episodes, EP.just_sampled < 0 := by
  intro EP hEP
  obtain ⟨j, hj⟩ := List.mem_iff_getElem?.mp hEP
  rw [clearedEpisodes_getElem?] at hj
  cases hE : episodes[j]? with
  | none => rw [hE] at hj; exact Option.noConfusion hj
  | some E0 =>
    rw [hE] at hj
    simp only [Option.map_some', Option.some.injEq] at hj
    by_cases hm : j ∈ sampled
    · rw [if_pos hm] at hj
      rw [← hj]
      show (-1 : Int) < 0
      decide
    · rw [if_neg hm] at hj
      rw [← hj]
      exact h.2.2 j E0 hE hm

/-- When the flags agree with the list of sampled episodes, the clearing loop
and its assertion pass and the call is the removal block on the cleared
buffer. -/
theorem prepare_eq_deleteStaleEp (cfg : Settings K) (st : MemoryProcessing K)
    (h : SampledConsistent st.lastSampledEpisodes st.episodes) :
    prepareNextBatchAndDeleteStaleEp cfg st =
      deleteStaleEp cfg
        { st with episodes := clearedEpisodes st.lastSampledEpisodes st.episodes } := by
  have hall : (clearedEpisodes st.lastSampledEpisodes st.episodes).all
      (fun EP => decide (EP.just_sampled < 0)) = true := by
    rw [List.all_eq_true]
    intro EP hEP
    exact decide_eq_true (clearedEpisodes_flags _ _ h EP hEP)
  simp only [prepareNextBatchAndDeleteStaleEp, clearJustSampled_eq _ _ h, hall]
  simp

theorem sum_map_eraseIdx (f : Episode K → Nat) (episodes : List (Episode K)) (i : Nat)
    (EP : Episode K) (h : episodes[i]? = some EP) :
    ((episodes.eraseIdx i).map f).sum + f EP = (episodes.map f).sum := by
  induction episodes generalizing i with
  | nil => simp at h
  | cons a rest ih =>
    cases i with
    | zero =>
      simp only [List.getElem?_cons_zero, Option.some.injEq] at h
      subst h
      simp only [List.eraseIdx_cons_zero, List.map_cons, List.sum_cons]
      omega
    | succ i =>
      simp only [List.getElem?_cons_succ] at h
      simp only [List.eraseIdx_cons_succ, List.map_cons, List.sum_cons]
      have := ih i h
      omega
theorem sampledConsistent_nil (episodes : List (Episode K))
    (h : ∀ EP ∈ episodes, EP.just_sampled < 0) : SampledConsistent [] episodes :=
  ⟨List.nodup_nil, fun _ hi => absurd hi (List.not_mem_nil _),
    fun _ EP hEP _ => h EP (List.mem_iff_getElem?.mpr ⟨_, hEP⟩)⟩

theorem readNData_cleared (st : MemoryProcessing K) (sampled : List Nat) :
    readNData { st with episodes := clearedEpisodes sampled st.episodes } = readNData st := by
  simp only [readNData, clearedEpisodes_map_ndata]

/-- The call without candidate: only the flags are cleared. -/
theorem prepare_no_candidate (cfg : Settings K) (st : MemoryProcessing K)
    (h : SampledConsistent st.lastSampledEpisodes st.episodes)
    (hneg : st.indexOfEpisodeToDelete < 0) :
    prepareNextBatchAndDeleteStaleEp cfg st =
      some { st with episodes := clearedEpisodes st.lastSampledEpisodes st.episodes } := by
  rw [prepare_eq_deleteStaleEp cfg st h]
  simp only [deleteStaleEp, not_le.mpr hneg, if_false]

/-- The call with the candidate `EP` at index `indexOfEpisodeToDelete`: the
candidate is removed when the guard holds, and the candidate index is reset. -/
theorem prepare_candidate (cfg : Settings K) (st : MemoryProcessing K)
    (h : SampledConsistent st.lastSampledEpisodes st.episodes) (EP : Episode K)
    (hpos : 0 ≤ st.indexOfEpisodeToDelete)
    (hEP : st.episodes[st.indexOfEpisodeToDelete.toNat]? = some EP) :
    prepareNextBatchAndDeleteStaleEp cfg st =
      some (if readNData st - EP.ndata > cfg.maxTotObsNum_local then
        { st with
          episodes := removeEpisode (clearedEpisodes st.lastSampledEpisodes st.episodes)
            st.indexOfEpisodeToDelete.toNat
          nPrunedEps := st.nPrunedEps + 1
          indexOfEpisodeToDelete := -1 }
      else
        { st with
          episodes := clearedEpisodes st.lastSampledEpisodes st.episodes
          indexOfEpisodeToDelete := -1 }) := by
  rw [prepare_eq_deleteStaleEp cfg st h]
  simp only [deleteStaleEp, hpos, if_true, clearedEpisodes_getElem?, hEP, Option.map_some',
    readNData_cleared]
  have hnd : (if st.indexOfEpisodeToDelete.toNat ∈ st.lastSampledEpisodes then
      ({ EP with just_sampled := -1 } : Episode K) else EP).ndata = EP.ndata := by
    split <;> rfl
  rw [hnd]
  split <;> rfl

theorem readNData_removeEpisode (st : MemoryProcessing K) (sampled : List Nat) (i : Nat)
    (EP : Episode K) (hEP : st.episodes[i]? = some EP) (idx : Int) (n : Nat) :
    readNData { st with
      episodes := removeEpisode (clearedEpisodes sampled st.episodes) i
      nPrunedEps := n
      indexOfEpisodeToDelete := idx } + EP.ndata = readNData st := by
  have hc : (clearedEpisodes sampled st.episodes)[i]? =
      some (if i ∈ sampled then { EP with just_sampled := -1 } else EP) := by
    rw [clearedEpisodes_getElem?, hEP]; rfl
  have := sum_map_eraseIdx Episode.ndata (clearedEpisodes sampled st.episodes) i _ hc
  simp only [readNData, removeEpisode]
  rw [clearedEpisodes_map_ndata] at this
  have hnd : (if i ∈ sampled then ({ EP with just_sampled := -1 } : Episode K) else EP).ndata
      = EP.ndata := by
    split <;> rfl
  rw [hnd] at this
  exact this

theorem length_removeEpisode (episodes : List (Episode K)) (sampled : List Nat) (i : Nat)
    (EP : Episode K) (hEP : episodes[i]? = some EP) :
    (removeEpisode (clearedEpisodes sampled episodes) i).length + 1 = episodes.length := by
  have hi : i < episodes.length := by
    by_contra hc
    rw [List.getElem?_eq_none (by omega)] at hEP
    exact Option.noConfusion hEP
  simp only [removeEpisode]
  rw [List.length_eraseIdx_of_lt (by rw [clearedEpisodes_length]; exact hi),
    clearedEpisodes_length]
  omega

theorem candidate_exists (episodes : List (Episode K)) (idx : Int) (hpos : 0 ≤ idx)
    (hidx : idx < (episodes.length : Int)) : ∃ EP, episodes[idx.toNat]? = some EP := by
  have : idx.toNat < episodes.length := by omega
  exact ⟨episodes[idx.toNat], List.getElem?_eq_getElem this⟩

/-- The fold of the oldest-episode selector from a selector that has already
seen an episode: either nothing in the list is strictly older, or the result is
the first strictly oldest episode of the list. -/
theorem foldFirstIn_seen (episodes : List (Episode K)) (i0 : Nat) (s : OldestDatasetEp)
    (hs : 0 ≤ s.ind) :
    (foldFirstIn episodes i0 s = s ∧ ∀ e ∈ episodes, s.timestamp ≤ e.ID) ∨
    (∃ j e, episodes[j]? = some e ∧
      foldFirstIn episodes i0 s = { timestamp := e.ID, ind := ((i0 + j : Nat) : Int) } ∧
      e.ID < s.timestamp ∧ (∀ e1 ∈ episodes, e.ID ≤ e1.ID) ∧
      ∀ j1 e1, j1 < j → episodes[j1]? = some e1 → e.ID < e1.ID) := by
  induction episodes generalizing i0 s with
  | nil => exact Or.inl ⟨rfl, fun e he => absurd he (List.not_mem_nil _)⟩
  | cons a rest ih =>
    simp only [foldFirstIn, OldestDatasetEp.compare]
    by_cases hlt : a.ID < s.timestamp
    · have hc : s.ind < 0 ∨ a.ID < s.timestamp := Or.inr hlt
      rw [if_pos hc]
      rcases ih (i0 + 1) { timestamp := a.ID, ind := (i0 : Int) } (Int.natCast_nonneg _) with
        ⟨h1, h2⟩ | ⟨j, e, h1, h2, h3, h4, h5⟩
      · refine Or.inr ⟨0, a, by simp, by rw [h1]; rfl, hlt, ?_, ?_⟩
        · intro e1 he1
          rcases List.mem_cons.mp he1 with h | h
          · rw [h]
          · exact h2 e1 h
        · intro j1 e1 hj1 _
          exact absurd hj1 (Nat.not_lt_zero _)
      · refine Or.inr ⟨j + 1, e, by simpa using h1, ?_, lt_trans h3 hlt, ?_, ?_⟩
        · rw [h2]
          congr 1
          push_cast
          ring
        · intro e1 he1
          rcases List.mem_cons.mp he1 with h | h
          · rw [h]; exact le_of_lt h3
          · exact h4 e1 h
        · intro j1 e1 hj1 he1
          cases j1 with
          | zero =>
            simp only [List.getElem?_cons_zero, Option.some.injEq] at he1
            rw [← he1]; exact h3
          | succ j1 =>
            simp only [List.getElem?_cons_succ] at he1
            exact h5 j1 e1 (by omega) he1
    · have hc : ¬ (s.ind < 0 ∨ a.ID < s.timestamp) := by
        rintro (h | h)
        · omega
        · exact hlt h
      rw [if_neg hc]
      rcases ih (i0 + 1) s hs with ⟨h1, h2⟩ | ⟨j, e, h1, h2, h3, h4, h5⟩
      · refine Or.inl ⟨h1, ?_⟩
        intro e1 he1
        rcases List.mem_cons.mp he1 with h | h
        · rw [h]; exact not_lt.mp hlt
        · exact h2 e1 h
      · refine Or.inr ⟨j + 1, e, by simpa using h1, ?_, h3, ?_, ?_⟩
        · rw [h2]
          congr 1
          push_cast
          ring
        · intro e1 he1
          rcases List.mem_cons.mp he1 with h | h
          · rw [h]; exact le_of_lt (lt_of_lt_of_le h3 (not_lt.mp hlt))
          · exact h4 e1 h
        · intro j1 e1 hj1 he1
          cases j1 with
          | zero =>
            simp only [List.getElem?_cons_zero, Option.some.injEq] at he1
            rw [← he1]; exact lt_of_lt_of_le h3 (not_lt.mp hlt)
          | succ j1 =>
            simp only [List.getElem?_cons_succ] at he1
            exact h5 j1 e1 (by omega) he1

/-- On a non-empty buffer the selector `totFirstIn` holds the index and the
`ID` of the first episode of smallest `ID`. -/
theorem firstIn_spec (episodes : List (Episode K)) (hne : episodes ≠ []) :
    ∃ (j : Nat) (e : Episode K), episodes[j]? = some e ∧
      firstIn episodes = { timestamp := e.ID, ind := (j : Int) } ∧
      (∀ e1 ∈ episodes, e.ID ≤ e1.ID) ∧
      ∀ j1 e1, j1 < j → episodes[j1]? = some e1 → e.ID < e1.ID := by
  cases episodes with
  | nil => exact absurd rfl hne
  | cons a rest =>
    have hstart : firstIn (a :: rest) =
        foldFirstIn rest 1 { timestamp := a.ID, ind := ((0 : Nat) : Int) } := by
      simp [firstIn, foldFirstIn, OldestDatasetEp.compare]
    rcases foldFirstIn_seen rest 1 { timestamp := a.ID, ind := ((0 : Nat) : Int) }
        (Int.natCast_nonneg _) with ⟨h1, h2⟩ | ⟨j, e, h1, h2, h3, h4, h5⟩
    · refine ⟨0, a, by simp, by rw [hstart, h1], ?_, ?_⟩
      · intro e1 he1
        rcases List.mem_cons.mp he1 with h | h
        · rw [h]
        · exact h2 e1 h
      · intro j1 e1 hj1 _
        exact absurd hj1 (Nat.not_lt_zero _)
    · refine ⟨j + 1, e, by simpa using h1, ?_, ?_, ?_⟩
      · rw [hstart, h2]
        congr 1
        push_cast
        ring
      · intro e1 he1
        rcases List.mem_cons.mp he1 with h | h
        · rw [h]; exact le_of_lt h3
        · exact h4 e1 h
      · intro j1 e1 hj1 he1
        cases j1 with
        | zero =>
          simp only [List.getElem?_cons_zero, Option.some.injEq] at he1
          rw [← he1]; exact h3
        | succ j1 =>
          simp only [List.getElem?_cons_succ] at he1
          exact h5 j1 e1 (by omega) he1


theorem recomputedEpisodes_length (recompute : K → K → Episode K → K × K × Nat)
    (Cmax Cinv : K) (st : MemoryProcessing K) :
    (recomputedEpisodes recompute Cmax Cinv st).length = st.episodes.length := by
  unfold recomputedEpisodes
  split <;> simp

theorem recomputedEpisodes_map_ID (recompute : K → K → Episode K → K × K × Nat)
    (Cmax Cinv : K) (st : MemoryProcessing K) :
    (recomputedEpisodes recompute Cmax Cinv st).map Episode.ID = st.episodes.map Episode.ID := by
  unfold recomputedEpisodes
  split
  · rw [List.map_map]
    rfl
  · rfl

theorem recomputedEpisodes_map_ndata (recompute : K → K → Episode K → K × K × Nat)
    (Cmax Cinv : K) (st : MemoryProcessing K) :
    (recomputedEpisodes recompute Cmax Cinv st).map Episode.ndata =
      st.episodes.map Episode.ndata := by
  unfold recomputedEpisodes
  split
  · rw [List.map_map]
    rfl
  · rfl

theorem recomputedEpisodes_map_just_sampled (recompute : K → K → Episode K → K × K × Nat)
    (Cmax Cinv : K) (st : MemoryProcessing K) :
    (recomputedEpisodes recompute Cmax Cinv st).map Episode.just_sampled =
      st.episodes.map Episode.just_sampled := by
  unfold recomputedEpisodes
  split
  · rw [List.map_map]
    rfl
  · rfl
/-- The race guard on a candidate that is negative or an index of the buffer:
a negative candidate is kept; a candidate whose `ID` exceeds
`oldest.ID + n_episodes` is replaced by the index of the oldest episode, any
other candidate is kept. -/
theorem raceGuard_spec (episodes : List (Episode K)) (j : Nat) (e : Episode K)
    (hje : episodes[j]? = some e) (ts cand : Int) (hc : cand < (episodes.length : Int)) :
    ∃ ind, raceGuard episodes { timestamp := ts, ind := (j : Int) } cand = some ind ∧
      (cand < 0 → ind = cand) ∧
      (∀ EP, 0 ≤ cand → episodes[cand.toNat]? = some EP →
        ind = if e.ID + (episodes.length : Int) < EP.ID then (j : Int) else cand) := by
  by_cases hpos : 0 ≤ cand
  · obtain ⟨EP, hEP⟩ := candidate_exists episodes cand hpos hc
    refine ⟨if e.ID + (episodes.length : Int) < EP.ID then (j : Int) else cand, ?_,
      fun h => absurd hpos (not_le.mpr h), ?_⟩
    · simp only [raceGuard, hpos, if_true, hEP, Int.toNat_ofNat, hje]
      split <;> rfl
    · intro EP1 _ hEP1
      rw [hEP] at hEP1
      rw [Option.some.inj hEP1]
  · refine ⟨cand, by simp only [raceGuard, hpos, if_false], fun _ => rfl,
      fun _ h => absurd h hpos⟩

theorem map_eraseIdx_episodes {β : Type} (f : Episode K → β) (episodes : List (Episode K))
    (i : Nat) : (episodes.eraseIdx i).map f = (episodes.map f).eraseIdx i := by
  induction episodes generalizing i with
  | nil => rfl
  | cons a rest ih =>
    cases i with
    | zero => rfl
    | succ i => simp only [List.eraseIdx_cons_succ, List.map_cons, ih]

theorem sampledConsistent_congr (sampled : List Nat) (eps1 eps2 : List (Episode K))
    (h : eps2.map Episode.just_sampled = eps1.map Episode.just_sampled)
    (hc : SampledConsistent sampled eps1) : SampledConsistent sampled eps2 := by
  have key : ∀ i : Nat,
      (eps2[i]?).map Episode.just_sampled = (eps1[i]?).map Episode.just_sampled := by
    intro i
    rw [← List.getElem?_map, ← List.getElem?_map, h]
  obtain ⟨h1, h2, h3⟩ := hc
  refine ⟨h1, ?_, ?_⟩
  · intro i hi
    obtain ⟨EP, hEP, hflag⟩ := h2 i hi
    have hk := key i
    rw [hEP] at hk
    cases h2i : eps2[i]? with
    | none => rw [h2i] at hk; exact Option.noConfusion hk
    | some EP2 =>
      rw [h2i] at hk
      simp only [Option.map_some', Option.some.injEq] at hk
      exact ⟨EP2, rfl, by rw [hk]; exact hflag⟩
  · intro i EP2 hEP2 hi
    have hk := key i
    rw [hEP2] at hk
    cases h1i : eps1[i]? with
    | none => rw [h1i] at hk; exact Option.noConfusion hk
    | some EP1 =>
      rw [h1i] at hk
      simp only [Option.map_some', Option.some.injEq] at hk
      rw [hk]
      exact h3 i EP1 h1i hi

/-- When the flags agree with the list of sampled episodes and the sentinel of
the unflagged episodes is `-1`, the cleared buffer is the buffer with every
`just_sampled` set to `-1` and nothing else changed. -/
theorem clearedEpisodes_eq_map (sampled : List Nat) (episodes : List (Episode K))
    (h : SampledConsistent sampled episodes)
    (hdom : ∀ EP ∈ episodes, -1 ≤ EP.just_sampled) :
    clearedEpisodes sampled episodes =
      episodes.map (fun EP => { EP with just_sampled := -1 }) := by
  apply List.ext_getElem?
  intro j
  rw [clearedEpisodes_getElem?, List.getElem?_map]
  cases hE : episodes[j]? with
  | none => rfl
  | some EP =>
    simp only [Option.map_some', Option.some.injEq]
    by_cases hm : j ∈ sampled
    · rw [if_pos hm]
    · rw [if_neg hm]
      have h1 := h.2.2 j EP hE hm
      have h2 := hdom EP (List.mem_iff_getElem?.mpr ⟨j, hE⟩)
      have h3 : EP.just_sampled = -1 := by omega
      cases EP
      simp only at h3
      simp only [h3]


end BufferLemmas

section Lemmas

variable {K : Type} [LinearOrderedField K]

theorem fixPointIter_true (eta x : K) : fixPointIter eta x true = fp_to_zero eta x := by
  simp [fixPointIter, fp_to_zero]

theorem fixPointIter_false (eta x : K) : fixPointIter eta x false = fp_to_one eta x := by
  simp [fixPointIter, fp_to_one, fp_to_zero]

theorem learnRefer_nonneg (cfg : Settings K) (n : K) : 0 ≤ learnRefer cfg n := by
  unfold learnRefer
  apply div_nonneg
  · exact mul_nonneg (by norm_num) (Nat.cast_nonneg _)
  · exact le_trans (Nat.cast_nonneg _) (le_max_left _ _)

theorem fixPointIter_mem_unit (eta x : K) (b : Bool) (heta : 0 ≤ eta) (h0 : 0 ≤ x)
    (h1 : x ≤ 1) : 0 ≤ fixPointIter eta x b ∧ fixPointIter eta x b ≤ 1 := by
  unfold fixPointIter
  rcases le_total eta x with h | h <;> rcases le_total eta (1 - x) with h2 | h2 <;>
    cases b <;> simp only [min_eq_left, min_eq_right, h, h2, if_true, if_false,
      Bool.false_eq_true] <;> constructor <;> nlinarith
theorem getD_map_range (n k : Nat) (f : Nat → K) (hk : k < n) :
    ((List.range n).map f).getD k 0 = f k := by
  simp [List.getD_eq_getElem?_getD, List.getElem?_map, List.getElem?_range hk]

theorem updateCoords_getD (dimS k : Nat) (f : Nat → K) (v : List K) (hk : k < dimS) :
    (updateCoords dimS f v).getD k 0 = f k := by
  unfold updateCoords
  rw [List.getD_eq_getElem?_getD, List.getElem?_append_left (by simpa using hk),
    ← List.getD_eq_getElem?_getD, getD_map_range dimS k f hk]

theorem foldl_accumTransition_scalars (dimS : Nat) (WS mr : K) (ms : List K) (EP : Episode K)
    (js : List Nat) (acc : StatsAcc K) :
    (js.foldl (accumTransition dimS WS mr ms EP) acc).count = acc.count ∧
    (js.foldl (accumTransition dimS WS mr ms EP) acc).newRSum =
      acc.newRSum + (js.map (fun j => EP.rewards.getD (j + 1) 0 - mr)).sum ∧
    (js.foldl (accumTransition dimS WS mr ms EP) acc).newRSqSum =
      acc.newRSqSum +
        (js.map (fun j => (EP.rewards.getD (j + 1) 0 - mr) *
          (EP.rewards.getD (j + 1) 0 - mr))).sum := by
  induction js generalizing acc with
  | nil => simp
  | cons j js ih =>
    simp only [List.foldl_cons, List.map_cons, List.sum_cons]
    obtain ⟨h1, h2, h3⟩ := ih (accumTransition dimS WS mr ms EP acc j)
    rw [h1, h2, h3]
    simp only [accumTransition]
    refine ⟨trivial, ?_, ?_⟩ <;> ring

theorem foldl_accumTransition_vectors (dimS : Nat) (WS mr : K) (ms : List K) (EP : Episode K)
    (hWS : 0 < WS) (js : List Nat) (acc : StatsAcc K)
    (h1 : acc.newSSum.length = dimS) (h2 : acc.newSSqSum.length = dimS) :
    (js.foldl (accumTransition dimS WS mr ms EP) acc).newSSum.length = dimS ∧
    (js.foldl (accumTransition dimS WS mr ms EP) acc).newSSqSum.length = dimS ∧
    ∀ k, k < dimS →
      (js.foldl (accumTransition dimS WS mr ms EP) acc).newSSum.getD k 0 =
        acc.newSSum.getD k 0 +
          (js.map (fun j => (EP.states.getD j []).getD k 0 - ms.getD k 0)).sum ∧
      (js.foldl (accumTransition dimS WS mr ms EP) acc).newSSqSum.getD k 0 =
        acc.newSSqSum.getD k 0 +
          (js.map (fun j => ((EP.states.getD j []).getD k 0 - ms.getD k 0) *
            ((EP.states.getD j []).getD k 0 - ms.getD k 0))).sum := by
  induction js generalizing acc with
  | nil => simp [h1, h2]
  | cons j js ih =>
    simp only [List.foldl_cons, List.map_cons, List.sum_cons]
    have hl1 : (accumTransition dimS WS mr ms EP acc j).newSSum.length = dimS := by
      simp [accumTransition, hWS]
    have hl2 : (accumTransition dimS WS mr ms EP acc j).newSSqSum.length = dimS := by
      simp [accumTransition, hWS]
    obtain ⟨g1, g2, g3⟩ := ih (accumTransition dimS WS mr ms EP acc j) hl1 hl2
    refine ⟨g1, g2, fun k hk => ?_⟩
    obtain ⟨g4, g5⟩ := g3 k hk
    rw [g4, g5]
    simp only [accumTransition, hWS, if_true, getD_map_range _ _ _ hk]
    constructor <;> ring

theorem foldl_accumEpisode_scalars (dimS : Nat) (WS mr : K) (ms : List K)
    (episodes : List (Episode K)) (acc : StatsAcc K) :
    (episodes.foldl (accumEpisode dimS WS mr ms) acc).count =
      acc.count + ((rewardSamples episodes).length : K) ∧
    (episodes.foldl (accumEpisode dimS WS mr ms) acc).newRSum =
      acc.newRSum + ((rewardSamples episodes).map (fun x => x - mr)).sum ∧
    (episodes.foldl (accumEpisode dimS WS mr ms) acc).newRSqSum =
      acc.newRSqSum + ((rewardSamples episodes).map (fun x => (x - mr) * (x - mr))).sum := by
  induction episodes generalizing acc with
  | nil => simp [rewardSamples]
  | cons EP rest ih =>
    simp only [List.foldl_cons]
    obtain ⟨h1, h2, h3⟩ := ih (accumEpisode dimS WS mr ms acc EP)
    obtain ⟨e1, e2, e3⟩ := foldl_accumTransition_scalars dimS WS mr ms EP (List.range EP.ndata)
      { acc with count := acc.count + (EP.ndata : K) }
    rw [h1, h2, h3]
    simp only [accumEpisode, e1, e2, e3]
    simp only [rewardSamples, List.flatMap_cons, List.map_append, List.sum_append,
      List.length_append, List.length_map, List.length_range, List.map_map, Nat.cast_add,
      Function.comp_def]
    refine ⟨?_, ?_, ?_⟩ <;> ring

theorem foldl_accumEpisode_vectors (dimS : Nat) (WS mr : K) (ms : List K) (hWS : 0 < WS)
    (episodes : List (Episode K)) (acc : StatsAcc K)
    (h1 : acc.newSSum.length = dimS) (h2 : acc.newSSqSum.length = dimS) :
    (episodes.foldl (accumEpisode dimS WS mr ms) acc).newSSum.length = dimS ∧
    (episodes.foldl (accumEpisode dimS WS mr ms) acc).newSSqSum.length = dimS ∧
    ∀ k, k < dimS →
      (episodes.foldl (accumEpisode dimS WS mr ms) acc).newSSum.getD k 0 =
        acc.newSSum.getD k 0 +
          ((stateSamples k episodes).map (fun x => x - ms.getD k 0)).sum ∧
      (episodes.foldl (accumEpisode dimS WS mr ms) acc).newSSqSum.getD k 0 =
        acc.newSSqSum.getD k 0 +
          ((stateSamples k episodes).map
            (fun x => (x - ms.getD k 0) * (x - ms.getD k 0))).sum := by
  induction episodes generalizing acc with
  | nil => simp [stateSamples, h1, h2]
  | cons EP rest ih =>
    simp only [List.foldl_cons]
    obtain ⟨e1, e2, e3⟩ := foldl_accumTransition_vectors dimS WS mr ms EP hWS
      (List.range EP.ndata) { acc with count := acc.count + (EP.ndata : K) } h1 h2
    obtain ⟨g1, g2, g3⟩ := ih (accumEpisode dimS WS mr ms acc EP) e1 e2
    refine ⟨g1, g2, fun k hk => ?_⟩
    obtain ⟨g4, g5⟩ := g3 k hk
    obtain ⟨e4, e5⟩ := e3 k hk
    rw [g4, g5]
    simp only [accumEpisode, e4, e5]
    simp only [stateSamples, List.flatMap_cons, List.map_append, List.sum_append,
      List.map_map, Function.comp_def]
    constructor <;> ring

/-- The fold keeps the size `dimS` of the two state accumulators. -/
theorem accumStats_lengths (dimS : Nat) (WS mr : K) (ms : List K)
    (episodes : List (Episode K)) :
    (accumStats dimS WS mr ms episodes).newSSum.length = dimS ∧
    (accumStats dimS WS mr ms episodes).newSSqSum.length = dimS := by
  have step : ∀ (EP : Episode K) (js : List Nat) (acc : StatsAcc K),
      acc.newSSum.length = dimS → acc.newSSqSum.length = dimS →
      (js.foldl (accumTransition dimS WS mr ms EP) acc).newSSum.length = dimS ∧
      (js.foldl (accumTransition dimS WS mr ms EP) acc).newSSqSum.length = dimS := by
    intro EP js
    induction js with
    | nil => intro acc h1 h2; exact ⟨h1, h2⟩
    | cons j js ih =>
      intro acc h1 h2
      simp only [List.foldl_cons]
      apply ih
      · simp only [accumTransition]; split <;> simp [h1]
      · simp only [accumTransition]; split <;> simp [h2]
  have all : ∀ (eps : List (Episode K)) (acc : StatsAcc K),
      acc.newSSum.length = dimS → acc.newSSqSum.length = dimS →
      (eps.foldl (accumEpisode dimS WS mr ms) acc).newSSum.length = dimS ∧
      (eps.foldl (accumEpisode dimS WS mr ms) acc).newSSqSum.length = dimS := by
    intro eps
    induction eps with
    | nil => intro acc h1 h2; exact ⟨h1, h2⟩
    | cons EP rest ih =>
      intro acc h1 h2
      simp only [List.foldl_cons]
      have hs := step EP (List.range EP.ndata)
        { acc with count := acc.count + (EP.ndata : K) } h1 h2
      exact ih _ hs.1 hs.2
  exact all episodes _ (by simp) (by simp)

theorem sum_map_sub_const (l : List K) (c : K) :
    (l.map (fun x => x - c)).sum = l.sum - (l.length : K) * c := by
  induction l with
  | nil => simp
  | cons a l ih =>
    simp only [List.map_cons, List.sum_cons, List.length_cons, Nat.cast_add, Nat.cast_one, ih]
    ring

theorem sum_map_sub_const_sq (l : List K) (c : K) :
    (l.map (fun x => (x - c) * (x - c))).sum =
      (l.map (fun x => x * x)).sum - 2 * c * l.sum + (l.length : K) * (c * c) := by
  induction l with
  | nil => simp
  | cons a l ih =>
    simp only [List.map_cons, List.sum_cons, List.length_cons, Nat.cast_add, Nat.cast_one, ih]
    ring

/-- The unclamped variance of `updateStats` is the mean squared deviation of
the samples about the updated mean `mean + learnRate * Evar`. -/
theorem variance_about_updated_mean (l : List K) (hl : l ≠ []) (mu eta : K) :
    (l.map (fun x => (x - mu) * (x - mu))).sum / (l.length : K) -
        (l.map (fun x => x - mu)).sum / (l.length : K) *
          ((l.map (fun x => x - mu)).sum / (l.length : K)) * (2 * eta - eta * eta) =
      (l.map (fun x => (x - (mu + eta * ((l.map (fun x => x - mu)).sum / (l.length : K)))) *
        (x - (mu + eta * ((l.map (fun x => x - mu)).sum / (l.length : K)))))).sum /
        (l.length : K) := by
  have hn : (l.length : K) ≠ 0 := by
    have : l.length ≠ 0 := fun h => hl (List.length_eq_zero.mp h)
    exact_mod_cast this
  rw [sum_map_sub_const_sq l (mu + _), sum_map_sub_const_sq l mu, sum_map_sub_const l mu]
  field_simp
  ring

/-- With learning rate 1 the lambda `updateStats`, fed with the centred
moments of a non-empty sample, returns the sample mean, the square root of the
clamped population variance and its inverse. -/
theorem updateStats_exact (sqrt : K → K) (EPS mu s : K) (l : List K) (hl : l ≠ []) :
    updateStats sqrt EPS mu s 1 ((l.map (fun x => x - mu)).sum / (l.length : K))
        ((l.map (fun x => (x - mu) * (x - mu))).sum / (l.length : K)) =
      (sampleMean l, sqrt (max (populationVariance l) EPS),
        1 / sqrt (max (populationVariance l) EPS)) := by
  have hn : (l.length : K) ≠ 0 := by
    have : l.length ≠ 0 := fun h => hl (List.length_eq_zero.mp h)
    exact_mod_cast this
  have hmean : mu + 1 * ((l.map (fun x => x - mu)).sum / (l.length : K)) = sampleMean l := by
    rw [sum_map_sub_const, sampleMean]
    field_simp
    ring
  have hvar : (l.map (fun x => (x - mu) * (x - mu))).sum / (l.length : K) -
        (l.map (fun x => x - mu)).sum / (l.length : K) *
          ((l.map (fun x => x - mu)).sum / (l.length : K)) * (2 * 1 - 1 * 1) =
      populationVariance l := by
    rw [variance_about_updated_mean l hl mu 1, hmean, populationVariance]
    simp only [sq]
  simp only [updateStats, hmean, hvar]
  simp

theorem rewardSamples_length (episodes : List (Episode K)) :
    (rewardSamples episodes).length = (episodes.map Episode.ndata).sum := by
  induction episodes with
  | nil => simp [rewardSamples]
  | cons EP rest ih =>
    simp only [rewardSamples, List.flatMap_cons, List.length_append, List.length_map,
      List.length_range, List.map_cons, List.sum_cons] at ih ⊢
    rw [ih]

theorem stateSamples_length (k : Nat) (episodes : List (Episode K)) :
    (stateSamples k episodes).length = (episodes.map Episode.ndata).sum := by
  induction episodes with
  | nil => simp [stateSamples]
  | cons EP rest ih =>
    simp only [stateSamples, List.flatMap_cons, List.length_append, List.length_map,
      List.length_range, List.map_cons, List.sum_cons] at ih ⊢
    rw [ih]

theorem accumStats_scalars (dimS : Nat) (WS mr : K) (ms : List K)
    (episodes : List (Episode K)) :
    (accumStats dimS WS mr ms episodes).count = ((rewardSamples episodes).length : K) ∧
    (accumStats dimS WS mr ms episodes).newRSum =
      ((rewardSamples episodes).map (fun x => x - mr)).sum ∧
    (accumStats dimS WS mr ms episodes).newRSqSum =
      ((rewardSamples episodes).map (fun x => (x - mr) * (x - mr))).sum := by
  obtain ⟨h1, h2, h3⟩ := foldl_accumEpisode_scalars dimS WS mr ms episodes
    { count := 0, newRSum := 0, newRSqSum := 0,
      newSSum := List.replicate dimS 0, newSSqSum := List.replicate dimS 0 }
  simp only [accumStats, h1, h2, h3, zero_add]
  exact ⟨trivial, trivial, trivial⟩

theorem accumStats_vectors (dimS : Nat) (WS mr : K) (ms : List K) (hWS : 0 < WS)
    (episodes : List (Episode K)) (k : Nat) (hk : k < dimS) :
    (accumStats dimS WS mr ms episodes).newSSum.getD k 0 =
      ((stateSamples k episodes).map (fun x => x - ms.getD k 0)).sum ∧
    (accumStats dimS WS mr ms episodes).newSSqSum.getD k 0 =
      ((stateSamples k episodes).map (fun x => (x - ms.getD k 0) * (x - ms.getD k 0))).sum := by
  obtain ⟨_, _, h3⟩ := foldl_accumEpisode_vectors dimS WS mr ms hWS episodes
    { count := 0, newRSum := 0, newRSqSum := 0,
      newSSum := List.replicate dimS 0, newSSqSum := List.replicate dimS 0 }
    (by simp) (by simp)
  obtain ⟨h4, h5⟩ := h3 k hk
  have hz : (List.replicate dimS (0 : K)).getD k 0 = 0 := by
    simp [List.getD_eq_getElem?_getD, List.getElem?_replicate, hk]
  simp only [accumStats, h4, h5, hz, zero_add]
  exact ⟨trivial, trivial⟩

/-- Layout of the submitted vector: `[0, dimS)` the state sums, `[dimS, 2 dimS)`
the state square sums, then `count`, `newRSum`, `newRSqSum`. -/
theorem packStats_layout (acc : StatsAcc K) (dimS : Nat) (h1 : acc.newSSum.length = dimS)
    (h2 : acc.newSSqSum.length = dimS) :
    (packStats acc).length = 2 * dimS + 3 ∧
    (packStats acc).getD (2 * dimS) 0 = acc.count ∧
    (packStats acc).getD (2 * dimS + 1) 0 = acc.newRSum ∧
    (packStats acc).getD (2 * dimS + 2) 0 = acc.newRSqSum ∧
    ((packStats acc).drop 0).take dimS = acc.newSSum ∧
    ((packStats acc).drop dimS).take dimS = acc.newSSqSum := by
  have hl : (acc.newSSum ++ acc.newSSqSum).length = 2 * dimS := by
    rw [List.length_append, h1, h2]; ring
  unfold packStats
  refine ⟨?_, ?_, ?_, ?_, ?_, ?_⟩
  · rw [List.length_append, hl]; rfl
  · rw [List.getD_eq_getElem?_getD, List.getElem?_append_right (by omega), hl]; simp
  · rw [List.getD_eq_getElem?_getD, List.getElem?_append_right (by omega), hl]; simp
  · rw [List.getD_eq_getElem?_getD, List.getElem?_append_right (by omega), hl]; simp
  · rw [List.drop_zero, List.append_assoc, List.take_append_of_le_length (by omega),
      List.take_of_length_le (by omega)]
  · rw [List.append_assoc, List.drop_append_of_le_length (by omega),
      List.drop_of_length_le (by omega), List.nil_append,
      List.take_append_of_le_length (by omega), List.take_of_length_le (by omega)]
theorem sampledState_consistent :
    SampledConsistent (sampledState : MemoryProcessing ℚ).lastSampledEpisodes
      (sampledState : MemoryProcessing ℚ).episodes := by
  refine ⟨by simp [sampledState], ?_, ?_⟩
  · intro i hi
    have : i = 1 := by simpa [sampledState] using hi
    subst this
    exact ⟨{ (mkEpisode 2 3 : Episode ℚ) with just_sampled := 0 }, rfl, le_refl _⟩
  · intro i EP hEP hi
    have hi1 : i ≠ 1 := by simpa [sampledState] using hi
    match i, hEP, hi1 with
    | 0, hEP, _ =>
      have : EP = mkEpisode 1 3 := by simpa [sampledState, mkState] using hEP.symm
      rw [this]; simp [mkEpisode]
    | 1, _, h => exact absurd rfl h
    | 2, hEP, _ =>
      have : EP = mkEpisode 3 3 := by simpa [sampledState, mkState] using hEP.symm
      rw [this]; simp [mkEpisode]
    | n + 3, hEP, _ => simp [sampledState, mkState] at hEP

theorem selectBookkeeping_episodes (cfg : Settings K) (annealRate : K → Nat → K → K)
    (recompute : K → K → Episode K → K × K × Nat) (ALGO : FORGET) (st : MemoryProcessing K) :
    (selectBookkeeping cfg annealRate recompute ALGO st).episodes =
      recomputedEpisodes recompute (clipSchedule cfg annealRate ALGO st)
        (1 / clipSchedule cfg annealRate ALGO st)
        { st with CmaxRet := clipSchedule cfg annealRate ALGO st,
                  CinvRet := 1 / clipSchedule cfg annealRate ALGO st } := by
  simp only [selectBookkeeping]
  split <;> rfl

theorem selectBookkeeping_length (cfg : Settings K) (annealRate : K → Nat → K → K)
    (recompute : K → K → Episode K → K × K × Nat) (ALGO : FORGET) (st : MemoryProcessing K) :
    (selectBookkeeping cfg annealRate recompute ALGO st).episodes.length = st.episodes.length := by
  rw [selectBookkeeping_episodes, recomputedEpisodes_length]

theorem selectBookkeeping_map_ID (cfg : Settings K) (annealRate : K → Nat → K → K)
    (recompute : K → K → Episode K → K × K × Nat) (ALGO : FORGET) (st : MemoryProcessing K) :
    (selectBookkeeping cfg annealRate recompute ALGO st).episodes.map Episode.ID =
      st.episodes.map Episode.ID := by
  rw [selectBookkeeping_episodes, recomputedEpisodes_map_ID]

theorem selectBookkeeping_map_ndata (cfg : Settings K) (annealRate : K → Nat → K → K)
    (recompute : K → K → Episode K → K × K × Nat) (ALGO : FORGET) (st : MemoryProcessing K) :
    (selectBookkeeping cfg annealRate recompute ALGO st).episodes.map Episode.ndata =
      st.episodes.map Episode.ndata := by
  rw [selectBookkeeping_episodes, recomputedEpisodes_map_ndata]

theorem selectBookkeeping_map_just_sampled (cfg : Settings K) (annealRate : K → Nat → K → K)
    (recompute : K → K → Episode K → K × K × Nat) (ALGO : FORGET) (st : MemoryProcessing K) :
    (selectBookkeeping cfg annealRate recompute ALGO st).episodes.map Episode.just_sampled =
      st.episodes.map Episode.just_sampled := by
  rw [selectBookkeeping_episodes, recomputedEpisodes_map_just_sampled]

theorem selectBookkeeping_timestamp (cfg : Settings K) (annealRate : K → Nat → K → K)
    (recompute : K → K → Episode K → K × K × Nat) (ALGO : FORGET) (st : MemoryProcessing K) :
    (selectBookkeeping cfg annealRate recompute ALGO st).oldestStoresTimeStamp =
      (firstIn (selectBookkeeping cfg annealRate recompute ALGO st).episodes).timestamp := by
  rw [selectBookkeeping_episodes]
  simp only [selectBookkeeping]

theorem selectBookkeeping_frame (cfg : Settings K) (annealRate : K → Nat → K → K)
    (recompute : K → K → Episode K → K × K × Nat) (ALGO : FORGET) (st : MemoryProcessing K) :
    (selectBookkeeping cfg annealRate recompute ALGO st).lastSampledEpisodes =
      st.lastSampledEpisodes ∧
    (selectBookkeeping cfg annealRate recompute ALGO st).nPrunedEps = st.nPrunedEps := by
  simp only [selectBookkeeping]
  split <;> exact ⟨rfl, rfl⟩

/-- Evaluation of `selectEpisodeToDelete` when it completes: the state of the
bookkeeping with the candidate returned by the race guard. -/
theorem selectEpisodeToDelete_eval (cfg : Settings K) (annealRate : K → Nat → K → K)
    (recompute : K → K → Episode K → K × K × Nat)
    (totMostFar totHighDkl totMostOff : SelectorOutput) (ALGO : FORGET)
    (st : MemoryProcessing K) (hne : st.episodes ≠ [])
    (hcomp : SelectCompletes cfg annealRate totMostFar totHighDkl totMostOff ALGO st)
    (ind : Int)
    (hrg : raceGuard (selectBookkeeping cfg annealRate recompute ALGO st).episodes
      (firstIn (selectBookkeeping cfg annealRate recompute ALGO st).episodes)
      (selectedCandidate (firstIn (selectBookkeeping cfg annealRate recompute ALGO st).episodes)
        totMostFar totHighDkl totMostOff ALGO) = some ind) :
    selectEpisodeToDelete cfg annealRate recompute totMostFar totHighDkl totMostOff ALGO st =
      some { selectBookkeeping cfg annealRate recompute ALGO st with
        indexOfEpisodeToDelete := ind } := by
  obtain ⟨h1, h2, h3, h4, _, _, _⟩ := hcomp
  have hlen := selectBookkeeping_length cfg annealRate recompute ALGO st
  have hne1 : (selectBookkeeping cfg annealRate recompute ALGO st).episodes ≠ [] := by
    intro h
    rw [h] at hlen
    exact hne (List.length_eq_zero.mp hlen.symm)
  obtain ⟨j, e, hje, hfi, _, _⟩ := firstIn_spec _ hne1
  have hj : j < (selectBookkeeping cfg annealRate recompute ALGO st).episodes.length := by
    by_contra hc
    rw [List.getElem?_eq_none (by omega)] at hje
    exact Option.noConfusion hje
  have hfr : 0 ≤ (firstIn (selectBookkeeping cfg annealRate recompute ALGO st).episodes).ind ∧
      (firstIn (selectBookkeeping cfg annealRate recompute ALGO st).episodes).ind <
        ((selectBookkeeping cfg annealRate recompute ALGO st).episodes.length : Int) := by
    rw [hfi]
    exact ⟨Int.natCast_nonneg _, by show (j : Int) < _; exact_mod_cast hj⟩
  simp only [selectEpisodeToDelete, h1, h2, readNSeq, hlen, h3, h4, hrg, if_false,
    not_true_eq_false, not_false_eq_true, and_self]
  rw [hlen] at hfr
  simp only [hfr, and_self, not_true_eq_false, if_false]

theorem clipSchedule_of_ne (cfg : Settings K) (annealRate : K → Nat → K → K) (ALGO : FORGET)
    (st : MemoryProcessing K) (h : ALGO ≠ FORGET.BATCHRL) :
    clipSchedule cfg annealRate ALGO st = 1 + cfg.clipImpWeight := by
  simp only [clipSchedule, h, if_false]

/-- Evaluation of `selectEpisodeToDelete` under `OLDEST`: the candidate is the
index held by `totFirstIn`, the first episode of smallest `ID`. -/
theorem selectOldest_eval (cfg : Settings K) (annealRate : K → Nat → K → K)
    (recompute : K → K → Episode K → K × K × Nat)
    (totMostFar totHighDkl totMostOff : SelectorOutput) (st : MemoryProcessing K)
    (hne : st.episodes ≠ [])
    (hcomp : SelectCompletes cfg annealRate totMostFar totHighDkl totMostOff FORGET.OLDEST st) :
    ∃ (j : Nat) (e : Episode K),
      (selectBookkeeping cfg annealRate recompute FORGET.OLDEST st).episodes[j]? = some e ∧
      firstIn (selectBookkeeping cfg annealRate recompute FORGET.OLDEST st).episodes =
        { timestamp := e.ID, ind := (j : Int) } ∧
      (∀ e1 ∈ (selectBookkeeping cfg annealRate recompute FORGET.OLDEST st).episodes,
        e.ID ≤ e1.ID) ∧
      selectEpisodeToDelete cfg annealRate recompute totMostFar totHighDkl totMostOff
        FORGET.OLDEST st =
        some { selectBookkeeping cfg annealRate recompute FORGET.OLDEST st with
          indexOfEpisodeToDelete := (j : Int) } := by
  have hlen := selectBookkeeping_length cfg annealRate recompute FORGET.OLDEST st
  have hne1 : (selectBookkeeping cfg annealRate recompute FORGET.OLDEST st).episodes ≠ [] := by
    intro h
    rw [h] at hlen
    exact hne (List.length_eq_zero.mp hlen.symm)
  obtain ⟨j, e, hje, hfi, hmin, _⟩ := firstIn_spec _ hne1
  have hj : j < (selectBookkeeping cfg annealRate recompute FORGET.OLDEST st).episodes.length := by
    by_contra hc
    rw [List.getElem?_eq_none (by omega)] at hje
    exact Option.noConfusion hje
  obtain ⟨ind, hrg, _, hpos⟩ := raceGuard_spec _ j e hje e.ID (j : Int) (by exact_mod_cast hj)
  have hind := hpos e (Int.natCast_nonneg _) (by rw [Int.toNat_ofNat]; exact hje)
  have hn0 : (0 : Int) ≤ ((selectBookkeeping cfg annealRate recompute FORGET.OLDEST
    st).episodes.length : Int) := Int.natCast_nonneg _
  rw [if_neg (by omega)] at hind
  rw [hind, ← hfi] at hrg
  refine ⟨j, e, hje, hfi, hmin, ?_⟩
  apply selectEpisodeToDelete_eval cfg annealRate recompute totMostFar totHighDkl totMostOff
    FORGET.OLDEST st hne hcomp
  simp only [selectedCandidate]
  rw [hfi] at hrg ⊢
  exact hrg

/-- One `OLDEST` round on a buffer whose first episode has the strictly
smallest `ID`, with nothing sampled, outside the recompute cadence and with the
rest of the buffer above the cap: the first episode is removed. -/
theorem oldestRound_head (cfg : Settings K) (st : MemoryProcessing K) (e : Episode K)
    (rest : List (Episode K)) (heps : st.episodes = e :: rest)
    (hmin : ∀ e1 ∈ rest, e.ID < e1.ID) (hflags : ∀ e1 ∈ st.episodes, e1.just_sampled < 0)
    (hs : st.lastSampledEpisodes = []) (hgrad : (st.nGradSteps + 1) % 100 ≠ 0)
    (hC : 0 ≤ cfg.clipImpWeight) (hguard : (rest.map Episode.ndata).sum > cfg.maxTotObsNum_local) :
    ∃ st2, oldestRound cfg st = some st2 ∧ st2.episodes = rest ∧
      st2.lastSampledEpisodes = [] ∧ st2.nGradSteps = st.nGradSteps := by
  have hne : st.episodes ≠ [] := by rw [heps]; exact List.cons_ne_nil _ _
  have hclip := clipSchedule_of_ne cfg constAnneal FORGET.OLDEST st (by decide)
  have hlenpos : (0 : Int) < (st.episodes.length : Int) := by
    rw [heps]; simp only [List.length_cons]; omega
  have hcomp : SelectCompletes cfg constAnneal ⟨0, 0⟩ ⟨0, 0⟩ ⟨0, 0⟩ FORGET.OLDEST st := by
    refine ⟨?_, ?_, ⟨le_refl _, hlenpos⟩, ⟨le_refl _, hlenpos⟩, fun _ => hlenpos,
      fun _ => hlenpos, fun _ => hlenpos⟩
    · rw [hclip]
      rintro ⟨h1, h2⟩
      linarith
    · rw [hclip]
      linarith
  obtain ⟨j, e0, hje, _, hmin0, hsel⟩ := selectOldest_eval cfg constAnneal keepCumulative
    ⟨0, 0⟩ ⟨0, 0⟩ ⟨0, 0⟩ st hne hcomp
  have hbk : (selectBookkeeping cfg constAnneal keepCumulative FORGET.OLDEST st).episodes =
      e :: rest := by
    rw [selectBookkeeping_episodes]
    simp only [recomputedEpisodes, hgrad, if_false, heps]
  have hj0 : j = 0 := by
    cases j with
    | zero => rfl
    | succ j =>
      exfalso
      rw [hbk] at hje hmin0
      simp only [List.getElem?_cons_succ] at hje
      have h1 := hmin e0 (List.mem_iff_getElem?.mpr ⟨j, hje⟩)
      have h2 := hmin0 e (List.mem_cons_self _ _)
      omega
  subst hj0
  have he0 : e0 = e := by
    rw [hbk] at hje
    simpa using hje.symm
  subst he0
  have hfr := selectBookkeeping_frame cfg constAnneal keepCumulative FORGET.OLDEST st
  have hcons1 : SampledConsistent
      ({ selectBookkeeping cfg constAnneal keepCumulative FORGET.OLDEST st with
        indexOfEpisodeToDelete := ((0 : Nat) : Int) } : MemoryProcessing K).lastSampledEpisodes
      ({ selectBookkeeping cfg constAnneal keepCumulative FORGET.OLDEST st with
        indexOfEpisodeToDelete := ((0 : Nat) : Int) } : MemoryProcessing K).episodes := by
    show SampledConsistent
      (selectBookkeeping cfg constAnneal keepCumulative FORGET.OLDEST st).lastSampledEpisodes
      (selectBookkeeping cfg constAnneal keepCumulative FORGET.OLDEST st).episodes
    rw [hfr.1, hs, hbk, ← heps]
    exact sampledConsistent_nil _ hflags
  have hprep := prepare_candidate cfg _ hcons1 e0 (le_refl _) hje
  have hnd : readNData ({ selectBookkeeping cfg constAnneal keepCumulative FORGET.OLDEST st with
      indexOfEpisodeToDelete := ((0 : Nat) : Int) } : MemoryProcessing K) - e0.ndata =
      (rest.map Episode.ndata).sum := by
    show ((selectBookkeeping cfg constAnneal keepCumulative FORGET.OLDEST st).episodes.map
      Episode.ndata).sum - e0.ndata = _
    rw [hbk]
    simp only [List.map_cons, List.sum_cons]
    omega
  rw [hnd, if_pos hguard] at hprep
  refine ⟨_, by rw [oldestRound, hsel, Option.some_bind, hprep], ?_, ?_, ?_⟩
  · show removeEpisode (clearedEpisodes
      (selectBookkeeping cfg constAnneal keepCumulative FORGET.OLDEST st).lastSampledEpisodes
      (selectBookkeeping cfg constAnneal keepCumulative FORGET.OLDEST st).episodes) 0 = rest
    rw [hfr.1, hs, clearedEpisodes_nil, hbk]
    rfl
  · show (selectBookkeeping cfg constAnneal keepCumulative FORGET.OLDEST st).lastSampledEpisodes
      = []
    rw [hfr.1, hs]
  · show (selectBookkeeping cfg constAnneal keepCumulative FORGET.OLDEST st).nGradSteps = _
    simp only [selectBookkeeping]
    split <;> rfl

theorem selectBookkeeping_clip (cfg : Settings K) (annealRate : K → Nat → K → K)
    (recompute : K → K → Episode K → K × K × Nat) (ALGO : FORGET) (st : MemoryProcessing K) :
    (selectBookkeeping cfg annealRate recompute ALGO st).CmaxRet =
      clipSchedule cfg annealRate ALGO st ∧
    (selectBookkeeping cfg annealRate recompute ALGO st).CinvRet =
      1 / clipSchedule cfg annealRate ALGO st := by
  simp only [selectBookkeeping]
  split <;> exact ⟨rfl, rfl⟩

/-- The aggregate `nFarPolicySteps` after the bookkeeping is the sum over the
buffer, whatever `CmaxRet` is: the store of line 228 follows that of line 226. -/
theorem selectBookkeeping_nFar (cfg : Settings K) (annealRate : K → Nat → K → K)
    (recompute : K → K → Episode K → K × K × Nat) (ALGO : FORGET) (st : MemoryProcessing K) :
    (selectBookkeeping cfg annealRate recompute ALGO st).nFarPolicySteps =
      ((selectBookkeeping cfg annealRate recompute ALGO st).episodes.map
        Episode.nFarPolicySteps).sum := by
  rw [selectBookkeeping_episodes]
  simp only [selectBookkeeping]

/-- A completed `selectEpisodeToDelete` passed the fail-fast check and the
assertion on `CmaxRet`, and returns the state of the bookkeeping with some
candidate. -/
theorem selectEpisodeToDelete_inv (cfg : Settings K) (annealRate : K → Nat → K → K)
    (recompute : K → K → Episode K → K × K × Nat)
    (totMostFar totHighDkl totMostOff : SelectorOutput) (ALGO : FORGET)
    (st st1 : MemoryProcessing K)
    (h : selectEpisodeToDelete cfg annealRate recompute totMostFar totHighDkl totMostOff ALGO st
      = some st1) :
    ¬ (clipSchedule cfg annealRate ALGO st ≤ 1 ∧ 0 < cfg.clipImpWeight) ∧
    1 ≤ clipSchedule cfg annealRate ALGO st ∧
    ∃ ind, st1 = { selectBookkeeping cfg annealRate recompute ALGO st with
      indexOfEpisodeToDelete := ind } := by
  by_cases h1 : clipSchedule cfg annealRate ALGO st ≤ 1 ∧ 0 < cfg.clipImpWeight
  · simp only [selectEpisodeToDelete, h1, and_self, if_true] at h
    exact Option.noConfusion h
  · by_cases h2 : 1 ≤ clipSchedule cfg annealRate ALGO st
    · refine ⟨h1, h2, ?_⟩
      simp only [selectEpisodeToDelete, h1, h2, if_false, not_true_eq_false] at h
      split at h
      · exact Option.noConfusion h
      · split at h
        · exact Option.noConfusion h
        · split at h
          · exact Option.noConfusion h
          · split at h
            · exact Option.noConfusion h
            · rename_i ind _
              exact ⟨ind, (Option.some.inj h).symm⟩
    · simp only [selectEpisodeToDelete, h1, h2, if_false, not_false_eq_true, if_true] at h
      exact Option.noConfusion h

/-- On a non-empty buffer, `selectEpisodeToDelete` returns whenever its
preconditions hold. -/
theorem selectEpisodeToDelete_some (cfg : Settings K) (annealRate : K → Nat → K → K)
    (recompute : K → K → Episode K → K × K × Nat)
    (totMostFar totHighDkl totMostOff : SelectorOutput) (ALGO : FORGET)
    (st : MemoryProcessing K) (hne : st.episodes ≠ [])
    (hcomp : SelectCompletes cfg annealRate totMostFar totHighDkl totMostOff ALGO st) :
    ∃ ind, selectEpisodeToDelete cfg annealRate recompute totMostFar totHighDkl totMostOff
      ALGO st = some { selectBookkeeping cfg annealRate recompute ALGO st with
        indexOfEpisodeToDelete := ind } := by
  have hlen := selectBookkeeping_length cfg annealRate recompute ALGO st
  have hne1 : (selectBookkeeping cfg annealRate recompute ALGO st).episodes ≠ [] := by
    intro h
    rw [h] at hlen
    exact hne (List.length_eq_zero.mp hlen.symm)
  obtain ⟨j, e, hje, hfi, _, _⟩ := firstIn_spec _ hne1
  have hj : j < (selectBookkeeping cfg annealRate recompute ALGO st).episodes.length := by
    by_contra hc
    rw [List.getElem?_eq_none (by omega)] at hje
    exact Option.noConfusion hje
  have hcand : selectedCandidate (firstIn (selectBookkeeping cfg annealRate recompute ALGO
        st).episodes) totMostFar totHighDkl totMostOff ALGO <
      ((selectBookkeeping cfg annealRate recompute ALGO st).episodes.length : Int) := by
    obtain ⟨_, _, _, _, h5, h6, h7⟩ := hcomp
    rw [hlen]
    cases ALGO
    · simp only [selectedCandidate, hfi]
      rw [← hlen]
      exact_mod_cast hj
    · exact h5 rfl
    · exact h6 rfl
    · exact h7 rfl
  obtain ⟨ind, hrg, _, _⟩ := raceGuard_spec _ j e hje e.ID _ hcand
  rw [← hfi] at hrg
  exact ⟨ind, selectEpisodeToDelete_eval cfg annealRate recompute totMostFar totHighDkl
    totMostOff ALGO st hne hcomp ind hrg⟩

theorem meanSqDev_nonneg (l : List K) (c : K) : 0 ≤ meanSqDev l c := by
  unfold meanSqDev
  apply div_nonneg
  · apply List.sum_nonneg
    intro x hx
    obtain ⟨y, _, rfl⟩ := List.mem_map.mp hx
    exact sq_nonneg _
  · exact Nat.cast_nonneg _

/-- One step of `updateRewardsStats` with both weights 1 on a non-empty buffer
whose sums are read back in the same step: the buffer is untouched and the
moments are the sample statistics of the values read. -/
theorem updateRewardsStats_one (sqrt : K → K) (EPS : K) (cfg : Settings K)
    (bInit : Bool) (nDataGlobal : Int × Int) (rdxGet : Bool → Option (List K) → List K)
    (st : MemoryProcessing K)
    (htrain : cfg.bTrain = true) (hread : ∀ p, rdxGet bInit (some p) = p)
    (hcount : 0 < readNData st) :
    ∃ res, updateRewardsStats sqrt EPS cfg 1 1 bInit nDataGlobal rdxGet st = some res ∧
      res.1.episodes = st.episodes ∧
      res.1.mean_reward = sampleMean (rewardSamples st.episodes) ∧
      res.1.std_reward = sqrt (max (populationVariance (rewardSamples st.episodes)) EPS) ∧
      res.1.invstd_reward =
        1 / sqrt (max (populationVariance (rewardSamples st.episodes)) EPS) ∧
      ∀ k, k < cfg.dimStateObserved →
        res.1.mean_state.getD k 0 = sampleMean (stateSamples k st.episodes) ∧
        res.1.std_state.getD k 0 =
          sqrt (max (populationVariance (stateSamples k st.episodes)) EPS) ∧
        res.1.invstd_state.getD k 0 =
          1 / sqrt (max (populationVariance (stateSamples k st.episodes)) EPS) := by
  obtain ⟨hl1, hl2⟩ := accumStats_lengths cfg.dimStateObserved 1 st.mean_reward st.mean_state
    st.episodes
  obtain ⟨p1, p2, p3, p4, p5, p6⟩ := packStats_layout _ cfg.dimStateObserved hl1 hl2
  obtain ⟨a1, a2, a3⟩ := accumStats_scalars cfg.dimStateObserved 1 st.mean_reward
    st.mean_state st.episodes
  have hsub : submitStats cfg 1 1
      { st with nSeenEpisodes := nDataGlobal.1, nSeenTransitions := nDataGlobal.2 } =
      some (packStats (accumStats cfg.dimStateObserved 1 st.mean_reward st.mean_state
        st.episodes)) := by
    simp only [submitStats, zero_lt_one, or_self, if_true]
  have hR : rewardSamples st.episodes ≠ [] := by
    intro h
    have := rewardSamples_length st.episodes
    rw [h] at this
    simp only [readNData] at hcount
    simp only [List.length_nil] at this
    omega
  have hexR := updateStats_exact sqrt EPS st.mean_reward st.std_reward _ hR
  refine ⟨_, by simp only [updateRewardsStats, htrain, hsub, hread, p1]; simp; rfl, ?_, ?_, ?_,
    ?_, ?_⟩
  · simp only [applyStateStats, applyRewardStats, zero_lt_one, if_true]
  · simp only [applyStateStats, applyRewardStats, if_true, p2, p3, p4, a1, a2, a3, hexR,
      zero_lt_one]
  · simp only [applyStateStats, applyRewardStats, if_true, p2, p3, p4, a1, a2, a3, hexR,
      zero_lt_one]
  · simp only [applyStateStats, applyRewardStats, if_true, p2, p3, p4, a1, a2, a3, hexR,
      zero_lt_one]
  · intro k hk
    obtain ⟨v1, v2⟩ := accumStats_vectors cfg.dimStateObserved 1 st.mean_reward st.mean_state
      zero_lt_one st.episodes k hk
    have hS : stateSamples k st.episodes ≠ [] := by
      intro h
      have := stateSamples_length k st.episodes
      rw [h] at this
      simp only [readNData] at hcount
      simp only [List.length_nil] at this
      omega
    have hlen : ((rewardSamples st.episodes).length : K) =
        ((stateSamples k st.episodes).length : K) := by
      rw [rewardSamples_length, stateSamples_length]
    have hex := updateStats_exact sqrt EPS (st.mean_state.getD k 0) (st.std_state.getD k 0) _ hS
    have hst : ∀ s0 : MemoryProcessing K, s0.mean_state = st.mean_state →
        s0.std_state = st.std_state →
        stateCoordStats sqrt EPS cfg.dimStateObserved 1
          (packStats (accumStats cfg.dimStateObserved 1 st.mean_reward st.mean_state
            st.episodes)) s0 k =
        (sampleMean (stateSamples k st.episodes),
          sqrt (max (populationVariance (stateSamples k st.episodes)) EPS),
          1 / sqrt (max (populationVariance (stateSamples k st.episodes)) EPS)) := by
      intro s0 e1 e2
      simp only [stateCoordStats, p2, p5, p6, a1, v1, v2, e1, e2, hlen, hex]
    simp only [applyStateStats, zero_lt_one, if_true, updateCoords_getD _ _ _ _ hk]
    rw [hst _ (by simp only [applyRewardStats]; split <;> rfl)
      (by simp only [applyRewardStats]; split <;> rfl)]
    exact ⟨rfl, rfl, rfl⟩

theorem initGuessStateRewStats_one : initGuessStateRewStats (1 : Nat) = ([0, 0, 1, 0, 1] : List K) := by
  simp [initGuessStateRewStats, List.range_succ, List.replicate]

/-- A moment update with weight `eta > 0` that reads the initial guess of the
constructor for one state coordinate, from aggregates at mean 0 and std 1:
the reward moments and the state mean are kept, the state std becomes
`1 + eta * (sqrt EPS - 1)`. -/
theorem initGuess_update (sqrt : K → K) (EPS r eta : K) (bInit : Bool) (nd : Int × Int)
    (h1 : sqrt 1 = 1) (hr : sqrt EPS = r) (hE0 : 0 ≤ EPS) (hE1 : EPS ≤ 1) (heta : 0 < eta) :
    ∃ res, updateRewardsStats sqrt EPS oneCoordSettings eta eta bInit nd
        (fun _ _ => initGuessStateRewStats 1) (neutralState : MemoryProcessing K) = some res ∧
      res.1.mean_reward = 0 ∧ res.1.std_reward = 1 ∧
      res.1.mean_state.getD 0 0 = 0 ∧ res.1.std_state.getD 0 0 = 1 + eta * (r - 1) := by
  have hm1 : max (1 : K) EPS = 1 := max_eq_left hE1
  have hm2 : max (0 : K) EPS = EPS := max_eq_right hE0
  refine ⟨_, by
    simp only [updateRewardsStats, oneCoordSettings, mkSettings, initGuessStateRewStats_one]
    simp
    rfl, ?_⟩
  simp only [oneCoordSettings, mkSettings, initGuessStateRewStats_one, applyStateStats,
    applyRewardStats, stateCoordStats, updateStats, heta, if_true,
    updateCoords_getD _ _ _ _ Nat.zero_lt_one, neutralState, mkState]
  simp [hm1, hm2, h1, hr]

theorem fp_to_zero_le (eta x : K) (heta : 0 ≤ eta) (h0 : 0 ≤ x) (h1 : x ≤ 1) :
    0 ≤ fp_to_zero eta x ∧ fp_to_zero eta x ≤ x ∧ fp_to_zero eta x ≤ 1 := by
  unfold fp_to_zero
  rcases le_total eta x with h | h
  · rw [min_eq_left h]
    refine ⟨?_, ?_, ?_⟩ <;> nlinarith
  · rw [min_eq_right h]
    refine ⟨?_, ?_, ?_⟩ <;> nlinarith

theorem iterate_fp_to_zero_mem (eta x : K) (heta : 0 ≤ eta) (h0 : 0 ≤ x) (h1 : x ≤ 1)
    (n : Nat) : 0 ≤ (fp_to_zero eta)^[n] x ∧ (fp_to_zero eta)^[n] x ≤ 1 := by
  induction n with
  | zero => exact ⟨h0, h1⟩
  | succ n ih =>
    rw [Function.iterate_succ_apply']
    obtain ⟨a, _, c⟩ := fp_to_zero_le eta _ heta ih.1 ih.2
    exact ⟨a, c⟩

theorem iterate_fp_to_zero_antitone (eta x : K) (heta : 0 ≤ eta) (h0 : 0 ≤ x) (h1 : x ≤ 1) :
    Antitone (fun n => (fp_to_zero eta)^[n] x) := by
  apply antitone_nat_of_succ_le
  intro n
  show (fp_to_zero eta)^[n + 1] x ≤ (fp_to_zero eta)^[n] x
  rw [Function.iterate_succ_apply']
  obtain ⟨a, b⟩ := iterate_fp_to_zero_mem eta x heta h0 h1 n
  exact (fp_to_zero_le eta _ heta a b).2.1

/-- While the far-policy fraction stays above the tolerance, `n` calls of
`updateReFERpenalization` return, keep the buffer and apply `fp_to_zero` `n`
times to `beta`. -/
theorem iterateReFER_above (cfg : Settings K) (nFar : Nat → K) (nData : K)
    (st : MemoryProcessing K) (hassert : nData + 1 > (readNData st : K))
    (hfrac : ∀ n, nFar n / nData > cfg.penalTol) (n : Nat) :
    ∃ stn, iterateReFER cfg nFar nData n st = some stn ∧ stn.episodes = st.episodes ∧
      stn.beta = (fp_to_zero (learnRefer cfg nData))^[n] st.beta := by
  induction n with
  | zero => exact ⟨st, rfl, rfl, rfl⟩
  | succ n ih =>
    obtain ⟨stn, h1, h2, h3⟩ := ih
    have ha : nData + 1 > (readNData stn : K) := by
      simp only [readNData, h2]
      exact hassert
    refine ⟨{ stn with
        beta := fixPointIter (learnRefer cfg nData) stn.beta
          (decide (nFar n / nData > cfg.penalTol))
        alpha := fixPointIter (learnRefer cfg nData) stn.alpha
          (decide (|cfg.penalTol - nFar n / nData| < 1 / 1000)) }, ?_, h2, ?_⟩
    · simp only [iterateReFER, h1, Option.some_bind, updateReFERpenalization, ha, if_true]
    · simp only [hfrac n, decide_True, fixPointIter_true, h3]
      rw [Function.iterate_succ_apply']

/-- With exact sums the rounded selection is `selectEpisodeToDelete`. -/
theorem selectEpisodeToDeleteFl_exact (cfg : Settings K) (annealRate : K → Nat → K → K)
    (recompute : K → K → Episode K → K × K × Nat)
    (totMostFar totHighDkl totMostOff : SelectorOutput) (ALGO : FORGET)
    (st : MemoryProcessing K) :
    selectEpisodeToDeleteFl (fun x => x) cfg annealRate recompute totMostFar totHighDkl
        totMostOff ALGO st =
      selectEpisodeToDelete cfg annealRate recompute totMostFar totHighDkl totMostOff ALGO st :=
  rfl

theorem steps_mono (f : Nat → K) (n : Nat) (hstep : ∀ i, i < n → f i < f (i + 1)) :
    ∀ a b, a ≤ b → b ≤ n → f a ≤ f b := by
  intro a b hab
  induction b with
  | zero =>
    intro _
    have : a = 0 := Nat.le_zero.mp hab
    rw [this]
  | succ b ih =>
    intro hb
    rcases Nat.lt_or_ge a (b + 1) with h | h
    · exact le_trans (ih (Nat.lt_succ_iff.mp h) (by omega)) (le_of_lt (hstep b (by omega)))
    · have : a = b + 1 := le_antisymm hab h
      rw [this]

/-- With strictly increasing bounds `f 0 < ... < f n`, the number of bins
`[f b, f (b + 1))`, `b < n`, that contain `x` is 1 when `f 0 <= x < f n` and 0
otherwise. -/
theorem bin_indicator_sum (f : Nat → K) (x : K) (n : Nat)
    (hstep : ∀ i, i < n → f i < f (i + 1)) :
    ((List.range n).map (fun b => if f b ≤ x ∧ x < f (b + 1) then 1 else 0)).sum =
      if f 0 ≤ x ∧ x < f n then (1 : Nat) else 0 := by
  induction n with
  | zero =>
    have : ¬ (f 0 ≤ x ∧ x < f 0) := fun h => absurd h.2 (not_lt.mpr h.1)
    simp [this]
  | succ n ih =>
    have ih1 := ih (fun i hi => hstep i (by omega))
    have hmono : f 0 ≤ f n := steps_mono f (n + 1) hstep 0 n (Nat.zero_le _) (by omega)
    have hlast : f n < f (n + 1) := hstep n (by omega)
    rw [List.range_succ, List.map_append, List.sum_append, ih1]
    simp only [List.map_cons, List.map_nil, List.sum_cons, List.sum_nil, add_zero]
    by_cases hx : x < f n
    · have h1 : ¬ (f n ≤ x ∧ x < f (n + 1)) := fun h => absurd hx (not_lt.mpr h.1)
      have h2 : x < f (n + 1) := lt_trans hx hlast
      rw [if_neg h1, add_zero]
      simp only [hx, h2, and_true]
    · have h1 : f n ≤ x := not_lt.mp hx
      have h2 : f 0 ≤ x := le_trans hmono h1
      have h3 : ¬ (f 0 ≤ x ∧ x < f n) := fun h => hx h.2
      rw [if_neg h3, zero_add]
      simp only [h1, h2, true_and]

theorem exists_unique_bin (f : Nat → K) (x : K) (n : Nat)
    (hstep : ∀ i, i < n → f i < f (i + 1)) (h0 : f 0 ≤ x) (hn : x < f n) :
    ∃! b, b < n ∧ f b ≤ x ∧ x < f (b + 1) := by
  have hex : ∃ b, b < n ∧ f b ≤ x ∧ x < f (b + 1) := by
    induction n with
    | zero => exact absurd hn (not_lt.mpr h0)
    | succ n ih =>
      by_cases hx : x < f n
      · obtain ⟨b, hb, h1, h2⟩ := ih (fun i hi => hstep i (by omega)) hx
        exact ⟨b, by omega, h1, h2⟩
      · exact ⟨n, by omega, not_lt.mp hx, hn⟩
  obtain ⟨b, hb, h1, h2⟩ := hex
  refine ⟨b, ⟨hb, h1, h2⟩, ?_⟩
  rintro c ⟨hc, c1, c2⟩
  rcases Nat.lt_trichotomy c b with h | h | h
  · exfalso
    have := steps_mono f n hstep (c + 1) b (by omega) (by omega)
    exact absurd (lt_of_lt_of_le c2 this) (not_lt.mpr h1)
  · exact h
  · exfalso
    have := steps_mono f n hstep (b + 1) c (by omega) (by omega)
    exact absurd (lt_of_lt_of_le h2 this) (not_lt.mpr c1)

theorem sum_map_getD_range (c : List Nat) (n : Nat) (hc : c.length = n) :
    ((List.range n).map (fun b => c.getD b 0)).sum = c.sum := by
  have : (List.range n).map (fun b => c.getD b 0) = c := by
    apply List.ext_getElem?
    intro i
    rw [List.getElem?_map]
    by_cases hi : i < n
    · rw [List.getElem?_range hi, List.getElem?_eq_getElem (by omega)]
      simp [List.getD_eq_getElem?_getD, List.getElem?_eq_getElem (show i < c.length by omega)]
    · rw [List.getElem?_eq_none (by simp; omega), List.getElem?_eq_none (by omega)]
      rfl
  rw [this]

/-- A weight inside `[bounds[0], bounds[nBins])` raises the total of the
counts by exactly 1. -/
theorem countWeight_sum (bounds : Nat → K) (counts : List Nat) (rho : K)
    (hc : counts.length = nBins) (hstep : ∀ i, i < nBins → bounds i < bounds (i + 1))
    (h0 : bounds 0 ≤ rho) (hn : rho < bounds nBins) :
    (countWeight bounds counts rho).length = nBins ∧
    (countWeight bounds counts rho).sum = counts.sum + 1 := by
  refine ⟨by simp [countWeight], ?_⟩
  have h1 := bin_indicator_sum bounds rho nBins hstep
  rw [if_pos ⟨h0, hn⟩] at h1
  simp only [countWeight]
  rw [List.sum_map_add, sum_map_getD_range counts nBins hc, h1]

theorem foldl_countWeight_sum (bounds : Nat → K) (rhos : List K) (counts : List Nat)
    (hc : counts.length = nBins) (hstep : ∀ i, i < nBins → bounds i < bounds (i + 1))
    (hr : ∀ rho ∈ rhos, bounds 0 ≤ rho ∧ rho < bounds nBins) :
    (rhos.foldl (countWeight bounds) counts).length = nBins ∧
    (rhos.foldl (countWeight bounds) counts).sum = counts.sum + rhos.length := by
  induction rhos generalizing counts with
  | nil => exact ⟨hc, rfl⟩
  | cons rho rest ih =>
    obtain ⟨a, b⟩ := countWeight_sum bounds counts rho hc hstep
      (hr rho (List.mem_cons_self _ _)).1 (hr rho (List.mem_cons_self _ _)).2
    obtain ⟨c, d⟩ := ih (countWeight bounds counts rho) a
      (fun r hr1 => hr r (List.mem_cons_of_mem _ hr1))
    simp only [List.foldl_cons, List.length_cons]
    exact ⟨c, by rw [d, b]; omega⟩

theorem countEpisode_eq (bounds : Nat → K) (counts : List Nat) (EP : Episode K) :
    countEpisode bounds counts EP =
      ((List.range EP.ndata).map (fun j => EP.offPolicImpW.getD j 0)).foldl
        (countWeight bounds) counts := by
  simp only [countEpisode, List.foldl_map]

/-- When every stored weight read by the fold lies in
`[bounds[0], bounds[nBins])`, the counts add up to the number of transitions. -/
theorem histogramCounts_sum (bounds : Nat → K) (episodes : List (Episode K))
    (hstep : ∀ i, i < nBins → bounds i < bounds (i + 1))
    (hr : ∀ EP ∈ episodes, ∀ j, j < EP.ndata →
      bounds 0 ≤ EP.offPolicImpW.getD j 0 ∧ EP.offPolicImpW.getD j 0 < bounds nBins) :
    (histogramCounts bounds episodes).length = nBins ∧
    (histogramCounts bounds episodes).sum = (episodes.map Episode.ndata).sum := by
  have gen : ∀ (eps : List (Episode K)) (counts : List Nat), counts.length = nBins →
      (∀ EP ∈ eps, ∀ j, j < EP.ndata →
        bounds 0 ≤ EP.offPolicImpW.getD j 0 ∧ EP.offPolicImpW.getD j 0 < bounds nBins) →
      (eps.foldl (countEpisode bounds) counts).length = nBins ∧
      (eps.foldl (countEpisode bounds) counts).sum =
        counts.sum + (eps.map Episode.ndata).sum := by
    intro eps
    induction eps with
    | nil => intro counts hc _; exact ⟨hc, by simp⟩
    | cons EP rest ih =>
      intro counts hc hr1
      have hEP : ∀ rho ∈ (List.range EP.ndata).map (fun j => EP.offPolicImpW.getD j 0),
          bounds 0 ≤ rho ∧ rho < bounds nBins := by
        intro rho hrho
        obtain ⟨j, hj, rfl⟩ := List.mem_map.mp hrho
        exact hr1 EP (List.mem_cons_self _ _) j (List.mem_range.mp hj)
      obtain ⟨a, b⟩ := foldl_countWeight_sum bounds _ counts hc hstep hEP
      rw [← countEpisode_eq] at a b
      obtain ⟨c, d⟩ := ih (countEpisode bounds counts EP) a
        (fun E hE => hr1 E (List.mem_cons_of_mem _ hE))
      simp only [List.foldl_cons, List.map_cons, List.sum_cons]
      refine ⟨c, ?_⟩
      rw [d, b]
      simp only [List.length_map, List.length_range]
      omega
  obtain ⟨a, b⟩ := gen episodes (List.replicate nBins 0) (by simp) hr
  refine ⟨a, ?_⟩
  simp only [histogramCounts]
  rw [b]
  simp

/-- One pass of the loop over the bins adds the indicator of the bin `b` to
`counts[b]`. -/
theorem countWeight_getD (bounds : Nat → K) (counts : List Nat) (rho : K) (b : Nat)
    (hb : b < nBins) :
    (countWeight bounds counts rho).getD b 0 =
      counts.getD b 0 + if bounds b ≤ rho ∧ rho < bounds (b + 1) then 1 else 0 := by
  simp only [countWeight, List.getD_eq_getElem?_getD, List.getElem?_map,
    List.getElem?_range hb, Option.map_some', Option.getD_some]

theorem foldl_countWeight_getD (bounds : Nat → K) (rhos : List K) (counts : List Nat) (b : Nat)
    (hb : b < nBins) :
    (rhos.foldl (countWeight bounds) counts).getD b 0 =
      counts.getD b 0 + weightsInBin bounds b rhos := by
  induction rhos generalizing counts with
  | nil => simp [weightsInBin]
  | cons rho rest ih =>
    simp only [List.foldl_cons]
    rw [ih, countWeight_getD bounds counts rho b hb]
    simp only [weightsInBin, List.countP_cons]
    by_cases h : bounds b ≤ rho ∧ rho < bounds (b + 1)
    · simp only [h, and_self, if_true, decide_True]
      omega
    · simp only [h, if_false, decide_False]
      simp

theorem weightsInBin_append (bounds : Nat → K) (b : Nat) (l1 l2 : List K) :
    weightsInBin bounds b (l1 ++ l2) = weightsInBin bounds b l1 + weightsInBin bounds b l2 := by
  simp only [weightsInBin, List.countP_append]

/-- The count of the bin `b` after the fold over the buffer is the number of
weights read that lie in `[bounds[b], bounds[b + 1])`. -/
theorem histogramCounts_getD (bounds : Nat → K) (episodes : List (Episode K)) (b : Nat)
    (hb : b < nBins) :
    (histogramCounts bounds episodes).getD b 0 =
      weightsInBin bounds b (weightSamples episodes) := by
  have gen : ∀ (eps : List (Episode K)) (counts : List Nat),
      (eps.foldl (countEpisode bounds) counts).getD b 0 =
        counts.getD b 0 + weightsInBin bounds b (weightSamples eps) := by
    intro eps
    induction eps with
    | nil => intro counts; simp [weightSamples, weightsInBin]
    | cons EP rest ih =>
      intro counts
      simp only [List.foldl_cons]
      rw [ih, countEpisode_eq, foldl_countWeight_getD bounds _ counts b hb]
      simp only [weightSamples, List.flatMap_cons]
      rw [weightsInBin_append]
      omega
  simp only [histogramCounts]
  rw [gen]
  simp [List.getD_eq_getElem?_getD, List.getElem?_replicate, hb]

/-- A weight inside `[bounds[0], bounds[n])` increments the count of one bin,
the bin that contains it, and leaves the other counts as they are. -/
theorem countWeight_one_bin (bounds : Nat → K) (counts : List Nat) (rho : K)
    (hstep : ∀ i, i < nBins → bounds i < bounds (i + 1))
    (h0 : bounds 0 ≤ rho) (hn : rho < bounds nBins) :
    ∃ b, b < nBins ∧ bounds b ≤ rho ∧ rho < bounds (b + 1) ∧
      ∀ c, c < nBins →
        (countWeight bounds counts rho).getD c 0 = counts.getD c 0 + if c = b then 1 else 0 := by
  obtain ⟨b, ⟨hb, h1, h2⟩, huniq⟩ := exists_unique_bin bounds rho nBins hstep h0 hn
  refine ⟨b, hb, h1, h2, ?_⟩
  intro c hc
  rw [countWeight_getD bounds counts rho c hc]
  by_cases hcb : c = b
  · subst hcb
    rw [if_pos ⟨h1, h2⟩, if_pos rfl]
  · have : ¬ (bounds c ≤ rho ∧ rho < bounds (c + 1)) := fun h => hcb (huniq c ⟨hc, h.1, h.2⟩)
    rw [if_neg this, if_neg hcb]

theorem sum_map_div_const (l : List Nat) (g : Nat → Nat) (d : K) :
    (l.map (fun b => (g b : K) / d)).sum = ((l.map g).sum : K) / d := by
  induction l with
  | nil => simp
  | cons a rest ih =>
    simp only [List.map_cons, List.sum_cons, ih, Nat.cast_add]
    ring


end Lemmas

section Claims

variable {K : Type} [LinearOrderedField K]

/-- C1 (as amended): `updateReFERpenalization` sets `beta` to
`fp_to_zero(beta)` when `fracOffPol > D` and to `fp_to_one(beta)` otherwise,
with `eta_refer = 0.1 * B / max(N_max, n_data_global)`. -/
theorem C1_beta_update (cfg : Settings K) (nFarGlobal : K × K) (st : MemoryProcessing K)
    (hassert : nFarGlobal.2 + 1 > (readNData st : K)) :
    ∃ st1, updateReFERpenalization cfg nFarGlobal st = some st1 ∧
      st1.beta =
        if nFarGlobal.1 / nFarGlobal.2 > cfg.penalTol then
          fp_to_zero (learnRefer cfg nFarGlobal.2) st.beta
        else fp_to_one (learnRefer cfg nFarGlobal.2) st.beta := by
  refine ⟨_, by simp only [updateReFERpenalization, hassert, if_true]; rfl, ?_⟩
  by_cases h : nFarGlobal.1 / nFarGlobal.2 > cfg.penalTol
  · simp [h, fixPointIter_true]
  · simp [h, fixPointIter_false]
/-- C1, witness: the spec scenario `beta = 0.01`, `fracOffPol = 0.5`,
`D = 0.1`, `eta_refer = 0.1 * 1 / 10`, on a buffer of 10 transitions. -/
theorem C1_beta_update_witness :
    ((5 : ℚ), (10 : ℚ)).2 + 1 >
        (readNData ({ mkState [mkEpisode 1 10] (-1) with beta := 1 / 100 } :
          MemoryProcessing ℚ) : ℚ) ∧
    ∃ st1, updateReFERpenalization (mkSettings 1 10 10) ((5 : ℚ), (10 : ℚ))
        { mkState [mkEpisode 1 10] (-1) with beta := 1 / 100 } = some st1 ∧
      st1.beta =
        if ((5 : ℚ), (10 : ℚ)).1 / ((5 : ℚ), (10 : ℚ)).2 > (mkSettings 1 10 10).penalTol then
          fp_to_zero (learnRefer (mkSettings 1 10 10) ((5 : ℚ), (10 : ℚ)).2)
            ({ mkState [mkEpisode 1 10] (-1) with beta := 1 / 100 } : MemoryProcessing ℚ).beta
        else fp_to_one (learnRefer (mkSettings 1 10 10) ((5 : ℚ), (10 : ℚ)).2)
            ({ mkState [mkEpisode 1 10] (-1) with beta := 1 / 100 } : MemoryProcessing ℚ).beta :=
  ⟨by norm_num [readNData, mkState, mkEpisode],
    C1_beta_update (mkSettings 1 10 10) ((5 : ℚ), (10 : ℚ))
      { mkState [mkEpisode 1 10] (-1) with beta := 1 / 100 } (by norm_num [readNData, mkState, mkEpisode])⟩

/-- C1, counterexample: on a buffer of 10 transitions, 5 of them far-policy,
with `beta = 0.01`, `fracOffPol = 0.5 > D = 0.1` and `eta_refer = 0.01` the step
returns `beta = 0.0099 = fp_to_zero(beta)`, while
`fp_to_one(beta) = 0.0199`. -/
theorem C1_counterexample :
    ∃ st1, updateReFERpenalization (mkSettings 1 10 10) ((5 : ℚ), (10 : ℚ))
        { mkState [mkEpisode 1 10] (-1) with beta := 1 / 100 } = some st1 ∧
      (5 : ℚ) / 10 > (mkSettings 1 10 10).penalTol ∧
      learnRefer (mkSettings 1 10 10) (10 : ℚ) = 1 / 100 ∧
      st1.beta = 99 / 10000 ∧
      fp_to_one (1 / 100 : ℚ) (1 / 100) = 199 / 10000 ∧
      st1.beta ≠ fp_to_one (learnRefer (mkSettings 1 10 10) (10 : ℚ)) (1 / 100) := by
  have hl : learnRefer (mkSettings 1 10 10) (10 : ℚ) = 1 / 100 := by
    norm_num [learnRefer, mkSettings]
  refine ⟨_, by simp only [updateReFERpenalization]; rw [if_pos]; norm_num [readNData, mkState, mkEpisode],
    by norm_num [mkSettings], hl, ?_, by norm_num [fp_to_one, fp_to_zero], ?_⟩
  · simp only [hl]
    norm_num [fixPointIter, mkSettings, mkState]
  · simp only [hl]
    norm_num [fixPointIter, mkSettings, mkState, fp_to_one, fp_to_zero]

/-- C2: `updateReFERpenalization` keeps `beta` and `alpha` in `[0,1]`, whatever
the reduced pair, the tolerance, the batch size and the data size. -/
theorem C2_range_preserved (cfg : Settings K) (nFarGlobal : K × K) (st : MemoryProcessing K)
    (hassert : nFarGlobal.2 + 1 > (readNData st : K))
    (hb0 : 0 ≤ st.beta) (hb1 : st.beta ≤ 1) (ha0 : 0 ≤ st.alpha) (ha1 : st.alpha ≤ 1) :
    ∃ st1, updateReFERpenalization cfg nFarGlobal st = some st1 ∧
      0 ≤ st1.beta ∧ st1.beta ≤ 1 ∧ 0 ≤ st1.alpha ∧ st1.alpha ≤ 1 := by
  refine ⟨_, by simp only [updateReFERpenalization, hassert, if_true]; rfl, ?_⟩
  have hb := fixPointIter_mem_unit (learnRefer cfg nFarGlobal.2) st.beta
    (decide (nFarGlobal.1 / nFarGlobal.2 > cfg.penalTol)) (learnRefer_nonneg _ _) hb0 hb1
  have ha := fixPointIter_mem_unit (learnRefer cfg nFarGlobal.2) st.alpha
    (decide (|cfg.penalTol - nFarGlobal.1 / nFarGlobal.2| < 1 / 1000))
    (learnRefer_nonneg _ _) ha0 ha1
  exact ⟨hb.1, hb.2, ha.1, ha.2⟩

/-- C2, witness: the reference configuration `B = 256`, `N = 2^18`, with
`beta = 1`, `alpha = 0` and no far-policy step. -/
theorem C2_range_preserved_witness :
    ((0 : ℚ), (262144 : ℚ)).2 + 1 >
        (readNData (mkState [mkEpisode 1 100] (-1) : MemoryProcessing ℚ) : ℚ) ∧
    0 ≤ (mkState [mkEpisode 1 100] (-1) : MemoryProcessing ℚ).beta ∧
    (mkState [mkEpisode 1 100] (-1) : MemoryProcessing ℚ).beta ≤ 1 ∧
    0 ≤ (mkState [mkEpisode 1 100] (-1) : MemoryProcessing ℚ).alpha ∧
    (mkState [mkEpisode 1 100] (-1) : MemoryProcessing ℚ).alpha ≤ 1 ∧
    ∃ st1, updateReFERpenalization (mkSettings 256 262144 262144) ((0 : ℚ), (262144 : ℚ))
        (mkState [mkEpisode 1 100] (-1)) = some st1 ∧
      0 ≤ st1.beta ∧ st1.beta ≤ 1 ∧ 0 ≤ st1.alpha ∧ st1.alpha ≤ 1 :=
  ⟨by norm_num [readNData, mkState, mkEpisode], by norm_num [mkState], by norm_num [mkState],
    by norm_num [mkState], by norm_num [mkState],
  C2_range_preserved (mkSettings 256 262144 262144) ((0 : ℚ), (262144 : ℚ))
    (mkState [mkEpisode 1 100] (-1)) (by norm_num [readNData, mkState, mkEpisode])
    (by norm_num [mkState]) (by norm_num [mkState]) (by norm_num [mkState])
    (by norm_num [mkState])⟩

/-- C4: with learning rate 1, a non-empty data set and a reducer that returns
the sums submitted in the same step, `updateRewardsStats` sets the reward mean
to the arithmetic mean of the rewards the fold read, the reward std to
`sqrt(max(population variance, EPS))` and `invstd = 1/std`; the same holds for
each state coordinate when the state weight is 1. -/
theorem C4_exact_update (sqrt : K → K) (EPS : K) (cfg : Settings K) (WR WS : K)
    (bInit : Bool) (nDataGlobal : Int × Int) (rdxGet : Bool → Option (List K) → List K)
    (st : MemoryProcessing K)
    (htrain : cfg.bTrain = true) (hread : ∀ p, rdxGet bInit (some p) = p)
    (hcount : 0 < readNData st) (hW : WR = 1 ∨ WS = 1) :
    ∃ res, updateRewardsStats sqrt EPS cfg WR WS bInit nDataGlobal rdxGet st = some res ∧
      (WR = 1 →
        res.1.mean_reward = sampleMean (rewardSamples st.episodes) ∧
        res.1.std_reward = sqrt (max (populationVariance (rewardSamples st.episodes)) EPS) ∧
        res.1.invstd_reward = 1 / res.1.std_reward) ∧
      (WS = 1 → ∀ k, k < cfg.dimStateObserved →
        res.1.mean_state.getD k 0 = sampleMean (stateSamples k st.episodes) ∧
        res.1.std_state.getD k 0 =
          sqrt (max (populationVariance (stateSamples k st.episodes)) EPS) ∧
        res.1.invstd_state.getD k 0 = 1 / res.1.std_state.getD k 0) := by
  have hpos : 0 < WR ∨ 0 < WS := by
    rcases hW with h | h
    · exact Or.inl (by rw [h]; exact one_pos)
    · exact Or.inr (by rw [h]; exact one_pos)
  obtain ⟨hl1, hl2⟩ := accumStats_lengths cfg.dimStateObserved WS st.mean_reward st.mean_state
    st.episodes
  obtain ⟨p1, p2, p3, p4, p5, p6⟩ := packStats_layout _ cfg.dimStateObserved hl1 hl2
  obtain ⟨a1, a2, a3⟩ := accumStats_scalars cfg.dimStateObserved WS st.mean_reward
    st.mean_state st.episodes
  have hsub : submitStats cfg WR WS
      { st with nSeenEpisodes := nDataGlobal.1, nSeenTransitions := nDataGlobal.2 } =
      some (packStats (accumStats cfg.dimStateObserved WS st.mean_reward st.mean_state
        st.episodes)) := by
    simp only [submitStats, hpos, if_true]
  have hR : rewardSamples st.episodes ≠ [] := by
    intro h
    have := rewardSamples_length st.episodes
    rw [h] at this
    simp only [readNData] at hcount
    simp only [List.length_nil] at this
    omega
  refine ⟨_, by simp only [updateRewardsStats, htrain, hsub, hread, p1]; simp; rfl, ?_, ?_⟩
  · intro hWR
    subst hWR
    have hex := updateStats_exact sqrt EPS st.mean_reward st.std_reward _ hR
    by_cases hS : 0 < WS
    · simp only [applyStateStats, applyRewardStats, hS, if_true, p2, p3, p4, a1, a2, a3,
        hex, zero_lt_one]
      exact ⟨trivial, trivial, trivial⟩
    · simp only [applyStateStats, applyRewardStats, hS, if_true, if_false, p2, p3, p4, a1,
        a2, a3, hex, zero_lt_one]
      exact ⟨trivial, trivial, trivial⟩
  · intro hWS k hk
    subst hWS
    obtain ⟨v1, v2⟩ := accumStats_vectors cfg.dimStateObserved 1 st.mean_reward st.mean_state
      zero_lt_one st.episodes k hk
    have hS : stateSamples k st.episodes ≠ [] := by
      intro h
      have := stateSamples_length k st.episodes
      rw [h] at this
      simp only [readNData] at hcount
      simp only [List.length_nil] at this
      omega
    have hlen : ((rewardSamples st.episodes).length : K) =
        ((stateSamples k st.episodes).length : K) := by
      rw [rewardSamples_length, stateSamples_length]
    have hex := updateStats_exact sqrt EPS (st.mean_state.getD k 0) (st.std_state.getD k 0) _ hS
    have hst : ∀ s0 : MemoryProcessing K, s0.mean_state = st.mean_state →
        s0.std_state = st.std_state →
        stateCoordStats sqrt EPS cfg.dimStateObserved 1
          (packStats (accumStats cfg.dimStateObserved 1 st.mean_reward st.mean_state
            st.episodes)) s0 k =
        (sampleMean (stateSamples k st.episodes),
          sqrt (max (populationVariance (stateSamples k st.episodes)) EPS),
          1 / sqrt (max (populationVariance (stateSamples k st.episodes)) EPS)) := by
      intro s0 e1 e2
      simp only [stateCoordStats, p2, p5, p6, a1, v1, v2, e1, e2, hlen, hex]
    simp only [applyStateStats, zero_lt_one, if_true, updateCoords_getD _ _ _ _ hk]
    rw [hst _ (by simp only [applyRewardStats]; split <;> rfl)
      (by simp only [applyRewardStats]; split <;> rfl)]
    exact ⟨rfl, rfl, rfl⟩
/-- C4, witness: one episode with rewards 1, 3 and state values 2, 4, one
state coordinate, weights 1, real arithmetic with `Real.sqrt`, the submitted
sums read back in the same step. -/
theorem C4_exact_update_witness :
    ({ (mkSettings 1 10 10 : Settings ℝ) with dimStateObserved := 1 } : Settings ℝ).bTrain = true ∧
    (∀ p : List ℝ, (fun _ sub => sub.getD [] : Bool → Option (List ℝ) → List ℝ) true (some p)
      = p) ∧
    0 < readNData (mkState [(twoStepEpisode : Episode ℝ)] (-1)) ∧
    ((1 : ℝ) = 1 ∨ (1 : ℝ) = 1) ∧
    ∃ res, updateRewardsStats Real.sqrt (1 / 2 ^ 52)
        { (mkSettings 1 10 10 : Settings ℝ) with dimStateObserved := 1 } 1 1 true (0, 0)
        (fun _ sub => sub.getD []) (mkState [(twoStepEpisode : Episode ℝ)] (-1)) = some res ∧
      ((1 : ℝ) = 1 →
        res.1.mean_reward = sampleMean (rewardSamples
          (mkState [(twoStepEpisode : Episode ℝ)] (-1)).episodes) ∧
        res.1.std_reward = Real.sqrt (max (populationVariance (rewardSamples
          (mkState [(twoStepEpisode : Episode ℝ)] (-1)).episodes)) (1 / 2 ^ 52)) ∧
        res.1.invstd_reward = 1 / res.1.std_reward) ∧
      ((1 : ℝ) = 1 → ∀ k,
        k < ({ (mkSettings 1 10 10 : Settings ℝ) with dimStateObserved := 1 } :
          Settings ℝ).dimStateObserved →
        res.1.mean_state.getD k 0 = sampleMean (stateSamples k
          (mkState [(twoStepEpisode : Episode ℝ)] (-1)).episodes) ∧
        res.1.std_state.getD k 0 = Real.sqrt (max (populationVariance (stateSamples k
          (mkState [(twoStepEpisode : Episode ℝ)] (-1)).episodes)) (1 / 2 ^ 52)) ∧
        res.1.invstd_state.getD k 0 = 1 / res.1.std_state.getD k 0) :=
  ⟨rfl, fun _ => rfl, by simp [readNData, mkState, twoStepEpisode, mkEpisode], Or.inl rfl,
    C4_exact_update Real.sqrt (1 / 2 ^ 52)
      { (mkSettings 1 10 10 : Settings ℝ) with dimStateObserved := 1 } 1 1 true (0, 0)
      (fun _ sub => sub.getD []) (mkState [(twoStepEpisode : Episode ℝ)] (-1)) rfl
      (fun _ => rfl) (by simp [readNData, mkState, twoStepEpisode, mkEpisode]) (Or.inl rfl)⟩

end Claims

section BufferClaims

variable {K : Type}

/-- C5 (as amended): whenever `prepareNextBatchAndDeleteStaleEp` removes an
episode, the number of transitions after the removal is the number before
minus the candidate's `ndata`, and it is strictly greater than
`N_max_local`. -/
theorem C5_removal_stays_above_cap (cfg : Settings K) (st : MemoryProcessing K)
    (hcons : SampledConsistent st.lastSampledEpisodes st.episodes)
    (hidx : st.indexOfEpisodeToDelete < (st.episodes.length : Int)) :
    ∃ st1, prepareNextBatchAndDeleteStaleEp cfg st = some st1 ∧
      (st1.episodes.length < st.episodes.length →
        cfg.maxTotObsNum_local < readNData st1 ∧
        ∀ EP, st.episodes[st.indexOfEpisodeToDelete.toNat]? = some EP →
          readNData st1 + EP.ndata = readNData st) := by
  by_cases hpos : 0 ≤ st.indexOfEpisodeToDelete
  · obtain ⟨EP, hEP⟩ := candidate_exists st.episodes _ hpos hidx
    refine ⟨_, prepare_candidate cfg st hcons EP hpos hEP, ?_⟩
    by_cases hg : readNData st - EP.ndata > cfg.maxTotObsNum_local
    · intro _
      simp only [hg, if_true]
      have hsum := readNData_removeEpisode st st.lastSampledEpisodes _ EP hEP (-1)
        (st.nPrunedEps + 1)
      refine ⟨by omega, fun EP1 hEP1 => ?_⟩
      rw [hEP] at hEP1
      rw [← Option.some.inj hEP1]
      exact hsum
    · intro hlt
      simp only [hg, if_false, clearedEpisodes_length] at hlt
      exact absurd hlt (lt_irrefl _)
  · refine ⟨_, prepare_no_candidate cfg st hcons (not_le.mp hpos), ?_⟩
    intro hlt
    simp only [clearedEpisodes_length] at hlt
    exact absurd hlt (lt_irrefl _)

/-- C5, witness: two episodes of 2 transitions, cap 1, candidate 0. -/
theorem C5_removal_stays_above_cap_witness :
    SampledConsistent (mkState [mkEpisode 1 2, mkEpisode 2 2] 0 : MemoryProcessing ℚ).lastSampledEpisodes
      (mkState [mkEpisode 1 2, mkEpisode 2 2] 0 : MemoryProcessing ℚ).episodes ∧
    (mkState [mkEpisode 1 2, mkEpisode 2 2] 0 : MemoryProcessing ℚ).indexOfEpisodeToDelete <
      ((mkState [mkEpisode 1 2, mkEpisode 2 2] 0 : MemoryProcessing ℚ).episodes.length : Int) ∧
    ∃ st1, prepareNextBatchAndDeleteStaleEp (mkSettings 1 10 1)
        (mkState [mkEpisode 1 2, mkEpisode 2 2] 0 : MemoryProcessing ℚ) = some st1 ∧
      (st1.episodes.length <
          (mkState [mkEpisode 1 2, mkEpisode 2 2] 0 : MemoryProcessing ℚ).episodes.length →
        (mkSettings 1 10 1 : Settings ℚ).maxTotObsNum_local < readNData st1 ∧
        ∀ EP, (mkState [mkEpisode 1 2, mkEpisode 2 2] 0 : MemoryProcessing ℚ).episodes[
            (mkState [mkEpisode 1 2, mkEpisode 2 2] 0 :
              MemoryProcessing ℚ).indexOfEpisodeToDelete.toNat]? = some EP →
          readNData st1 + EP.ndata =
            readNData (mkState [mkEpisode 1 2, mkEpisode 2 2] 0 : MemoryProcessing ℚ)) :=
  ⟨sampledConsistent_nil _ (by simp [mkState, mkEpisode]), by simp [mkState],
    C5_removal_stays_above_cap (mkSettings 1 10 1)
      (mkState [mkEpisode 1 2, mkEpisode 2 2] 0 : MemoryProcessing ℚ)
      (sampledConsistent_nil _ (by simp [mkState, mkEpisode])) (by simp [mkState])⟩

/-- C5, counterexample: cap 1, two episodes of 2 transitions, candidate 0.  The
buffer is over the cap (4 > 1), the removal fires, and 2 transitions remain:
not `<= 1`. -/
theorem C5_counterexample :
    ∃ st1, prepareNextBatchAndDeleteStaleEp (mkSettings 1 10 1)
        (mkState [mkEpisode 1 2, mkEpisode 2 2] 0 : MemoryProcessing ℚ) = some st1 ∧
      readNData (mkState [mkEpisode 1 2, mkEpisode 2 2] 0 : MemoryProcessing ℚ) >
        (mkSettings 1 10 1 : Settings ℚ).maxTotObsNum_local ∧
      st1.episodes.length = 1 ∧ st1.nPrunedEps = 1 ∧ readNData st1 = 2 ∧
      ¬ readNData st1 ≤ (mkSettings 1 10 1 : Settings ℚ).maxTotObsNum_local := by
  refine ⟨_, prepare_candidate (mkSettings 1 10 1) _
    (sampledConsistent_nil _ (by simp [mkState, mkEpisode])) (mkEpisode 1 2)
    (by simp [mkState]) (by simp [mkState]), ?_⟩
  simp [readNData, mkState, mkEpisode, mkSettings, removeEpisode, clearedEpisodes]
/-- C6: with a candidate that is none (`-1`) or an index of the buffer,
`prepareNextBatchAndDeleteStaleEp` removes an episode if and only if the
removal condition holds; it then removes exactly the episode at the candidate
index and adds 1 to `nPrunedEps`; otherwise the buffer (flags cleared) and
`nPrunedEps` are unchanged; the candidate is `-1` afterwards in every case. -/
theorem C6_removal_iff_guard (cfg : Settings K) (st : MemoryProcessing K)
    (hcons : SampledConsistent st.lastSampledEpisodes st.episodes)
    (hlow : -1 ≤ st.indexOfEpisodeToDelete)
    (hidx : st.indexOfEpisodeToDelete < (st.episodes.length : Int)) :
    ∃ st1, prepareNextBatchAndDeleteStaleEp cfg st = some st1 ∧
      st1.indexOfEpisodeToDelete = -1 ∧
      (st1.episodes.length < st.episodes.length ↔ removalGuard cfg st) ∧
      (removalGuard cfg st →
        st1.episodes = removeEpisode (clearedEpisodes st.lastSampledEpisodes st.episodes)
          st.indexOfEpisodeToDelete.toNat ∧
        st1.episodes.length + 1 = st.episodes.length ∧
        st1.nPrunedEps = st.nPrunedEps + 1) ∧
      (¬ removalGuard cfg st →
        st1.episodes = clearedEpisodes st.lastSampledEpisodes st.episodes ∧
        st1.nPrunedEps = st.nPrunedEps) := by
  by_cases hpos : 0 ≤ st.indexOfEpisodeToDelete
  · obtain ⟨EP, hEP⟩ := candidate_exists st.episodes _ hpos hidx
    refine ⟨_, prepare_candidate cfg st hcons EP hpos hEP, ?_⟩
    have hlen := length_removeEpisode st.episodes st.lastSampledEpisodes _ EP hEP
    by_cases hg : readNData st - EP.ndata > cfg.maxTotObsNum_local
    · have hG : removalGuard cfg st := ⟨EP, hpos, hEP, hg⟩
      simp only [hg, if_true, hG, not_true_eq_false, iff_true, true_implies, false_implies,
        and_true]
      exact ⟨trivial, by omega, trivial, hlen⟩
    · have hG : ¬ removalGuard cfg st := by
        rintro ⟨EP1, _, hEP1, hg1⟩
        rw [hEP] at hEP1
        rw [← Option.some.inj hEP1] at hg1
        exact hg hg1
      simp only [hg, if_false, hG, not_false_eq_true, iff_false, true_implies, false_implies,
        true_and, clearedEpisodes_length, lt_irrefl, and_true]
  · have hG : ¬ removalGuard cfg st := fun ⟨_, h0, _⟩ => hpos h0
    refine ⟨_, prepare_no_candidate cfg st hcons (not_le.mp hpos), ?_⟩
    simp only [hG, not_false_eq_true, iff_false, true_implies, false_implies, true_and,
      clearedEpisodes_length, lt_irrefl, and_true]
    omega

/-- C6, witness: three episodes of 3 transitions, the second one sampled,
candidate 0, cap 5. -/
theorem C6_removal_iff_guard_witness :
    SampledConsistent (sampledState : MemoryProcessing ℚ).lastSampledEpisodes
      (sampledState : MemoryProcessing ℚ).episodes ∧
    -1 ≤ (sampledState : MemoryProcessing ℚ).indexOfEpisodeToDelete ∧
    (sampledState : MemoryProcessing ℚ).indexOfEpisodeToDelete <
      ((sampledState : MemoryProcessing ℚ).episodes.length : Int) ∧
    ∃ st1, prepareNextBatchAndDeleteStaleEp (mkSettings 1 10 5)
        (sampledState : MemoryProcessing ℚ) = some st1 ∧
      st1.indexOfEpisodeToDelete = -1 ∧
      (st1.episodes.length < (sampledState : MemoryProcessing ℚ).episodes.length ↔
        removalGuard (mkSettings 1 10 5) (sampledState : MemoryProcessing ℚ)) ∧
      (removalGuard (mkSettings 1 10 5) (sampledState : MemoryProcessing ℚ) →
        st1.episodes = removeEpisode
          (clearedEpisodes (sampledState : MemoryProcessing ℚ).lastSampledEpisodes
            (sampledState : MemoryProcessing ℚ).episodes)
          (sampledState : MemoryProcessing ℚ).indexOfEpisodeToDelete.toNat ∧
        st1.episodes.length + 1 = (sampledState : MemoryProcessing ℚ).episodes.length ∧
        st1.nPrunedEps = (sampledState : MemoryProcessing ℚ).nPrunedEps + 1) ∧
      (¬ removalGuard (mkSettings 1 10 5) (sampledState : MemoryProcessing ℚ) →
        st1.episodes = clearedEpisodes (sampledState : MemoryProcessing ℚ).lastSampledEpisodes
          (sampledState : MemoryProcessing ℚ).episodes ∧
        st1.nPrunedEps = (sampledState : MemoryProcessing ℚ).nPrunedEps) :=
  ⟨sampledState_consistent, by simp [sampledState, mkState], by simp [sampledState, mkState],
    C6_removal_iff_guard (mkSettings 1 10 5) (sampledState : MemoryProcessing ℚ)
      sampledState_consistent (by simp [sampledState, mkState])
      (by simp [sampledState, mkState])⟩

/-- C7 (as amended): for every cap `N_max_local > 0`, when the buffer holds
exactly two episodes of `2 * N_max_local` transitions and one of them is the
candidate, the first call of `prepareNextBatchAndDeleteStaleEp` removes the
candidate (`4N - 2N > N`) and keeps the other episode. -/
theorem C7_candidate_removed (cfg : Settings K) (st : MemoryProcessing K) (e1 e2 : Episode K)
    (hN : 0 < cfg.maxTotObsNum_local) (heps : st.episodes = [e1, e2])
    (h1 : e1.ndata = 2 * cfg.maxTotObsNum_local) (h2 : e2.ndata = 2 * cfg.maxTotObsNum_local)
    (hidx : st.indexOfEpisodeToDelete = 0 ∨ st.indexOfEpisodeToDelete = 1)
    (hcons : SampledConsistent st.lastSampledEpisodes st.episodes) :
    ∃ st1, prepareNextBatchAndDeleteStaleEp cfg st = some st1 ∧
      st1.episodes = removeEpisode (clearedEpisodes st.lastSampledEpisodes st.episodes)
        st.indexOfEpisodeToDelete.toNat ∧
      st1.episodes.length = 1 ∧ st1.nPrunedEps = st.nPrunedEps + 1 ∧
      readNData st1 = 2 * cfg.maxTotObsNum_local := by
  have htot : readNData st = 4 * cfg.maxTotObsNum_local := by
    simp only [readNData, heps, List.map_cons, List.map_nil, List.sum_cons, List.sum_nil, h1, h2]
    omega
  have hpos : 0 ≤ st.indexOfEpisodeToDelete := by
    rcases hidx with h | h <;> omega
  have hcand : ∃ EP, st.episodes[st.indexOfEpisodeToDelete.toNat]? = some EP ∧
      EP.ndata = 2 * cfg.maxTotObsNum_local := by
    rcases hidx with h | h
    · exact ⟨e1, by rw [h, heps]; rfl, h1⟩
    · exact ⟨e2, by rw [h, heps]; rfl, h2⟩
  obtain ⟨EP, hEP, hnd⟩ := hcand
  have hg : readNData st - EP.ndata > cfg.maxTotObsNum_local := by omega
  have hlen := length_removeEpisode st.episodes st.lastSampledEpisodes _ EP hEP
  have hsum := readNData_removeEpisode st st.lastSampledEpisodes _ EP hEP (-1)
    (st.nPrunedEps + 1)
  refine ⟨_, prepare_candidate cfg st hcons EP hpos hEP, ?_⟩
  simp only [hg, if_true]
  refine ⟨trivial, ?_, trivial, by omega⟩
  rw [heps] at hlen
  simp only [List.length_cons, List.length_nil] at hlen
  rw [heps]
  omega

/-- C7, witness: cap 3, two episodes of 6 transitions, candidate 1. -/
theorem C7_candidate_removed_witness :
    0 < (mkSettings 1 10 3 : Settings ℚ).maxTotObsNum_local ∧
    (mkState [mkEpisode 1 6, mkEpisode 2 6] 1 : MemoryProcessing ℚ).episodes =
      [mkEpisode 1 6, mkEpisode 2 6] ∧
    (mkEpisode 1 6 : Episode ℚ).ndata = 2 * (mkSettings 1 10 3 : Settings ℚ).maxTotObsNum_local ∧
    (mkEpisode 2 6 : Episode ℚ).ndata = 2 * (mkSettings 1 10 3 : Settings ℚ).maxTotObsNum_local ∧
    ((mkState [mkEpisode 1 6, mkEpisode 2 6] 1 : MemoryProcessing ℚ).indexOfEpisodeToDelete = 0 ∨
      (mkState [mkEpisode 1 6, mkEpisode 2 6] 1 : MemoryProcessing ℚ).indexOfEpisodeToDelete
        = 1) ∧
    ∃ st1, prepareNextBatchAndDeleteStaleEp (mkSettings 1 10 3)
        (mkState [mkEpisode 1 6, mkEpisode 2 6] 1 : MemoryProcessing ℚ) = some st1 ∧
      st1.episodes = removeEpisode
        (clearedEpisodes
          (mkState [mkEpisode 1 6, mkEpisode 2 6] 1 : MemoryProcessing ℚ).lastSampledEpisodes
          (mkState [mkEpisode 1 6, mkEpisode 2 6] 1 : MemoryProcessing ℚ).episodes)
        (mkState [mkEpisode 1 6, mkEpisode 2 6] 1 :
          MemoryProcessing ℚ).indexOfEpisodeToDelete.toNat ∧
      st1.episodes.length = 1 ∧
      st1.nPrunedEps =
        (mkState [mkEpisode 1 6, mkEpisode 2 6] 1 : MemoryProcessing ℚ).nPrunedEps + 1 ∧
      readNData st1 = 2 * (mkSettings 1 10 3 : Settings ℚ).maxTotObsNum_local :=
  ⟨by simp [mkSettings], rfl, rfl, rfl, Or.inr rfl,
    C7_candidate_removed (mkSettings 1 10 3)
      (mkState [mkEpisode 1 6, mkEpisode 2 6] 1 : MemoryProcessing ℚ) (mkEpisode 1 6)
      (mkEpisode 2 6) (by simp [mkSettings]) rfl rfl rfl (Or.inr rfl)
      (sampledConsistent_nil _ (by simp [mkState, mkEpisode]))⟩

/-- C7, counterexample: cap 1, two episodes of 2 transitions with IDs 1 and 2,
candidate 0.  The first call removes the episode with ID 1: one episode, of ID
2, is left and `nPrunedEps` is 1. -/
theorem C7_counterexample :
    ∃ st1, prepareNextBatchAndDeleteStaleEp (mkSettings 1 10 1)
        (mkState [mkEpisode 1 2, mkEpisode 2 2] 0 : MemoryProcessing ℚ) = some st1 ∧
      0 < (mkSettings 1 10 1 : Settings ℚ).maxTotObsNum_local ∧
      (mkState [mkEpisode 1 2, mkEpisode 2 2] 0 : MemoryProcessing ℚ).episodes.map Episode.ndata
        = [2 * (mkSettings 1 10 1 : Settings ℚ).maxTotObsNum_local,
           2 * (mkSettings 1 10 1 : Settings ℚ).maxTotObsNum_local] ∧
      st1.episodes.map Episode.ID = [2] ∧ st1.nPrunedEps = 1 ∧
      st1.episodes.length ≠
        (mkState [mkEpisode 1 2, mkEpisode 2 2] 0 : MemoryProcessing ℚ).episodes.length := by
  refine ⟨_, prepare_candidate (mkSettings 1 10 1) _
    (sampledConsistent_nil _ (by simp [mkState, mkEpisode])) (mkEpisode 1 2)
    (by simp [mkState]) (by simp [mkState]), ?_⟩
  simp [readNData, mkState, mkEpisode, mkSettings, removeEpisode, clearedEpisodes]

/-- C8: the removal never empties the buffer.  If the buffer holds a single
episode, `prepareNextBatchAndDeleteStaleEp` keeps it whatever the cap and the
episode length; and whenever an episode is removed, at least one transition,
hence at least one episode, remains. -/
theorem C8_buffer_not_collapsed (cfg : Settings K) (st : MemoryProcessing K)
    (hcons : SampledConsistent st.lastSampledEpisodes st.episodes)
    (hidx : st.indexOfEpisodeToDelete < (st.episodes.length : Int)) :
    ∃ st1, prepareNextBatchAndDeleteStaleEp cfg st = some st1 ∧
      (st.episodes.length = 1 →
        st1.episodes = clearedEpisodes st.lastSampledEpisodes st.episodes ∧
        st1.episodes.length = 1 ∧ st1.nPrunedEps = st.nPrunedEps) ∧
      (st1.episodes.length < st.episodes.length →
        0 < readNData st1 ∧ st1.episodes ≠ []) := by
  by_cases hpos : 0 ≤ st.indexOfEpisodeToDelete
  · obtain ⟨EP, hEP⟩ := candidate_exists st.episodes _ hpos hidx
    refine ⟨_, prepare_candidate cfg st hcons EP hpos hEP, ?_⟩
    have hsum := readNData_removeEpisode st st.lastSampledEpisodes _ EP hEP (-1)
      (st.nPrunedEps + 1)
    by_cases hg : readNData st - EP.ndata > cfg.maxTotObsNum_local
    · simp only [hg, if_true]
      have hposN : 0 < readNData
          { st with
            episodes := removeEpisode (clearedEpisodes st.lastSampledEpisodes st.episodes)
              st.indexOfEpisodeToDelete.toNat
            nPrunedEps := st.nPrunedEps + 1
            indexOfEpisodeToDelete := -1 } := by omega
      refine ⟨fun h1 => ?_, fun _ => ⟨hposN, fun hnil => ?_⟩⟩
      · exfalso
        obtain ⟨e, he⟩ := List.length_eq_one.mp h1
        have h0 : st.indexOfEpisodeToDelete.toNat = 0 := by
          rw [he] at hidx
          simp only [List.length_cons, List.length_nil] at hidx
          omega
        rw [h0, he] at hEP
        have hee : e = EP := by simpa using hEP
        have : readNData st = EP.ndata := by simp [readNData, he, hee]
        omega
      · simp only [readNData, hnil, List.map_nil, List.sum_nil] at hposN
        exact absurd hposN (lt_irrefl _)
    · simp only [hg, if_false, clearedEpisodes_length, lt_irrefl, false_implies, and_true]
      intro h1
      exact ⟨trivial, h1⟩
  · refine ⟨_, prepare_no_candidate cfg st hcons (not_le.mp hpos), ?_⟩
    simp only [clearedEpisodes_length, lt_irrefl, false_implies, and_true]
    intro h1
    exact ⟨trivial, h1⟩

/-- C8, witness: a single episode of 100 transitions, cap 3, candidate 0. -/
theorem C8_buffer_not_collapsed_witness :
    SampledConsistent (mkState [mkEpisode 1 100] 0 : MemoryProcessing ℚ).lastSampledEpisodes
      (mkState [mkEpisode 1 100] 0 : MemoryProcessing ℚ).episodes ∧
    (mkState [mkEpisode 1 100] 0 : MemoryProcessing ℚ).indexOfEpisodeToDelete <
      ((mkState [mkEpisode 1 100] 0 : MemoryProcessing ℚ).episodes.length : Int) ∧
    ∃ st1, prepareNextBatchAndDeleteStaleEp (mkSettings 1 10 3)
        (mkState [mkEpisode 1 100] 0 : MemoryProcessing ℚ) = some st1 ∧
      ((mkState [mkEpisode 1 100] 0 : MemoryProcessing ℚ).episodes.length = 1 →
        st1.episodes = clearedEpisodes
          (mkState [mkEpisode 1 100] 0 : MemoryProcessing ℚ).lastSampledEpisodes
          (mkState [mkEpisode 1 100] 0 : MemoryProcessing ℚ).episodes ∧
        st1.episodes.length = 1 ∧
        st1.nPrunedEps = (mkState [mkEpisode 1 100] 0 : MemoryProcessing ℚ).nPrunedEps) ∧
      (st1.episodes.length <
          (mkState [mkEpisode 1 100] 0 : MemoryProcessing ℚ).episodes.length →
        0 < readNData st1 ∧ st1.episodes ≠ []) :=
  ⟨sampledConsistent_nil _ (by simp [mkState, mkEpisode]), by simp [mkState],
    C8_buffer_not_collapsed (mkSettings 1 10 3)
      (mkState [mkEpisode 1 100] 0 : MemoryProcessing ℚ)
      (sampledConsistent_nil _ (by simp [mkState, mkEpisode])) (by simp [mkState])⟩

/-- C13: in a state whose flagged episodes are exactly those listed once by
`lastSampledEpisodes()` and whose unflagged episodes carry the sentinel `-1`,
`prepareNextBatchAndDeleteStaleEp` returns a buffer in which every episode has
`just_sampled = -1`; the buffer is the old one with only `just_sampled`
rewritten, possibly without the candidate. -/
theorem C13_flags_cleared (cfg : Settings K) (st : MemoryProcessing K)
    (hcons : SampledConsistent st.lastSampledEpisodes st.episodes)
    (hdom : ∀ EP ∈ st.episodes, -1 ≤ EP.just_sampled)
    (hidx : st.indexOfEpisodeToDelete < (st.episodes.length : Int)) :
    ∃ st1, prepareNextBatchAndDeleteStaleEp cfg st = some st1 ∧
      (∀ EP ∈ st1.episodes, EP.just_sampled = -1) ∧
      (∀ EP1 ∈ st1.episodes, ∃ EP ∈ st.episodes, EP1 = { EP with just_sampled := -1 }) ∧
      (st1.episodes = st.episodes.map (fun EP => { EP with just_sampled := -1 }) ∨
        st1.episodes = removeEpisode
          (st.episodes.map (fun EP => { EP with just_sampled := -1 }))
          st.indexOfEpisodeToDelete.toNat) := by
  have hmap := clearedEpisodes_eq_map _ _ hcons hdom
  have hall : ∀ EP1 ∈ st.episodes.map (fun EP => ({ EP with just_sampled := -1 } : Episode K)),
      EP1.just_sampled = -1 ∧ ∃ EP ∈ st.episodes, EP1 = { EP with just_sampled := -1 } := by
    intro EP1 h1
    obtain ⟨EP, hEP, rfl⟩ := List.mem_map.mp h1
    exact ⟨rfl, EP, hEP, rfl⟩
  have hsub : ∀ (l : List (Episode K)),
      (∀ EP1 ∈ l, EP1 ∈ st.episodes.map
        (fun EP => ({ EP with just_sampled := -1 } : Episode K))) →
      (∀ EP ∈ l, EP.just_sampled = -1) ∧
      (∀ EP1 ∈ l, ∃ EP ∈ st.episodes, EP1 = { EP with just_sampled := -1 }) :=
    fun l hl => ⟨fun EP h => (hall EP (hl EP h)).1, fun EP h => (hall EP (hl EP h)).2⟩
  by_cases hpos : 0 ≤ st.indexOfEpisodeToDelete
  · obtain ⟨EP, hEP⟩ := candidate_exists st.episodes _ hpos hidx
    refine ⟨_, prepare_candidate cfg st hcons EP hpos hEP, ?_⟩
    by_cases hg : readNData st - EP.ndata > cfg.maxTotObsNum_local
    · rw [if_pos hg, hmap]
      obtain ⟨a, b⟩ := hsub (removeEpisode
        (st.episodes.map (fun EP => ({ EP with just_sampled := -1 } : Episode K)))
        st.indexOfEpisodeToDelete.toNat)
        (fun EP1 h => List.mem_of_mem_eraseIdx (by simpa only [removeEpisode] using h))
      exact ⟨a, b, Or.inr rfl⟩
    · rw [if_neg hg, hmap]
      obtain ⟨a, b⟩ := hsub _ (fun EP1 h => h)
      exact ⟨a, b, Or.inl rfl⟩
  · refine ⟨_, prepare_no_candidate cfg st hcons (not_le.mp hpos), ?_⟩
    rw [hmap]
    obtain ⟨a, b⟩ := hsub _ (fun EP1 h => h)
    exact ⟨a, b, Or.inl rfl⟩

/-- C13, witness: three episodes of 3 transitions, the second one sampled,
candidate 0, cap 5. -/
theorem C13_flags_cleared_witness :
    SampledConsistent (sampledState : MemoryProcessing ℚ).lastSampledEpisodes
      (sampledState : MemoryProcessing ℚ).episodes ∧
    (∀ EP ∈ (sampledState : MemoryProcessing ℚ).episodes, -1 ≤ EP.just_sampled) ∧
    (sampledState : MemoryProcessing ℚ).indexOfEpisodeToDelete <
      ((sampledState : MemoryProcessing ℚ).episodes.length : Int) ∧
    ∃ st1, prepareNextBatchAndDeleteStaleEp (mkSettings 1 10 5)
        (sampledState : MemoryProcessing ℚ) = some st1 ∧
      (∀ EP ∈ st1.episodes, EP.just_sampled = -1) ∧
      (∀ EP1 ∈ st1.episodes, ∃ EP ∈ (sampledState : MemoryProcessing ℚ).episodes,
        EP1 = { EP with just_sampled := -1 }) ∧
      (st1.episodes = (sampledState : MemoryProcessing ℚ).episodes.map
          (fun EP => { EP with just_sampled := -1 }) ∨
        st1.episodes = removeEpisode
          ((sampledState : MemoryProcessing ℚ).episodes.map
            (fun EP => { EP with just_sampled := -1 }))
          (sampledState : MemoryProcessing ℚ).indexOfEpisodeToDelete.toNat) :=
  ⟨sampledState_consistent, by simp [sampledState, mkState, mkEpisode],
    by simp [sampledState, mkState],
    C13_flags_cleared (mkSettings 1 10 5) (sampledState : MemoryProcessing ℚ)
      sampledState_consistent (by simp [sampledState, mkState, mkEpisode])
      (by simp [sampledState, mkState])⟩


end BufferClaims

section SelectionClaims

variable {K : Type} [LinearOrderedField K]

/-- C9: race guard of `selectEpisodeToDelete`.  On a non-empty buffer and for
every algorithm, when the call completes the candidate chosen by the selector
is replaced by the index of the oldest episode if its `ID` is greater than
`oldest.ID + n_episodes`, and kept otherwise; a candidate that exists afterwards
has `ID <= oldest.ID + n_episodes`; under `OLDEST` the candidate is the index of
the oldest episode and the guard does not change it. -/
theorem C9_race_guard (cfg : Settings K) (annealRate : K → Nat → K → K)
    (recompute : K → K → Episode K → K × K × Nat)
    (totMostFar totHighDkl totMostOff : SelectorOutput) (ALGO : FORGET)
    (st : MemoryProcessing K) (hne : st.episodes ≠ [])
    (hcomp : SelectCompletes cfg annealRate totMostFar totHighDkl totMostOff ALGO st) :
    ∃ (st1 : MemoryProcessing K) (io : Nat) (oldest : Episode K),
      selectEpisodeToDelete cfg annealRate recompute totMostFar totHighDkl totMostOff ALGO st
        = some st1 ∧
      st1.episodes.map Episode.ID = st.episodes.map Episode.ID ∧
      st1.episodes[io]? = some oldest ∧ (∀ e ∈ st1.episodes, oldest.ID ≤ e.ID) ∧
      (selectedCandidate (firstIn st1.episodes) totMostFar totHighDkl totMostOff ALGO < 0 →
        st1.indexOfEpisodeToDelete =
          selectedCandidate (firstIn st1.episodes) totMostFar totHighDkl totMostOff ALGO) ∧
      (∀ EP, 0 ≤ selectedCandidate (firstIn st1.episodes) totMostFar totHighDkl totMostOff ALGO →
        st1.episodes[(selectedCandidate (firstIn st1.episodes) totMostFar totHighDkl totMostOff
          ALGO).toNat]? = some EP →
        st1.indexOfEpisodeToDelete =
          if oldest.ID + (st1.episodes.length : Int) < EP.ID then (io : Int)
          else selectedCandidate (firstIn st1.episodes) totMostFar totHighDkl totMostOff ALGO) ∧
      (∀ EP, 0 ≤ st1.indexOfEpisodeToDelete →
        st1.episodes[st1.indexOfEpisodeToDelete.toNat]? = some EP →
        EP.ID ≤ oldest.ID + (st1.episodes.length : Int)) ∧
      (ALGO = FORGET.OLDEST →
        selectedCandidate (firstIn st1.episodes) totMostFar totHighDkl totMostOff ALGO = (io : Int)
        ∧ st1.indexOfEpisodeToDelete = (io : Int)) := by
  have hlen := selectBookkeeping_length cfg annealRate recompute ALGO st
  have hne1 : (selectBookkeeping cfg annealRate recompute ALGO st).episodes ≠ [] := by
    intro h
    rw [h] at hlen
    exact hne (List.length_eq_zero.mp hlen.symm)
  obtain ⟨j, e, hje, hfi, hmin, _⟩ := firstIn_spec _ hne1
  have hj : j < (selectBookkeeping cfg annealRate recompute ALGO st).episodes.length := by
    by_contra hc
    rw [List.getElem?_eq_none (by omega)] at hje
    exact Option.noConfusion hje
  have hcand : selectedCandidate (firstIn (selectBookkeeping cfg annealRate recompute ALGO
        st).episodes) totMostFar totHighDkl totMostOff ALGO <
      ((selectBookkeeping cfg annealRate recompute ALGO st).episodes.length : Int) := by
    obtain ⟨_, _, _, _, h5, h6, h7⟩ := hcomp
    rw [hlen]
    cases ALGO
    · simp only [selectedCandidate, hfi]
      rw [← hlen]
      exact_mod_cast hj
    · exact h5 rfl
    · exact h6 rfl
    · exact h7 rfl
  obtain ⟨ind, hrg, hneg, hpos⟩ := raceGuard_spec _ j e hje e.ID _ hcand
  rw [← hfi] at hrg
  refine ⟨_, j, e, selectEpisodeToDelete_eval cfg annealRate recompute totMostFar totHighDkl
    totMostOff ALGO st hne hcomp ind hrg, selectBookkeeping_map_ID cfg annealRate recompute ALGO st,
    hje, hmin, hneg, hpos, ?_, ?_⟩
  · intro EP h0 hEP
    simp only at h0 hEP
    by_cases hc : 0 ≤ selectedCandidate (firstIn (selectBookkeeping cfg annealRate recompute
        ALGO st).episodes) totMostFar totHighDkl totMostOff ALGO
    · obtain ⟨EPc, hEPc⟩ := candidate_exists _ _ hc hcand
      have hind := hpos EPc hc hEPc
      by_cases hlt : e.ID + ((selectBookkeeping cfg annealRate recompute ALGO
          st).episodes.length : Int) < EPc.ID
      · rw [if_pos hlt] at hind
        rw [hind, Int.toNat_ofNat, hje] at hEP
        rw [← Option.some.inj hEP]
        have : (0 : Int) ≤ ((selectBookkeeping cfg annealRate recompute ALGO
          st).episodes.length : Int) := Int.natCast_nonneg _
        show e.ID ≤ _
        omega
      · rw [if_neg hlt] at hind
        rw [hind, hEPc] at hEP
        rw [← Option.some.inj hEP]
        exact not_lt.mp hlt
    · rw [hneg (not_le.mp hc)] at h0
      exact absurd h0 hc
  · intro hA
    subst hA
    have hc : selectedCandidate (firstIn (selectBookkeeping cfg annealRate recompute
        FORGET.OLDEST st).episodes) totMostFar totHighDkl totMostOff FORGET.OLDEST = (j : Int) := by
      simp only [selectedCandidate, hfi]
    refine ⟨hc, ?_⟩
    have hind := hpos e (by rw [hc]; exact Int.natCast_nonneg _)
      (by rw [hc, Int.toNat_ofNat]; exact hje)
    have : (0 : Int) ≤ ((selectBookkeeping cfg annealRate recompute FORGET.OLDEST
      st).episodes.length : Int) := Int.natCast_nonneg _
    rw [if_neg (by omega), hc] at hind
    exact hind
/-- C9, witness: three episodes with IDs 5, 1, 10 under `FARPOLFRAC`, the
selector proposing index 2 (ID 10 > 1 + 3). -/
theorem C9_race_guard_witness :
    (raceState : MemoryProcessing ℚ).episodes ≠ [] ∧
    SelectCompletes (mkSettings 1 10 5) constAnneal ⟨2, 2⟩ ⟨0, 0⟩ ⟨0, 0⟩ FORGET.FARPOLFRAC
      (raceState : MemoryProcessing ℚ) ∧
    ∃ (st1 : MemoryProcessing ℚ) (io : Nat) (oldest : Episode ℚ),
      selectEpisodeToDelete (mkSettings 1 10 5) constAnneal keepCumulative ⟨2, 2⟩ ⟨0, 0⟩ ⟨0, 0⟩
        FORGET.FARPOLFRAC raceState = some st1 ∧
      st1.episodes.map Episode.ID = (raceState : MemoryProcessing ℚ).episodes.map Episode.ID ∧
      st1.episodes[io]? = some oldest ∧ (∀ e ∈ st1.episodes, oldest.ID ≤ e.ID) ∧
      (selectedCandidate (firstIn st1.episodes) ⟨2, 2⟩ ⟨0, 0⟩ ⟨0, 0⟩ FORGET.FARPOLFRAC < 0 →
        st1.indexOfEpisodeToDelete =
          selectedCandidate (firstIn st1.episodes) ⟨2, 2⟩ ⟨0, 0⟩ ⟨0, 0⟩ FORGET.FARPOLFRAC) ∧
      (∀ EP, 0 ≤ selectedCandidate (firstIn st1.episodes) ⟨2, 2⟩ ⟨0, 0⟩ ⟨0, 0⟩
          FORGET.FARPOLFRAC →
        st1.episodes[(selectedCandidate (firstIn st1.episodes) ⟨2, 2⟩ ⟨0, 0⟩ ⟨0, 0⟩
          FORGET.FARPOLFRAC).toNat]? = some EP →
        st1.indexOfEpisodeToDelete =
          if oldest.ID + (st1.episodes.length : Int) < EP.ID then (io : Int)
          else selectedCandidate (firstIn st1.episodes) ⟨2, 2⟩ ⟨0, 0⟩ ⟨0, 0⟩
            FORGET.FARPOLFRAC) ∧
      (∀ EP, 0 ≤ st1.indexOfEpisodeToDelete →
        st1.episodes[st1.indexOfEpisodeToDelete.toNat]? = some EP →
        EP.ID ≤ oldest.ID + (st1.episodes.length : Int)) ∧
      (FORGET.FARPOLFRAC = FORGET.OLDEST →
        selectedCandidate (firstIn st1.episodes) ⟨2, 2⟩ ⟨0, 0⟩ ⟨0, 0⟩ FORGET.FARPOLFRAC
          = (io : Int) ∧
        st1.indexOfEpisodeToDelete = (io : Int)) :=
  ⟨by simp [raceState, mkState],
    by
      norm_num [SelectCompletes, clipSchedule_of_ne _ _ FORGET.FARPOLFRAC _ (by decide),
        mkSettings, raceState, mkState],
    C9_race_guard (mkSettings 1 10 5) constAnneal keepCumulative ⟨2, 2⟩ ⟨0, 0⟩ ⟨0, 0⟩
      FORGET.FARPOLFRAC raceState (by simp [raceState, mkState])
      (by
      norm_num [SelectCompletes, clipSchedule_of_ne _ _ FORGET.FARPOLFRAC _ (by decide),
        mkSettings, raceState, mkState])⟩

/-- C10: under `OLDEST`, on a non-empty buffer with pairwise distinct IDs,
`selectEpisodeToDelete` sets the candidate to the index of the episode with
the smallest `ID` and `oldestStoresTimeStamp` to that `ID`; when the removal
condition holds, the following `prepareNextBatchAndDeleteStaleEp` removes
exactly that episode, the episode count decreases by 1 and every remaining
episode has a greater `ID`, so that successive rounds remove episodes in
ascending order of `ID`. -/
theorem C10_oldest_removed_first (cfg : Settings K) (annealRate : K → Nat → K → K)
    (recompute : K → K → Episode K → K × K × Nat)
    (totMostFar totHighDkl totMostOff : SelectorOutput) (st : MemoryProcessing K)
    (hne : st.episodes ≠ []) (hnodup : (st.episodes.map Episode.ID).Nodup)
    (hcons : SampledConsistent st.lastSampledEpisodes st.episodes)
    (hcomp : SelectCompletes cfg annealRate totMostFar totHighDkl totMostOff FORGET.OLDEST st) :
    ∃ (st1 : MemoryProcessing K) (io : Nat) (oldest : Episode K),
      selectEpisodeToDelete cfg annealRate recompute totMostFar totHighDkl totMostOff
        FORGET.OLDEST st = some st1 ∧
      st1.episodes[io]? = some oldest ∧
      (st.episodes.map Episode.ID)[io]? = some oldest.ID ∧
      (∀ (j : Nat) (id : Int), (st.episodes.map Episode.ID)[j]? = some id → j ≠ io →
        oldest.ID < id) ∧
      st1.indexOfEpisodeToDelete = (io : Int) ∧
      st1.oldestStoresTimeStamp = oldest.ID ∧
      (removalGuard cfg st1 →
        ∃ st2, prepareNextBatchAndDeleteStaleEp cfg st1 = some st2 ∧
          st2.episodes =
            removeEpisode (clearedEpisodes st1.lastSampledEpisodes st1.episodes) io ∧
          st2.episodes.map Episode.ID = (st.episodes.map Episode.ID).eraseIdx io ∧
          st2.episodes.length + 1 = st.episodes.length ∧
          ∀ e ∈ st2.episodes, oldest.ID < e.ID) := by
  obtain ⟨j, e, hje, hfi, hmin, hsel⟩ := selectOldest_eval cfg annealRate recompute totMostFar
    totHighDkl totMostOff st hne hcomp
  have hID := selectBookkeeping_map_ID cfg annealRate recompute FORGET.OLDEST st
  have hlen := selectBookkeeping_length cfg annealRate recompute FORGET.OLDEST st
  have hjid : (st.episodes.map Episode.ID)[j]? = some e.ID := by
    rw [← hID, List.getElem?_map, hje]; rfl
  have hj : j < (st.episodes.map Episode.ID).length := by
    by_contra hc
    rw [List.getElem?_eq_none (by omega)] at hjid
    exact Option.noConfusion hjid
  have hstrict : ∀ (j1 : Nat) (id : Int), (st.episodes.map Episode.ID)[j1]? = some id → j1 ≠ j →
      e.ID < id := by
    intro j1 id hid hne1
    have hle : e.ID ≤ id := by
      rw [← hID, List.getElem?_map] at hid
      cases h1 : (selectBookkeeping cfg annealRate recompute FORGET.OLDEST st).episodes[j1]? with
      | none => rw [h1] at hid; exact Option.noConfusion hid
      | some e1 =>
        rw [h1] at hid
        simp only [Option.map_some', Option.some.injEq] at hid
        rw [← hid]
        exact hmin e1 (List.mem_iff_getElem?.mpr ⟨j1, h1⟩)
    rcases lt_or_eq_of_le hle with h | h
    · exact h
    · exfalso
      apply hne1
      have : (st.episodes.map Episode.ID)[j]? = (st.episodes.map Episode.ID)[j1]? := by
        rw [hjid, hid, h]
      exact (List.getElem?_inj hj hnodup this).symm
  refine ⟨_, j, e, hsel, hje, hjid, hstrict, rfl, ?_, ?_⟩
  · show (selectBookkeeping cfg annealRate recompute FORGET.OLDEST st).oldestStoresTimeStamp = _
    rw [selectBookkeeping_timestamp, hfi]
  · intro hG
    obtain ⟨EP, hpos, hEP, hg⟩ := hG
    have hfr := selectBookkeeping_frame cfg annealRate recompute FORGET.OLDEST st
    have hcons1 : SampledConsistent
        ({ selectBookkeeping cfg annealRate recompute FORGET.OLDEST st with
          indexOfEpisodeToDelete := (j : Int) } : MemoryProcessing K).lastSampledEpisodes
        ({ selectBookkeeping cfg annealRate recompute FORGET.OLDEST st with
          indexOfEpisodeToDelete := (j : Int) } : MemoryProcessing K).episodes := by
      show SampledConsistent
        (selectBookkeeping cfg annealRate recompute FORGET.OLDEST st).lastSampledEpisodes
        (selectBookkeeping cfg annealRate recompute FORGET.OLDEST st).episodes
      rw [hfr.1]
      exact sampledConsistent_congr _ _ _
        (selectBookkeeping_map_just_sampled cfg annealRate recompute FORGET.OLDEST st) hcons
    have hprep := prepare_candidate cfg _ hcons1 EP hpos hEP
    rw [if_pos hg] at hprep
    refine ⟨_, hprep, ?_, ?_, ?_, ?_⟩
    · simp only [Int.toNat_ofNat]
    · simp only [Int.toNat_ofNat, removeEpisode]
      rw [map_eraseIdx_episodes, clearedEpisodes_map_ID, hID]
    · simp only [Int.toNat_ofNat]
      rw [← hlen]
      exact length_removeEpisode _ _ j e hje
    · intro e2 he2
      simp only [Int.toNat_ofNat, removeEpisode] at he2
      have hmem : e2.ID ∈ (st.episodes.map Episode.ID).eraseIdx j := by
        rw [← hID, ← clearedEpisodes_map_ID
          (selectBookkeeping cfg annealRate recompute FORGET.OLDEST st).lastSampledEpisodes,
          ← map_eraseIdx_episodes]
        exact List.mem_map_of_mem _ he2
      obtain ⟨i, hi, hiid⟩ := List.mem_eraseIdx_iff_getElem?.mp hmem
      exact hstrict i e2.ID hiid hi

/-- C10, witness: the buffer of ten episodes with IDs 1..10 and cap 5.  The
theorem applies, and two successive `OLDEST` rounds remove ID 1, then ID 2. -/
theorem C10_oldest_removed_first_witness :
    (tenState : MemoryProcessing ℚ).episodes ≠ [] ∧
    ((tenState : MemoryProcessing ℚ).episodes.map Episode.ID).Nodup ∧
    SampledConsistent (tenState : MemoryProcessing ℚ).lastSampledEpisodes
      (tenState : MemoryProcessing ℚ).episodes ∧
    SelectCompletes (mkSettings 1 10 5) constAnneal ⟨0, 0⟩ ⟨0, 0⟩ ⟨0, 0⟩ FORGET.OLDEST
      (tenState : MemoryProcessing ℚ) ∧
    (∃ (st1 : MemoryProcessing ℚ) (io : Nat) (oldest : Episode ℚ),
      selectEpisodeToDelete (mkSettings 1 10 5) constAnneal keepCumulative ⟨0, 0⟩ ⟨0, 0⟩ ⟨0, 0⟩
        FORGET.OLDEST tenState = some st1 ∧
      st1.episodes[io]? = some oldest ∧
      ((tenState : MemoryProcessing ℚ).episodes.map Episode.ID)[io]? = some oldest.ID ∧
      (∀ (j : Nat) (id : Int),
        ((tenState : MemoryProcessing ℚ).episodes.map Episode.ID)[j]? = some id → j ≠ io →
        oldest.ID < id) ∧
      st1.indexOfEpisodeToDelete = (io : Int) ∧
      st1.oldestStoresTimeStamp = oldest.ID ∧
      (removalGuard (mkSettings 1 10 5) st1 →
        ∃ st2, prepareNextBatchAndDeleteStaleEp (mkSettings 1 10 5) st1 = some st2 ∧
          st2.episodes =
            removeEpisode (clearedEpisodes st1.lastSampledEpisodes st1.episodes) io ∧
          st2.episodes.map Episode.ID =
            ((tenState : MemoryProcessing ℚ).episodes.map Episode.ID).eraseIdx io ∧
          st2.episodes.length + 1 = (tenState : MemoryProcessing ℚ).episodes.length ∧
          ∀ e ∈ st2.episodes, oldest.ID < e.ID)) ∧
    ∃ s1 s2 : MemoryProcessing ℚ,
      oldestRound (mkSettings 1 10 5) tenState = some s1 ∧
      s1.episodes.map Episode.ID = [2, 3, 4, 5, 6, 7, 8, 9, 10] ∧
      oldestRound (mkSettings 1 10 5) s1 = some s2 ∧
      s2.episodes.map Episode.ID = [3, 4, 5, 6, 7, 8, 9, 10] := by
  have hne : (tenState : MemoryProcessing ℚ).episodes ≠ [] := by simp [tenState, mkState]
  have hnodup : ((tenState : MemoryProcessing ℚ).episodes.map Episode.ID).Nodup := by
    simp [tenState, mkState, mkEpisode]
  have hflags : ∀ e1 ∈ (tenState : MemoryProcessing ℚ).episodes, e1.just_sampled < 0 := by
    simp [tenState, mkState, mkEpisode]
  have hcons : SampledConsistent (tenState : MemoryProcessing ℚ).lastSampledEpisodes
      (tenState : MemoryProcessing ℚ).episodes := sampledConsistent_nil _ hflags
  have hcomp : SelectCompletes (mkSettings 1 10 5) constAnneal ⟨0, 0⟩ ⟨0, 0⟩ ⟨0, 0⟩
      FORGET.OLDEST (tenState : MemoryProcessing ℚ) := by
    norm_num [SelectCompletes, clipSchedule_of_ne _ _ FORGET.OLDEST _ (by decide), mkSettings,
      tenState, mkState]
  refine ⟨hne, hnodup, hcons, hcomp,
    C10_oldest_removed_first (mkSettings 1 10 5) constAnneal keepCumulative ⟨0, 0⟩ ⟨0, 0⟩ ⟨0, 0⟩
      tenState hne hnodup hcons hcomp, ?_⟩
  obtain ⟨s1, h1, e1, l1, g1⟩ := oldestRound_head (mkSettings 1 10 5)
    (tenState : MemoryProcessing ℚ) (mkEpisode 1 1)
    [mkEpisode 2 1, mkEpisode 3 1, mkEpisode 4 1, mkEpisode 5 1, mkEpisode 6 1, mkEpisode 7 1,
      mkEpisode 8 1, mkEpisode 9 1, mkEpisode 10 1] rfl (by simp [mkEpisode]) hflags rfl
    (by simp [tenState, mkState]) (by norm_num [mkSettings]) (by simp [mkEpisode, mkSettings])
  obtain ⟨s2, h2, e2, _, _⟩ := oldestRound_head (mkSettings 1 10 5) s1 (mkEpisode 2 1)
    [mkEpisode 3 1, mkEpisode 4 1, mkEpisode 5 1, mkEpisode 6 1, mkEpisode 7 1,
      mkEpisode 8 1, mkEpisode 9 1, mkEpisode 10 1] e1 (by simp [mkEpisode])
    (by rw [e1]; simp [mkEpisode]) l1 (by rw [g1]; simp [tenState, mkState])
    (by norm_num [mkSettings]) (by simp [mkEpisode, mkSettings])
  exact ⟨s1, s2, h1, by rw [e1]; simp [mkEpisode], h2, by rw [e2]; simp [mkEpisode]⟩

/-- C12, the code at the failing input: clip bound `C = 0` under `OLDEST`, so
that `CmaxRet = 1 <= 1`, on a buffer of one episode that counts 3 far-policy
steps.  The call completes with `nFarPolicySteps = 3`, not 0. -/
theorem C12_failing_input :
    ∃ st1, selectEpisodeToDelete noClipSettings constAnneal keepCumulative ⟨0, 0⟩ ⟨0, 0⟩ ⟨0, 0⟩
        FORGET.OLDEST (farState : MemoryProcessing ℚ) = some st1 ∧
      st1.CmaxRet = 1 ∧ st1.CmaxRet ≤ 1 ∧ st1.nFarPolicySteps = 3 ∧
      st1.nFarPolicySteps = (st1.episodes.map Episode.nFarPolicySteps).sum := by
  have hclip : clipSchedule noClipSettings constAnneal FORGET.OLDEST
      (farState : MemoryProcessing ℚ) = 1 := by
    rw [clipSchedule_of_ne _ _ _ _ (by decide)]
    norm_num [noClipSettings]
  have hcomp : SelectCompletes noClipSettings constAnneal ⟨0, 0⟩ ⟨0, 0⟩ ⟨0, 0⟩ FORGET.OLDEST
      (farState : MemoryProcessing ℚ) := by
    refine ⟨?_, ?_, ?_, ?_, ?_, ?_, ?_⟩
    · rw [hclip]; norm_num [noClipSettings]
    · rw [hclip]
    · norm_num [farState, mkState]
    · norm_num [farState, mkState]
    · intro h; exact absurd h (by decide)
    · intro h; exact absurd h (by decide)
    · intro h; exact absurd h (by decide)
  obtain ⟨ind, h⟩ := selectEpisodeToDelete_some noClipSettings constAnneal keepCumulative
    ⟨0, 0⟩ ⟨0, 0⟩ ⟨0, 0⟩ FORGET.OLDEST (farState : MemoryProcessing ℚ)
    (by simp [farState, mkState]) hcomp
  obtain ⟨c1, _⟩ := selectBookkeeping_clip noClipSettings constAnneal keepCumulative
    FORGET.OLDEST (farState : MemoryProcessing ℚ)
  have hn := selectBookkeeping_nFar noClipSettings constAnneal keepCumulative
    FORGET.OLDEST (farState : MemoryProcessing ℚ)
  have heps : (selectBookkeeping noClipSettings constAnneal keepCumulative FORGET.OLDEST
      (farState : MemoryProcessing ℚ)).episodes = (farState : MemoryProcessing ℚ).episodes := by
    rw [selectBookkeeping_episodes]
    simp [recomputedEpisodes, farState, mkState]
  refine ⟨_, h, ?_, ?_, ?_, hn⟩
  · show (selectBookkeeping noClipSettings constAnneal keepCumulative FORGET.OLDEST
      (farState : MemoryProcessing ℚ)).CmaxRet = 1
    rw [c1, hclip]
  · show (selectBookkeeping noClipSettings constAnneal keepCumulative FORGET.OLDEST
      (farState : MemoryProcessing ℚ)).CmaxRet ≤ 1
    rw [c1, hclip]
  · show (selectBookkeeping noClipSettings constAnneal keepCumulative FORGET.OLDEST
      (farState : MemoryProcessing ℚ)).nFarPolicySteps = 3
    rw [hn, heps]
    simp [farState, mkState, mkEpisode]


end SelectionClaims

section EstimatorClaims

variable {K : Type} [LinearOrderedField K]

/-- C16: `updateRewardsStats` leaves the reward moments unchanged when
`W_R = 0` and the state moments unchanged when `W_S = 0`, whatever the buffer
and the reduced vector; with both weights 0 nothing is submitted to the
reducer; with the training flag off no moment changes and nothing is
submitted. -/
theorem C16_frames (sqrt : K → K) (EPS : K) (cfg : Settings K) (WR WS : K)
    (bInit : Bool) (nDataGlobal : Int × Int) (rdxGet : Bool → Option (List K) → List K)
    (st : MemoryProcessing K)
    (hlen : cfg.bTrain = true →
      ∀ sub, (rdxGet bInit sub).length = 2 * cfg.dimStateObserved + 3) :
    ∃ res, updateRewardsStats sqrt EPS cfg WR WS bInit nDataGlobal rdxGet st = some res ∧
      (WR = 0 → res.1.mean_reward = st.mean_reward ∧ res.1.std_reward = st.std_reward ∧
        res.1.invstd_reward = st.invstd_reward) ∧
      (WS = 0 → res.1.mean_state = st.mean_state ∧ res.1.std_state = st.std_state ∧
        res.1.invstd_state = st.invstd_state) ∧
      (WR = 0 → WS = 0 → res.2 = none) ∧
      (cfg.bTrain = false →
        res.1.mean_reward = st.mean_reward ∧ res.1.std_reward = st.std_reward ∧
        res.1.invstd_reward = st.invstd_reward ∧ res.1.mean_state = st.mean_state ∧
        res.1.std_state = st.std_state ∧ res.1.invstd_state = st.invstd_state ∧
        res.2 = none) := by
  cases hb : cfg.bTrain
  · refine ⟨_, by simp only [updateRewardsStats, hb]; rfl, ?_, ?_, ?_, ?_⟩
    · intro _; exact ⟨rfl, rfl, rfl⟩
    · intro _; exact ⟨rfl, rfl, rfl⟩
    · intro _ _; rfl
    · intro _; exact ⟨rfl, rfl, rfl, rfl, rfl, rfl, rfl⟩
  · refine ⟨_, by simp only [updateRewardsStats, hb, hlen hb]; simp; rfl, ?_, ?_, ?_, ?_⟩
    · intro hWR
      subst hWR
      simp only [applyStateStats, applyRewardStats, lt_irrefl, if_false]
      split <;> exact ⟨rfl, rfl, rfl⟩
    · intro hWS
      subst hWS
      simp only [applyStateStats, applyRewardStats, lt_irrefl, if_false]
      split <;> exact ⟨rfl, rfl, rfl⟩
    · intro hWR hWS
      subst hWR
      subst hWS
      simp only [submitStats, lt_irrefl, or_self, if_false]
    · intro h
      exact absurd h (by simp)

/-- C16, witness: both weights 0 in training mode, real arithmetic, the
reducer returning `[1, 0, 1]`. -/
theorem C16_frames_witness :
    ((mkSettings 1 10 10 : Settings ℝ).bTrain = true →
      ∀ sub : Option (List ℝ), ((fun _ _ => [1, 0, 1] : Bool → Option (List ℝ) → List ℝ) true
        sub).length = 2 * (mkSettings 1 10 10 : Settings ℝ).dimStateObserved + 3) ∧
    ∃ res, updateRewardsStats Real.sqrt (1 / 2 ^ 52) (mkSettings 1 10 10) 0 0 true (0, 0)
        (fun _ _ => [1, 0, 1]) (mkState [(twoStepEpisode : Episode ℝ)] (-1)) = some res ∧
      ((0 : ℝ) = 0 →
        res.1.mean_reward = (mkState [(twoStepEpisode : Episode ℝ)] (-1)).mean_reward ∧
        res.1.std_reward = (mkState [(twoStepEpisode : Episode ℝ)] (-1)).std_reward ∧
        res.1.invstd_reward = (mkState [(twoStepEpisode : Episode ℝ)] (-1)).invstd_reward) ∧
      ((0 : ℝ) = 0 →
        res.1.mean_state = (mkState [(twoStepEpisode : Episode ℝ)] (-1)).mean_state ∧
        res.1.std_state = (mkState [(twoStepEpisode : Episode ℝ)] (-1)).std_state ∧
        res.1.invstd_state = (mkState [(twoStepEpisode : Episode ℝ)] (-1)).invstd_state) ∧
      ((0 : ℝ) = 0 → (0 : ℝ) = 0 → res.2 = none) ∧
      ((mkSettings 1 10 10 : Settings ℝ).bTrain = false →
        res.1.mean_reward = (mkState [(twoStepEpisode : Episode ℝ)] (-1)).mean_reward ∧
        res.1.std_reward = (mkState [(twoStepEpisode : Episode ℝ)] (-1)).std_reward ∧
        res.1.invstd_reward = (mkState [(twoStepEpisode : Episode ℝ)] (-1)).invstd_reward ∧
        res.1.mean_state = (mkState [(twoStepEpisode : Episode ℝ)] (-1)).mean_state ∧
        res.1.std_state = (mkState [(twoStepEpisode : Episode ℝ)] (-1)).std_state ∧
        res.1.invstd_state = (mkState [(twoStepEpisode : Episode ℝ)] (-1)).invstd_state ∧
        res.2 = none) :=
  ⟨fun _ _ => by simp [mkSettings],
    C16_frames Real.sqrt (1 / 2 ^ 52) (mkSettings 1 10 10) 0 0 true (0, 0)
      (fun _ _ => [1, 0, 1]) (mkState [(twoStepEpisode : Episode ℝ)] (-1))
      (fun _ _ => by simp [mkSettings])⟩

/-- C17, the code at the failing input: with `learnRefer = 0.01` the
go-to-one branch of `fixPointIter` maps 1 to `0.99`, so 1 is not a fixed point
of it; the go-to-zero branch maps 0 to 0. -/
theorem C17_failing_input :
    fixPointIter (1 / 100 : ℚ) 1 false = 99 / 100 ∧
    fixPointIter (1 / 100 : ℚ) 1 false ≠ 1 ∧
    fixPointIter (1 / 100 : ℚ) 0 true = 0 := by
  have h : fixPointIter (1 / 100 : ℚ) 1 false = 99 / 100 := by
    norm_num [fixPointIter]
  refine ⟨h, ?_, ?_⟩
  · rw [h]; norm_num
  · norm_num [fixPointIter]

/-- C19: for a non-empty sample, the unclamped variance of `updateStats`,
`Evar2 - Evar^2 * (2 eta - eta^2)`, is the mean squared deviation of the samples
about the updated mean `mean + eta * Evar`; it is not negative; and when it is
at least `EPS` the clamp leaves it unchanged, so that the new `stdev` is
`stdev + eta * (sqrt(msd) - stdev)`. -/
theorem C19_variance_identity (sqrt : K → K) (EPS mu s eta : K) (l : List K) (hl : l ≠ []) :
    (l.map (fun x => (x - mu) * (x - mu))).sum / (l.length : K) -
        (l.map (fun x => x - mu)).sum / (l.length : K) *
          ((l.map (fun x => x - mu)).sum / (l.length : K)) * (2 * eta - eta * eta) =
      meanSqDev l (mu + eta * ((l.map (fun x => x - mu)).sum / (l.length : K))) ∧
    0 ≤ meanSqDev l (mu + eta * ((l.map (fun x => x - mu)).sum / (l.length : K))) ∧
    (updateStats sqrt EPS mu s eta ((l.map (fun x => x - mu)).sum / (l.length : K))
        ((l.map (fun x => (x - mu) * (x - mu))).sum / (l.length : K))).1 =
      mu + eta * ((l.map (fun x => x - mu)).sum / (l.length : K)) ∧
    (updateStats sqrt EPS mu s eta ((l.map (fun x => x - mu)).sum / (l.length : K))
        ((l.map (fun x => (x - mu) * (x - mu))).sum / (l.length : K))).2.1 =
      s + eta * (sqrt (max (meanSqDev l
        (mu + eta * ((l.map (fun x => x - mu)).sum / (l.length : K)))) EPS) - s) ∧
    (EPS ≤ meanSqDev l (mu + eta * ((l.map (fun x => x - mu)).sum / (l.length : K))) →
      (updateStats sqrt EPS mu s eta ((l.map (fun x => x - mu)).sum / (l.length : K))
          ((l.map (fun x => (x - mu) * (x - mu))).sum / (l.length : K))).2.1 =
        s + eta * (sqrt (meanSqDev l
          (mu + eta * ((l.map (fun x => x - mu)).sum / (l.length : K)))) - s)) := by
  have hid : (l.map (fun x => (x - mu) * (x - mu))).sum / (l.length : K) -
        (l.map (fun x => x - mu)).sum / (l.length : K) *
          ((l.map (fun x => x - mu)).sum / (l.length : K)) * (2 * eta - eta * eta) =
      meanSqDev l (mu + eta * ((l.map (fun x => x - mu)).sum / (l.length : K))) := by
    rw [variance_about_updated_mean l hl mu eta, meanSqDev]
    simp only [sq]
  refine ⟨hid, meanSqDev_nonneg _ _, rfl, ?_, ?_⟩
  · simp only [updateStats, hid]
  · intro hge
    simp only [updateStats, hid, max_eq_left hge]

/-- C19, witness: the samples 1, 3 about the old mean 0 with learning rate
1/2. -/
theorem C19_variance_identity_witness :
    ([1, 3] : List ℚ) ≠ [] ∧
    (([1, 3] : List ℚ).map (fun x => (x - 0) * (x - 0))).sum / (([1, 3] : List ℚ).length : ℚ) -
        (([1, 3] : List ℚ).map (fun x => x - 0)).sum / (([1, 3] : List ℚ).length : ℚ) *
          ((([1, 3] : List ℚ).map (fun x => x - 0)).sum / (([1, 3] : List ℚ).length : ℚ)) *
          (2 * (1 / 2) - 1 / 2 * (1 / 2)) =
      meanSqDev ([1, 3] : List ℚ)
        (0 + 1 / 2 * ((([1, 3] : List ℚ).map (fun x => x - 0)).sum /
          (([1, 3] : List ℚ).length : ℚ))) :=
  ⟨by simp, (C19_variance_identity id (1 / 1000) 0 1 (1 / 2) ([1, 3] : List ℚ)
    (by simp)).1⟩
/-- C15: with both weights 1, a non-empty buffer and a reducer that returns
the sums submitted in the same step, one `updateRewardsStats` step sets the
reward and state moments to the sample statistics, and a second step on the
same buffer returns the same `mean`, `std` and `invstd` for the reward and for
every state coordinate. -/
theorem C15_idempotent (sqrt : K → K) (EPS : K) (cfg : Settings K)
    (bInit1 bInit2 : Bool) (nData1 nData2 : Int × Int)
    (rdxGet : Bool → Option (List K) → List K) (st : MemoryProcessing K)
    (htrain : cfg.bTrain = true) (hread : ∀ b p, rdxGet b (some p) = p)
    (hcount : 0 < readNData st) :
    ∃ r1 r2,
      updateRewardsStats sqrt EPS cfg 1 1 bInit1 nData1 rdxGet st = some r1 ∧
      updateRewardsStats sqrt EPS cfg 1 1 bInit2 nData2 rdxGet r1.1 = some r2 ∧
      r1.1.mean_reward = sampleMean (rewardSamples st.episodes) ∧
      r1.1.std_reward = sqrt (max (populationVariance (rewardSamples st.episodes)) EPS) ∧
      (∀ k, k < cfg.dimStateObserved →
        r1.1.mean_state.getD k 0 = sampleMean (stateSamples k st.episodes) ∧
        r1.1.std_state.getD k 0 =
          sqrt (max (populationVariance (stateSamples k st.episodes)) EPS)) ∧
      r2.1.mean_reward = r1.1.mean_reward ∧ r2.1.std_reward = r1.1.std_reward ∧
      r2.1.invstd_reward = r1.1.invstd_reward ∧
      (∀ k, k < cfg.dimStateObserved →
        r2.1.mean_state.getD k 0 = r1.1.mean_state.getD k 0 ∧
        r2.1.std_state.getD k 0 = r1.1.std_state.getD k 0 ∧
        r2.1.invstd_state.getD k 0 = r1.1.invstd_state.getD k 0) := by
  obtain ⟨r1, h1, e1, m1, s1, i1, v1⟩ := updateRewardsStats_one sqrt EPS cfg bInit1 nData1
    rdxGet st htrain (hread bInit1) hcount
  have hcount1 : 0 < readNData r1.1 := by
    simp only [readNData, e1]
    exact hcount
  obtain ⟨r2, h2, _, m2, s2, i2, v2⟩ := updateRewardsStats_one sqrt EPS cfg bInit2 nData2
    rdxGet r1.1 htrain (hread bInit2) hcount1
  rw [e1] at m2 s2 i2 v2
  refine ⟨r1, r2, h1, h2, m1, s1, fun k hk => ⟨(v1 k hk).1, (v1 k hk).2.1⟩, ?_, ?_, ?_, ?_⟩
  · rw [m2, m1]
  · rw [s2, s1]
  · rw [i2, i1]
  · intro k hk
    obtain ⟨a1, a2, a3⟩ := v1 k hk
    obtain ⟨b1, b2, b3⟩ := v2 k hk
    exact ⟨by rw [b1, a1], by rw [b2, a2], by rw [b3, a3]⟩

/-- C15, witness: one episode with rewards 1, 3 and state values 2, 4, one
state coordinate, real arithmetic with `Real.sqrt`. -/
theorem C15_idempotent_witness :
    ({ (mkSettings 1 10 10 : Settings ℝ) with dimStateObserved := 1 } : Settings ℝ).bTrain = true ∧
    (∀ (b : Bool) (p : List ℝ),
      (fun _ sub => sub.getD [] : Bool → Option (List ℝ) → List ℝ) b (some p) = p) ∧
    0 < readNData (mkState [(twoStepEpisode : Episode ℝ)] (-1)) ∧
    ∃ r1 r2,
      updateRewardsStats Real.sqrt (1 / 2 ^ 52)
        { (mkSettings 1 10 10 : Settings ℝ) with dimStateObserved := 1 } 1 1 true (0, 0)
        (fun _ sub => sub.getD []) (mkState [(twoStepEpisode : Episode ℝ)] (-1)) = some r1 ∧
      updateRewardsStats Real.sqrt (1 / 2 ^ 52)
        { (mkSettings 1 10 10 : Settings ℝ) with dimStateObserved := 1 } 1 1 false (0, 0)
        (fun _ sub => sub.getD []) r1.1 = some r2 ∧
      r1.1.mean_reward = sampleMean (rewardSamples
        (mkState [(twoStepEpisode : Episode ℝ)] (-1)).episodes) ∧
      r1.1.std_reward = Real.sqrt (max (populationVariance (rewardSamples
        (mkState [(twoStepEpisode : Episode ℝ)] (-1)).episodes)) (1 / 2 ^ 52)) ∧
      (∀ k, k < ({ (mkSettings 1 10 10 : Settings ℝ) with dimStateObserved := 1 } :
          Settings ℝ).dimStateObserved →
        r1.1.mean_state.getD k 0 = sampleMean (stateSamples k
          (mkState [(twoStepEpisode : Episode ℝ)] (-1)).episodes) ∧
        r1.1.std_state.getD k 0 = Real.sqrt (max (populationVariance (stateSamples k
          (mkState [(twoStepEpisode : Episode ℝ)] (-1)).episodes)) (1 / 2 ^ 52))) ∧
      r2.1.mean_reward = r1.1.mean_reward ∧ r2.1.std_reward = r1.1.std_reward ∧
      r2.1.invstd_reward = r1.1.invstd_reward ∧
      (∀ k, k < ({ (mkSettings 1 10 10 : Settings ℝ) with dimStateObserved := 1 } :
          Settings ℝ).dimStateObserved →
        r2.1.mean_state.getD k 0 = r1.1.mean_state.getD k 0 ∧
        r2.1.std_state.getD k 0 = r1.1.std_state.getD k 0 ∧
        r2.1.invstd_state.getD k 0 = r1.1.invstd_state.getD k 0) :=
  ⟨rfl, fun _ _ => rfl, by simp [readNData, mkState, twoStepEpisode, mkEpisode],
    C15_idempotent Real.sqrt (1 / 2 ^ 52)
      { (mkSettings 1 10 10 : Settings ℝ) with dimStateObserved := 1 } true false (0, 0) (0, 0)
      (fun _ sub => sub.getD []) (mkState [(twoStepEpisode : Episode ℝ)] (-1)) rfl
      (fun _ _ => rfl) (by simp [readNData, mkState, twoStepEpisode, mkEpisode])⟩
/-- C18, the code at the failing input: one state coordinate, aggregates at
mean 0 and std 1, weights 1, `EPS = 2^-52`, a non-blocking read that returns
the initial guess of the constructor, `[0, 0, 1, 0, 1]`.  The reward moments stay at 0 and
1, the state mean stays at 0, and the state std becomes
`1 + 1 * (sqrt EPS - 1) = 2^-26`: the square sum of the state coordinate in the
initial guess is 0, not 1. -/
theorem C18_failing_input :
    initGuessStateRewStats (1 : Nat) = ([0, 0, 1, 0, 1] : List ℝ) ∧
    ∃ res, updateRewardsStats Real.sqrt (1 / 2 ^ 52) oneCoordSettings 1 1 false (0, 0)
        (fun _ _ => initGuessStateRewStats 1) (neutralState : MemoryProcessing ℝ) = some res ∧
      res.1.mean_reward = 0 ∧ res.1.std_reward = 1 ∧
      res.1.mean_state.getD 0 0 = 0 ∧ res.1.std_state.getD 0 0 = 1 / 2 ^ 26 ∧
      res.1.std_state.getD 0 0 ≠ 1 := by
  have hs2 : Real.sqrt (1 / 2 ^ 52) = 1 / 2 ^ 26 := by
    rw [show (1 / 2 ^ 52 : ℝ) = (1 / 2 ^ 26) ^ 2 by norm_num]
    exact Real.sqrt_sq (by norm_num)
  obtain ⟨res, h, a, b, c, d⟩ := initGuess_update Real.sqrt (1 / 2 ^ 52) (1 / 2 ^ 26) 1 false
    (0, 0) Real.sqrt_one hs2 (by norm_num) (by norm_num) one_pos
  have hd : res.1.std_state.getD 0 0 = 1 / 2 ^ 26 := by rw [d]; ring
  refine ⟨initGuessStateRewStats_one, res, h, a, b, c, hd, ?_⟩
  rw [hd]
  norm_num


end EstimatorClaims

section ContractionClaims

theorem iterate_fp_to_zero_tendsto (eta x : ℝ) (heta : 0 < eta) (h0 : 0 ≤ x) (h1 : x ≤ 1) :
    Filter.Tendsto (fun n => (fp_to_zero eta)^[n] x) Filter.atTop (nhds 0) := by
  have hanti := iterate_fp_to_zero_antitone eta x heta.le h0 h1
  have hbdd : BddBelow (Set.range fun n => (fp_to_zero eta)^[n] x) := by
    refine ⟨0, ?_⟩
    rintro _ ⟨n, rfl⟩
    exact (iterate_fp_to_zero_mem eta x heta.le h0 h1 n).1
  have hL := tendsto_atTop_ciInf hanti hbdd
  have hcont : Continuous (fp_to_zero eta) := by
    show Continuous (fun y : ℝ => (1 - min eta y) * y)
    exact (continuous_const.sub (continuous_const.min continuous_id)).mul continuous_id
  have hfix : fp_to_zero eta (⨅ n, (fp_to_zero eta)^[n] x) = ⨅ n, (fp_to_zero eta)^[n] x :=
    isFixedPt_of_tendsto_iterate hL hcont.continuousAt
  have hL0 : 0 ≤ ⨅ n, (fp_to_zero eta)^[n] x :=
    le_ciInf (fun n => (iterate_fp_to_zero_mem eta x heta.le h0 h1 n).1)
  have hzero : (⨅ n, (fp_to_zero eta)^[n] x) = 0 := by
    generalize (⨅ n, (fp_to_zero eta)^[n] x) = L at hfix hL0
    unfold fp_to_zero at hfix
    rcases le_total eta L with h | h
    · rw [min_eq_left h] at hfix
      nlinarith
    · rw [min_eq_right h] at hfix
      nlinarith
  rw [hzero] at hL
  exact hL

/-- C14 (as amended): for every starting `beta` in `[0,1]` and every
`eta_refer > 0`, if the far-policy fraction is above the tolerance at every
step, repeated `updateReFERpenalization` calls return, the `beta` after `n`
calls is `fp_to_zero` applied `n` times, and this sequence is monotone
non-increasing and converges to 0. -/
theorem C14_beta_decreases_to_zero (cfg : Settings ℝ) (nFar : Nat → ℝ) (nData : ℝ)
    (st : MemoryProcessing ℝ) (hassert : nData + 1 > (readNData st : ℝ))
    (heta : 0 < learnRefer cfg nData) (hb0 : 0 ≤ st.beta) (hb1 : st.beta ≤ 1)
    (hfrac : ∀ n, nFar n / nData > cfg.penalTol) :
    (∀ n, ∃ stn, iterateReFER cfg nFar nData n st = some stn ∧
      stn.beta = (fp_to_zero (learnRefer cfg nData))^[n] st.beta) ∧
    Antitone (fun n => (fp_to_zero (learnRefer cfg nData))^[n] st.beta) ∧
    Filter.Tendsto (fun n => (fp_to_zero (learnRefer cfg nData))^[n] st.beta) Filter.atTop
      (nhds 0) := by
  refine ⟨fun n => ?_, iterate_fp_to_zero_antitone _ _ heta.le hb0 hb1,
    iterate_fp_to_zero_tendsto _ _ heta hb0 hb1⟩
  obtain ⟨stn, h1, _, h3⟩ := iterateReFER_above cfg nFar nData st hassert hfrac n
  exact ⟨stn, h1, h3⟩

/-- C14, witness: the spec scenario `beta = 0.01`, `fracOffPol = 0.5`,
`D = 0.1`, `eta_refer = 0.01` on a buffer of 10 transitions. -/
theorem C14_beta_decreases_to_zero_witness :
    (10 : ℝ) + 1 > (readNData ({ mkState [mkEpisode 1 10] (-1) with beta := 1 / 100 } :
      MemoryProcessing ℝ) : ℝ) ∧
    0 < learnRefer (mkSettings 1 10 10 : Settings ℝ) 10 ∧
    (∀ n : Nat, (fun _ => (5 : ℝ)) n / 10 > (mkSettings 1 10 10 : Settings ℝ).penalTol) ∧
    (∀ n, ∃ stn, iterateReFER (mkSettings 1 10 10) (fun _ => (5 : ℝ)) 10 n
        { mkState [mkEpisode 1 10] (-1) with beta := 1 / 100 } = some stn ∧
      stn.beta = (fp_to_zero (learnRefer (mkSettings 1 10 10 : Settings ℝ) 10))^[n]
        ({ mkState [mkEpisode 1 10] (-1) with beta := 1 / 100 } : MemoryProcessing ℝ).beta) ∧
    Antitone (fun n => (fp_to_zero (learnRefer (mkSettings 1 10 10 : Settings ℝ) 10))^[n]
      ({ mkState [mkEpisode 1 10] (-1) with beta := 1 / 100 } : MemoryProcessing ℝ).beta) ∧
    Filter.Tendsto (fun n => (fp_to_zero (learnRefer (mkSettings 1 10 10 : Settings ℝ) 10))^[n]
      ({ mkState [mkEpisode 1 10] (-1) with beta := 1 / 100 } : MemoryProcessing ℝ).beta)
      Filter.atTop (nhds 0) :=
  ⟨by norm_num [readNData, mkState, mkEpisode], by norm_num [learnRefer, mkSettings],
    fun _ => by norm_num [mkSettings],
    C14_beta_decreases_to_zero (mkSettings 1 10 10) (fun _ => (5 : ℝ)) 10
      { mkState [mkEpisode 1 10] (-1) with beta := 1 / 100 }
      (by norm_num [readNData, mkState, mkEpisode]) (by norm_num [learnRefer, mkSettings])
      (by norm_num [mkState]) (by norm_num [mkState]) (fun _ => by norm_num [mkSettings])⟩

/-- C14, counterexample: the spec scenario `beta = 0.01`, `fracOffPol = 0.5`,
`D = 0.1`, `eta_refer = 0.01`.  The first call lowers `beta` to `0.0099`, and
after 200 calls `beta` is still at most `0.01`, not above `0.8`.  With
`fracOffPol = 0 < D` and `beta = 0.5` the first call raises `beta` to
`0.505`. -/
theorem C14_counterexample :
    (∀ n : Nat, (fun _ => (5 : ℚ)) n / 10 > (mkSettings 1 10 10 : Settings ℚ).penalTol) ∧
    learnRefer (mkSettings 1 10 10 : Settings ℚ) 10 = 1 / 100 ∧
    (∃ st1, iterateReFER (mkSettings 1 10 10) (fun _ => (5 : ℚ)) 10 1
        { mkState [mkEpisode 1 10] (-1) with beta := 1 / 100 } = some st1 ∧
      st1.beta = 99 / 10000 ∧
      st1.beta < ({ mkState [mkEpisode 1 10] (-1) with beta := 1 / 100 } :
        MemoryProcessing ℚ).beta) ∧
    (∃ st200, iterateReFER (mkSettings 1 10 10) (fun _ => (5 : ℚ)) 10 200
        { mkState [mkEpisode 1 10] (-1) with beta := 1 / 100 } = some st200 ∧
      st200.beta ≤ 1 / 100 ∧ ¬ st200.beta > 8 / 10) ∧
    (0 : ℚ) / 10 < (mkSettings 1 10 10 : Settings ℚ).penalTol ∧
    ∃ st1, iterateReFER (mkSettings 1 10 10) (fun _ => (0 : ℚ)) 10 1
        { mkState [mkEpisode 1 10] (-1) with beta := 1 / 2 } = some st1 ∧
      st1.beta = 101 / 200 ∧
      st1.beta > ({ mkState [mkEpisode 1 10] (-1) with beta := 1 / 2 } :
        MemoryProcessing ℚ).beta := by
  have hfrac : ∀ n : Nat,
      (fun _ => (5 : ℚ)) n / 10 > (mkSettings 1 10 10 : Settings ℚ).penalTol :=
    fun _ => by norm_num [mkSettings]
  have hl : learnRefer (mkSettings 1 10 10 : Settings ℚ) 10 = 1 / 100 := by
    norm_num [learnRefer, mkSettings]
  have hassert : (10 : ℚ) + 1 > (readNData ({ mkState [mkEpisode 1 10] (-1) with
      beta := 1 / 100 } : MemoryProcessing ℚ) : ℚ) := by
    norm_num [readNData, mkState, mkEpisode]
  have hb : ({ mkState [mkEpisode 1 10] (-1) with beta := 1 / 100 } :
      MemoryProcessing ℚ).beta = 1 / 100 := rfl
  refine ⟨hfrac, hl, ?_, ?_, by norm_num [mkSettings], ?_⟩
  rotate_left 2
  · have hlow : ¬ ((0 : ℚ) / 10 > (mkSettings 1 10 10 : Settings ℚ).penalTol) := by
      norm_num [mkSettings]
    have ha2 : (10 : ℚ) + 1 > (readNData ({ mkState [mkEpisode 1 10] (-1) with
        beta := 1 / 2 } : MemoryProcessing ℚ) : ℚ) := by
      norm_num [readNData, mkState, mkEpisode]
    refine ⟨{ ({ mkState [mkEpisode 1 10] (-1) with beta := 1 / 2 } : MemoryProcessing ℚ) with
        beta := fixPointIter (learnRefer (mkSettings 1 10 10) 10) (1 / 2)
          (decide ((0 : ℚ) / 10 > (mkSettings 1 10 10 : Settings ℚ).penalTol))
        alpha := fixPointIter (learnRefer (mkSettings 1 10 10) 10) 0
          (decide (|(mkSettings 1 10 10 : Settings ℚ).penalTol - (0 : ℚ) / 10| < 1 / 1000)) },
      ?_, ?_, ?_⟩
    · simp only [iterateReFER, Option.some_bind, updateReFERpenalization, ha2, if_true]
      rfl
    · simp only [hl, hlow, decide_False]
      norm_num [fixPointIter]
    · simp only [hl, hlow, decide_False]
      norm_num [fixPointIter]
  · obtain ⟨st1, h1, _, h3⟩ := iterateReFER_above (mkSettings 1 10 10) (fun _ => (5 : ℚ)) 10
      { mkState [mkEpisode 1 10] (-1) with beta := 1 / 100 } hassert hfrac 1
    have hv : st1.beta = 99 / 10000 := by
      rw [h3, hl, hb, Function.iterate_one]
      norm_num [fp_to_zero]
    exact ⟨st1, h1, hv, by rw [hv, hb]; norm_num⟩
  · obtain ⟨st200, h1, _, h3⟩ := iterateReFER_above (mkSettings 1 10 10) (fun _ => (5 : ℚ)) 10
      { mkState [mkEpisode 1 10] (-1) with beta := 1 / 100 } hassert hfrac 200
    have hanti := iterate_fp_to_zero_antitone (1 / 100 : ℚ) (1 / 100) (by norm_num)
      (by norm_num) (by norm_num)
    have hle : st200.beta ≤ 1 / 100 := by
      rw [h3, hl, hb]
      exact hanti (Nat.zero_le 200)
    exact ⟨st200, h1, hle, by intro h; linarith⟩

end ContractionClaims

section HistogramClaims

theorem histBounds_interior (FvalMax : ℝ) (i : Nat) (h1 : 1 ≤ i) (h2 : i < 81) :
    histBounds Real.exp Real.log FvalMax i =
      Real.exp (Real.log (1 / 1000) +
        (Real.log 50 - Real.log (1 / 1000)) * ((i : ℝ) - 1) / 79) := by
  have hi0 : i ≠ 0 := by omega
  have hi : i < nBins := h2
  simp only [histBounds, hi0, hi, if_false, if_true]
  norm_num [nBins]

theorem histBounds_log_lt : Real.log (1 / 1000) < Real.log 50 :=
  Real.log_lt_log (by norm_num) (by norm_num)

theorem histBounds_strict (FvalMax : ℝ) (hmax : 150 < FvalMax) (i : Nat) (hi : i < nBins) :
    histBounds Real.exp Real.log FvalMax i < histBounds Real.exp Real.log FvalMax (i + 1) := by
  have hi81 : i < 81 := hi
  have hlog := histBounds_log_lt
  rcases Nat.eq_zero_or_pos i with h0 | hpos
  · subst h0
    rw [histBounds_interior FvalMax 1 (le_refl _) (by omega)]
    simp only [histBounds, if_true]
    exact Real.exp_pos _
  · rcases Nat.lt_or_ge i 80 with h80 | h80
    · rw [histBounds_interior FvalMax i hpos hi81,
        histBounds_interior FvalMax (i + 1) (by omega) (by omega)]
      apply Real.exp_lt_exp.mpr
      have hd : 0 < Real.log 50 - Real.log (1 / 1000) := by linarith
      have : ((i : ℝ) - 1) < (((i + 1 : Nat) : ℝ) - 1) := by push_cast; linarith
      have := mul_lt_mul_of_pos_left this hd
      linarith [div_lt_div_of_pos_right this (by norm_num : (0 : ℝ) < 79)]
    · have hi80 : i = 80 := by omega
      subst hi80
      rw [histBounds_interior FvalMax 80 (by omega) (by omega)]
      have h81 : histBounds Real.exp Real.log FvalMax (80 + 1) = FvalMax - 100 := by
        simp [histBounds, nBins]
      rw [h81]
      have : Real.log (1 / 1000) + (Real.log 50 - Real.log (1 / 1000)) * (((80 : Nat) : ℝ) - 1) / 79
          = Real.log 50 := by
        push_cast
        ring
      rw [this, Real.exp_log (by norm_num)]
      linarith

/-- C20: in exact arithmetic with `FvalMax > 150`, the 82 bounds of
`histogramImportanceWeights` are strictly increasing with `bounds[0] = 0`,
`bounds[1] = 1e-3`, `bounds[80] = 50` and `bounds[81] = FvalMax - 100`; the
logarithms of `bounds[1..80]` are equally spaced; every weight in
`[0, FvalMax - 100)` lies in exactly one of the 81 bins, and the loop over the
bins adds 1 to the count of that bin and leaves the other 80 counts as they
are; after the fold the count of each bin is the number of stored weights in
that bin and the reported fraction is that number over the number of
transitions; and when all the weights read are in `[0, FvalMax - 100)` the
counts add up to the number of transitions and the reported fractions add up
to 1. -/
theorem C20_histogram_partition (FvalMax : ℝ) (st : MemoryProcessing ℝ)
    (hmax : 150 < FvalMax)
    (hrange : ∀ EP ∈ st.episodes, ∀ j, j < EP.ndata →
      0 ≤ EP.offPolicImpW.getD j 0 ∧ EP.offPolicImpW.getD j 0 < FvalMax - 100) :
    histBounds Real.exp Real.log FvalMax 0 = 0 ∧
    histBounds Real.exp Real.log FvalMax 1 = 1 / 1000 ∧
    histBounds Real.exp Real.log FvalMax 80 = 50 ∧
    histBounds Real.exp Real.log FvalMax 81 = FvalMax - 100 ∧
    (∀ i, i < nBins →
      histBounds Real.exp Real.log FvalMax i < histBounds Real.exp Real.log FvalMax (i + 1)) ∧
    (∀ i, 1 ≤ i → i < 80 →
      Real.log (histBounds Real.exp Real.log FvalMax (i + 1)) -
        Real.log (histBounds Real.exp Real.log FvalMax i) =
      (Real.log 50 - Real.log (1 / 1000)) / 79) ∧
    (∀ rho : ℝ, 0 ≤ rho → rho < FvalMax - 100 →
      ∃! b, b < nBins ∧ histBounds Real.exp Real.log FvalMax b ≤ rho ∧
        rho < histBounds Real.exp Real.log FvalMax (b + 1)) ∧
    (∀ (counts : List Nat) (rho : ℝ), 0 ≤ rho → rho < FvalMax - 100 →
      ∃ b, b < nBins ∧ histBounds Real.exp Real.log FvalMax b ≤ rho ∧
        rho < histBounds Real.exp Real.log FvalMax (b + 1) ∧
        ∀ c, c < nBins →
          (countWeight (histBounds Real.exp Real.log FvalMax) counts rho).getD c 0 =
            counts.getD c 0 + if c = b then 1 else 0) ∧
    (histogramCounts (histBounds Real.exp Real.log FvalMax) st.episodes).length = nBins ∧
    (∀ b, b < nBins →
      (histogramCounts (histBounds Real.exp Real.log FvalMax) st.episodes).getD b 0 =
        weightsInBin (histBounds Real.exp Real.log FvalMax) b (weightSamples st.episodes)) ∧
    (∀ b, b < nBins →
      (histogramImportanceWeights Real.exp Real.log FvalMax st).2.getD b 0 =
        (weightsInBin (histBounds Real.exp Real.log FvalMax) b (weightSamples st.episodes) : ℝ) /
          (readNData st : ℝ)) ∧
    (histogramCounts (histBounds Real.exp Real.log FvalMax) st.episodes).sum = readNData st ∧
    (0 < readNData st →
      (histogramImportanceWeights Real.exp Real.log FvalMax st).2.sum = 1) := by
  have hb0 : histBounds Real.exp Real.log FvalMax 0 = 0 := by simp [histBounds]
  have hb81 : histBounds Real.exp Real.log FvalMax 81 = FvalMax - 100 := by
    simp [histBounds, nBins]
  have hb1 : histBounds Real.exp Real.log FvalMax 1 = 1 / 1000 := by
    rw [histBounds_interior FvalMax 1 (le_refl _) (by omega)]
    have : Real.log (1 / 1000) + (Real.log 50 - Real.log (1 / 1000)) * (((1 : Nat) : ℝ) - 1) / 79
        = Real.log (1 / 1000) := by
      push_cast
      ring
    rw [this, Real.exp_log (by norm_num)]
  have hb80 : histBounds Real.exp Real.log FvalMax 80 = 50 := by
    rw [histBounds_interior FvalMax 80 (by omega) (by omega)]
    have : Real.log (1 / 1000) + (Real.log 50 - Real.log (1 / 1000)) * (((80 : Nat) : ℝ) - 1) / 79
        = Real.log 50 := by
      push_cast
      ring
    rw [this, Real.exp_log (by norm_num)]
  have hstep := histBounds_strict FvalMax hmax
  have hr : ∀ EP ∈ st.episodes, ∀ j, j < EP.ndata →
      histBounds Real.exp Real.log FvalMax 0 ≤ EP.offPolicImpW.getD j 0 ∧
      EP.offPolicImpW.getD j 0 < histBounds Real.exp Real.log FvalMax nBins := by
    intro EP hEP j hj
    rw [hb0, show nBins = 81 from rfl, hb81]
    exact hrange EP hEP j hj
  obtain ⟨hlen, hsum⟩ := histogramCounts_sum _ st.episodes hstep hr
  refine ⟨hb0, hb1, hb80, hb81, hstep, ?_, ?_, ?_, hlen, ?_, ?_, hsum, ?_⟩
  · intro i h1 h2
    rw [histBounds_interior FvalMax i h1 (by omega),
      histBounds_interior FvalMax (i + 1) (by omega) (by omega), Real.log_exp, Real.log_exp]
    push_cast
    ring
  · intro rho h0 h1
    exact exists_unique_bin _ rho nBins hstep (by rw [hb0]; exact h0)
      (by rw [show nBins = 81 from rfl, hb81]; exact h1)
  · intro counts rho h0 h1
    exact countWeight_one_bin _ counts rho hstep (by rw [hb0]; exact h0)
      (by rw [show nBins = 81 from rfl, hb81]; exact h1)
  · intro b hb
    exact histogramCounts_getD _ st.episodes b hb
  · intro b hb
    simp only [histogramImportanceWeights, List.getD_eq_getElem?_getD, List.getElem?_map,
      List.getElem?_range hb, Option.map_some', Option.getD_some]
    rw [← List.getD_eq_getElem?_getD, histogramCounts_getD _ st.episodes b hb]
  · intro hpos
    simp only [histogramImportanceWeights]
    rw [sum_map_div_const, sum_map_getD_range _ nBins hlen, hsum]
    simp only [readNData] at hpos ⊢
    have : ((st.episodes.map Episode.ndata).sum : ℝ) ≠ 0 := by
      have : (st.episodes.map Episode.ndata).sum ≠ 0 := by omega
      exact_mod_cast this
    exact div_self this

/-- C20, witness: `FvalMax = 2^127` and a buffer of one episode with the
weights 0.5, 1 and 60: no weight is counted in bin 0, the weight 60 is the one
counted in bin 80, whose reported fraction is 1/3, the counts add up to 3 and
the fractions to 1. -/
theorem C20_histogram_partition_witness :
    (150 : ℝ) < 2 ^ 127 ∧
    (∀ EP ∈ (weightState : MemoryProcessing ℝ).episodes, ∀ j, j < EP.ndata →
      0 ≤ EP.offPolicImpW.getD j 0 ∧ EP.offPolicImpW.getD j 0 < (2 : ℝ) ^ 127 - 100) ∧
    (histogramCounts (histBounds Real.exp Real.log (2 ^ 127))
      (weightState : MemoryProcessing ℝ).episodes).getD 0 0 = 0 ∧
    (histogramCounts (histBounds Real.exp Real.log (2 ^ 127))
      (weightState : MemoryProcessing ℝ).episodes).getD 80 0 = 1 ∧
    (histogramImportanceWeights Real.exp Real.log (2 ^ 127)
      (weightState : MemoryProcessing ℝ)).2.getD 80 0 = 1 / 3 ∧
    (histogramCounts (histBounds Real.exp Real.log (2 ^ 127))
      (weightState : MemoryProcessing ℝ).episodes).sum =
      readNData (weightState : MemoryProcessing ℝ) ∧
    readNData (weightState : MemoryProcessing ℝ) = 3 ∧
    (histogramImportanceWeights Real.exp Real.log (2 ^ 127)
      (weightState : MemoryProcessing ℝ)).2.sum = 1 := by
  have hmax : (150 : ℝ) < 2 ^ 127 := by norm_num
  have hrange : ∀ EP ∈ (weightState : MemoryProcessing ℝ).episodes, ∀ j, j < EP.ndata →
      0 ≤ EP.offPolicImpW.getD j 0 ∧ EP.offPolicImpW.getD j 0 < (2 : ℝ) ^ 127 - 100 := by
    intro EP hEP j hj
    have hE : EP = { (mkEpisode 1 3 : Episode ℝ) with offPolicImpW := [1 / 2, 1, 60] } := by
      simpa [weightState, mkState] using hEP
    subst hE
    have hj3 : j < 3 := hj
    interval_cases j <;> norm_num
  have hn : readNData (weightState : MemoryProcessing ℝ) = 3 := by
    simp [readNData, weightState, mkState, mkEpisode]
  have hw : weightSamples (weightState : MemoryProcessing ℝ).episodes = [1 / 2, 1, 60] := by
    simp [weightSamples, weightState, mkState, mkEpisode, List.range_succ]
  obtain ⟨hb0, hb1, hb80, hb81, _, _, _, _, _, hbin, hfrac, hsum, hone⟩ :=
    C20_histogram_partition (2 ^ 127) (weightState : MemoryProcessing ℝ) hmax hrange
  have h0 : weightsInBin (histBounds Real.exp Real.log (2 ^ 127)) 0 [1 / 2, 1, 60] = 0 := by
    simp only [weightsInBin, Nat.zero_add, hb0, hb1]
    norm_num [List.countP_cons]
  have h80 : weightsInBin (histBounds Real.exp Real.log (2 ^ 127)) 80 [1 / 2, 1, 60] = 1 := by
    simp only [weightsInBin, show 80 + 1 = 81 from rfl, hb80, hb81]
    norm_num [List.countP_cons]
  refine ⟨hmax, hrange, ?_, ?_, ?_, hsum, hn, hone (by rw [hn]; norm_num)⟩
  · rw [hbin 0 (by decide), hw, h0]
  · rw [hbin 80 (by decide), hw, h80]
  · rw [hfrac 80 (by decide), hw, h80, hn]
    norm_num

end HistogramClaims

end smarties
